import Mathlib

/-!
Smart-Ptrs: shared / weak reference counting.

A shallow embedding of `shared-weak/sw_fwd.h`, `shared-weak/shared.h` and
`shared-weak/weak.h`.

* The free store is a `Heap`: a list of control blocks (a block pointer is an index,
  `nullptr` is `none`), a list of pointee objects (an object pointer is an index,
  `nullptr` is `none`) and a log of the destructions that have happened so far.
* `size_t` counters are natural numbers below `2 ^ 64`; `++`, `--` and `+` wrap.
* Undefined behaviour (a call through a dangling or null pointer) is `none`.
* A handle (`SharedPtr`, `WeakPtr`) is a value in the caller's frame: member functions take
  the handle and the heap and return the updated handle and heap.
* The pointee type `T` has no members of its own; the compile-time test
  `std::is_convertible_v<T*, ESFTBase*>` is the Boolean parameter `esft`.
-/

namespace SmartPtrs

/-! ## size_t arithmetic -/

/-- The number of values of `size_t`. -/
def SIZE_MOD : Nat := 2 ^ 64

/-- The value of `++x` on `size_t`. -/
def preInc (x : Nat) : Nat := (x + 1) % SIZE_MOD

/-- The value of `--x` on `size_t`. -/
def preDec (x : Nat) : Nat := (x + (SIZE_MOD - 1)) % SIZE_MOD

/-- The value of `x + y` on `size_t`. -/
def addSize (x y : Nat) : Nat := (x + y) % SIZE_MOD

/-! ## Data model -/

/-- The fields of `WeakPtr<T>`: `ptr_` and `block_`. -/
structure WeakPtr where
  ptr_ : Option Nat
  block_ : Option Nat
deriving DecidableEq, Repr

/-- The fields of `SharedPtr<T>`: `ptr_` and `block_`. -/
structure SharedPtr where
  ptr_ : Option Nat
  block_ : Option Nat
deriving DecidableEq, Repr

/-- The two final classes derived from `ControlBlock`. -/
inductive BlockKind where
  | BlockWithPointer
  | BlockWithObject
deriving DecidableEq, Repr

/-- A control block on the heap. `object_` is the field `object_` of a `BlockWithPointer`
and the value of `GetPointer()` (the address of `buffer_`) of a `BlockWithObject`.
`deleted` is set by `delete this`. -/
structure ControlBlock where
  kind : BlockKind
  use_count_ : Nat
  weak_count_ : Nat
  object_ : Option Nat
  deleted : Bool
deriving DecidableEq, Repr

/-- A pointee of type `T`. `weak_this_` is the member inherited from
`EnableSharedFromThis<T>` (unused when `T` is not self-aware); `destroyed` is set when the
destructor has run. -/
structure Object where
  weak_this_ : WeakPtr
  destroyed : Bool
deriving DecidableEq, Repr

/-- What the log records: the end of a pointee's destructor, and `delete this` of a block. -/
inductive Event where
  | destroyObject (p : Nat)
  | deleteBlock (b : Nat)
deriving DecidableEq, Repr

/-- The free store. -/
structure Heap where
  blocks : List ControlBlock
  objects : List Object
  log : List Event
deriving DecidableEq, Repr

/-- The heap with nothing allocated. -/
def Heap.empty : Heap := ⟨[], [], []⟩

/-- The live block at `b`: `none` when `b` was never allocated or has been deleted. -/
def Heap.block (h : Heap) (b : Nat) : Option ControlBlock :=
  match h.blocks[b]? with
  | some blk => if blk.deleted = true then none else some blk
  | none => none

/-- Overwrite the block at `b`. -/
def Heap.setBlock (h : Heap) (b : Nat) (blk : ControlBlock) : Heap :=
  { h with blocks := h.blocks.set b blk }

/-- The live object at `p`: `none` when there is no object there or it has been destroyed. -/
def Heap.object (h : Heap) (p : Nat) : Option Object :=
  match h.objects[p]? with
  | some o => if o.destroyed = true then none else some o
  | none => none

/-- Overwrite the object at `p`. -/
def Heap.setObject (h : Heap) (p : Nat) (o : Object) : Heap :=
  { h with objects := h.objects.set p o }

/-- The caller's `new T(...)`: a fresh object whose `weak_this_` is default-constructed.
Returns its address. -/
def Heap.newObject (h : Heap) : Nat × Heap :=
  (h.objects.length, { h with objects := h.objects ++ [⟨⟨none, none⟩, false⟩] })

/-- Append an event to the log. -/
def Heap.logEvent (h : Heap) (e : Event) : Heap :=
  { h with log := h.log ++ [e] }

/-- The statement `delete this` in a member function of the block at `b`. -/
def deleteThis (h : Heap) (b : Nat) : Option Heap :=
  match h.block b with
  | none => none
  | some blk =>
    some ((h.setBlock b { blk with deleted := true }).logEvent (Event.deleteBlock b))

/-! ## Counters of a control block (`sw_fwd.h`)

`GetUseCount`, `IncreaseUsage`, `IncreaseWeakUsage` and `DecreaseWeakUsage` have the same
body in `BlockWithPointer` and `BlockWithObject`. -/

/-- `BlockWithPointer::BlockWithPointer(T* object)`. -/
def BlockWithPointer.new (object : Option Nat) : ControlBlock :=
  { kind := BlockKind.BlockWithPointer, use_count_ := 1, weak_count_ := 0,
    object_ := object, deleted := false }

/-- `BlockWithObject::BlockWithObject(Args&&...)`, the object being constructed at
address `buffer`. -/
def BlockWithObject.new (buffer : Nat) : ControlBlock :=
  { kind := BlockKind.BlockWithObject, use_count_ := 1, weak_count_ := 0,
    object_ := some buffer, deleted := false }

/-- `BlockWithPointer::GetUseCount`. -/
def BlockWithPointer.GetUseCount (h : Heap) (b : Nat) : Option Nat :=
  match h.block b with
  | none => none
  | some blk => some blk.use_count_

/-- `BlockWithObject::GetUseCount`. -/
def BlockWithObject.GetUseCount (h : Heap) (b : Nat) : Option Nat :=
  match h.block b with
  | none => none
  | some blk => some blk.use_count_

/-- `BlockWithPointer::IncreaseUsage`. -/
def BlockWithPointer.IncreaseUsage (h : Heap) (b : Nat) : Option Heap :=
  match h.block b with
  | none => none
  | some blk => some (h.setBlock b { blk with use_count_ := preInc blk.use_count_ })

/-- `BlockWithObject::IncreaseUsage`. -/
def BlockWithObject.IncreaseUsage (h : Heap) (b : Nat) : Option Heap :=
  match h.block b with
  | none => none
  | some blk => some (h.setBlock b { blk with use_count_ := preInc blk.use_count_ })

/-- `BlockWithPointer::IncreaseWeakUsage`. -/
def BlockWithPointer.IncreaseWeakUsage (h : Heap) (b : Nat) : Option Heap :=
  match h.block b with
  | none => none
  | some blk => some (h.setBlock b { blk with weak_count_ := preInc blk.weak_count_ })

/-- `BlockWithObject::IncreaseWeakUsage`. -/
def BlockWithObject.IncreaseWeakUsage (h : Heap) (b : Nat) : Option Heap :=
  match h.block b with
  | none => none
  | some blk => some (h.setBlock b { blk with weak_count_ := preInc blk.weak_count_ })

/-- `BlockWithPointer::DecreaseWeakUsage`:
`if (use_count_ + --weak_count_ == 0) delete this;`. -/
def BlockWithPointer.DecreaseWeakUsage (h : Heap) (b : Nat) : Option Heap :=
  match h.block b with
  | none => none
  | some blk =>
    let h1 := h.setBlock b { blk with weak_count_ := preDec blk.weak_count_ }
    if addSize blk.use_count_ (preDec blk.weak_count_) = 0 then deleteThis h1 b else some h1

/-- `BlockWithObject::DecreaseWeakUsage`. -/
def BlockWithObject.DecreaseWeakUsage (h : Heap) (b : Nat) : Option Heap :=
  match h.block b with
  | none => none
  | some blk =>
    let h1 := h.setBlock b { blk with weak_count_ := preDec blk.weak_count_ }
    if addSize blk.use_count_ (preDec blk.weak_count_) = 0 then deleteThis h1 b else some h1

/-- The virtual call `block->GetUseCount()`. -/
def ControlBlock.GetUseCount (h : Heap) (b : Nat) : Option Nat :=
  match h.block b with
  | none => none
  | some blk =>
    match blk.kind with
    | BlockKind.BlockWithPointer => BlockWithPointer.GetUseCount h b
    | BlockKind.BlockWithObject => BlockWithObject.GetUseCount h b

/-- The virtual call `block->IncreaseUsage()`. -/
def ControlBlock.IncreaseUsage (h : Heap) (b : Nat) : Option Heap :=
  match h.block b with
  | none => none
  | some blk =>
    match blk.kind with
    | BlockKind.BlockWithPointer => BlockWithPointer.IncreaseUsage h b
    | BlockKind.BlockWithObject => BlockWithObject.IncreaseUsage h b

/-- The virtual call `block->IncreaseWeakUsage()`. -/
def ControlBlock.IncreaseWeakUsage (h : Heap) (b : Nat) : Option Heap :=
  match h.block b with
  | none => none
  | some blk =>
    match blk.kind with
    | BlockKind.BlockWithPointer => BlockWithPointer.IncreaseWeakUsage h b
    | BlockKind.BlockWithObject => BlockWithObject.IncreaseWeakUsage h b

/-- The virtual call `block->DecreaseWeakUsage()`. -/
def ControlBlock.DecreaseWeakUsage (h : Heap) (b : Nat) : Option Heap :=
  match h.block b with
  | none => none
  | some blk =>
    match blk.kind with
    | BlockKind.BlockWithPointer => BlockWithPointer.DecreaseWeakUsage h b
    | BlockKind.BlockWithObject => BlockWithObject.DecreaseWeakUsage h b

/-! ## WeakPtr (`weak.h`) -/

/-- `WeakPtr::WeakPtr()`. -/
def WeakPtr.empty : WeakPtr := ⟨none, none⟩

/-- `SharedPtr::SharedPtr()` and `SharedPtr::SharedPtr(std::nullptr_t)`. -/
def SharedPtr.empty : SharedPtr := ⟨none, none⟩

/-- `WeakPtr::SafeWeakDecrease`. -/
def WeakPtr.SafeWeakDecrease (self : WeakPtr) (h : Heap) : Option (WeakPtr × Heap) :=
  match self.block_ with
  | some b =>
    match ControlBlock.DecreaseWeakUsage h b with
    | none => none
    | some h1 => some (⟨none, none⟩, h1)
  | none => some (⟨none, none⟩, h)

/-- `WeakPtr::SafeWeakIncrease`. -/
def WeakPtr.SafeWeakIncrease (self : WeakPtr) (h : Heap) : Option Heap :=
  match self.block_ with
  | some b => ControlBlock.IncreaseWeakUsage h b
  | none => some h

/-- `WeakPtr::UnsafeReset`. -/
def WeakPtr.UnsafeReset (_self : WeakPtr) : WeakPtr := ⟨none, none⟩

/-- `WeakPtr::WeakPtr(const WeakPtr& other)`. -/
def WeakPtr.ctor_copy (other : WeakPtr) (h : Heap) : Option (WeakPtr × Heap) :=
  let self : WeakPtr := ⟨other.ptr_, other.block_⟩
  match self.SafeWeakIncrease h with
  | none => none
  | some h1 => some (self, h1)

/-- `WeakPtr::WeakPtr(WeakPtr&& other)`: the new handle and what is left of `other`. -/
def WeakPtr.ctor_move (other : WeakPtr) : WeakPtr × WeakPtr :=
  (⟨other.ptr_, other.block_⟩, ⟨none, none⟩)

/-- `WeakPtr::WeakPtr(const SharedPtr<T>& other)`. -/
def WeakPtr.ctor_shared (other : SharedPtr) (h : Heap) : Option (WeakPtr × Heap) :=
  let self : WeakPtr := ⟨other.ptr_, other.block_⟩
  match self.SafeWeakIncrease h with
  | none => none
  | some h1 => some (self, h1)

/-- `WeakPtr::operator=(const WeakPtr& other)`. -/
def WeakPtr.assign_copy (self other : WeakPtr) (h : Heap) : Option (WeakPtr × Heap) :=
  if other.ptr_ = self.ptr_ then some (self, h)
  else
    match self.SafeWeakDecrease h with
    | none => none
    | some (_, h1) =>
      let self2 : WeakPtr := ⟨other.ptr_, other.block_⟩
      match self2.SafeWeakIncrease h1 with
      | none => none
      | some h2 => some (self2, h2)

/-- `WeakPtr::Swap`. -/
def WeakPtr.Swap (self other : WeakPtr) : WeakPtr × WeakPtr :=
  (⟨other.ptr_, other.block_⟩, ⟨self.ptr_, self.block_⟩)

/-- `WeakPtr::operator=(WeakPtr&& other)`: the updated `self` and `other`. -/
def WeakPtr.assign_move (self other : WeakPtr) (h : Heap) :
    Option (WeakPtr × WeakPtr × Heap) :=
  if other.ptr_ = self.ptr_ then some (self, other, h)
  else
    match self.SafeWeakDecrease h with
    | none => none
    | some (self1, h1) =>
      let r := self1.Swap other
      some (r.1, r.2, h1)

/-- `WeakPtr::operator=(const SharedPtr<T>& other)`. -/
def WeakPtr.assign_shared (self : WeakPtr) (other : SharedPtr) (h : Heap) :
    Option (WeakPtr × Heap) :=
  if other.ptr_ = self.ptr_ then some (self, h)
  else
    match self.SafeWeakDecrease h with
    | none => none
    | some (_, h1) =>
      let self2 : WeakPtr := ⟨other.ptr_, other.block_⟩
      match self2.SafeWeakIncrease h1 with
      | none => none
      | some h2 => some (self2, h2)

/-- `WeakPtr::~WeakPtr`. -/
def WeakPtr.dtor (self : WeakPtr) (h : Heap) : Option (WeakPtr × Heap) :=
  self.SafeWeakDecrease h

/-- `WeakPtr::Reset`. -/
def WeakPtr.Reset (self : WeakPtr) (h : Heap) : Option (WeakPtr × Heap) :=
  self.SafeWeakDecrease h

/-- Destroy the weak handles of a list, one after the other. -/
def WeakPtr.dtorAll : List WeakPtr → Heap → Option Heap
  | [], h => some h
  | w :: ws, h =>
    match w.dtor h with
    | none => none
    | some (_, h1) => WeakPtr.dtorAll ws h1

/-- `WeakPtr::UseCount`. -/
def WeakPtr.UseCount (self : WeakPtr) (h : Heap) : Option Nat :=
  match self.block_ with
  | some b => ControlBlock.GetUseCount h b
  | none => some 0

/-- `WeakPtr::Expired`. -/
def WeakPtr.Expired (self : WeakPtr) (h : Heap) : Option Bool :=
  match self.UseCount h with
  | none => none
  | some n => some (decide (n = 0))

/-- `WeakPtr::Lock`. -/
def WeakPtr.Lock (self : WeakPtr) (h : Heap) : Option (SharedPtr × Heap) :=
  match self.Expired h with
  | none => none
  | some true => some (SharedPtr.empty, h)
  | some false =>
    match self.block_ with
    | none => none
    | some b =>
      match ControlBlock.IncreaseUsage h b with
      | none => none
      | some h1 => some (⟨self.ptr_, self.block_⟩, h1)

/-! ## Destruction of the pointee -/

/-- `EnableSharedFromThis<T>::~EnableSharedFromThis` on the object at `p`. The body is
`weak_this_ = nullptr;`: `nullptr` converts to a temporary `SharedPtr<T>(nullptr)`, so the
call is `WeakPtr::operator=(const SharedPtr<T>&)` (the temporary is empty and its
destructor does nothing). The member `weak_this_` is destroyed after the body. -/
def EnableSharedFromThis.dtor (h : Heap) (p : Nat) : Option Heap :=
  match h.object p with
  | none => none
  | some o =>
    match o.weak_this_.assign_shared SharedPtr.empty h with
    | none => none
    | some (w1, h1) =>
      match w1.dtor h1 with
      | none => none
      | some (w2, h2) => some (h2.setObject p { o with weak_this_ := w2 })

/-- The destructor `~T()` on the object at `p`, for a `T` that has no handle among its own
members: the base-class destructor when `T` is self-aware, then the object is dead. A
pointee whose destructor gives back handles is run with `deleteObjectWith` and the
functions that follow it, which take the destructor as a parameter. -/
def destroyT (esft : Bool) (h : Heap) (p : Nat) : Option Heap :=
  match (if esft = true then EnableSharedFromThis.dtor h p else some h) with
  | none => none
  | some h1 =>
    match h1.object p with
    | none => none
    | some o =>
      some ((h1.setObject p { o with destroyed := true }).logEvent (Event.destroyObject p))

/-- The expression `delete object_` of `BlockWithPointer`; deleting `nullptr` does nothing. -/
def deleteObject (esft : Bool) (h : Heap) (object_ : Option Nat) : Option Heap :=
  match object_ with
  | none => some h
  | some p => destroyT esft h p

/-- The statement `object_->weak_this_.UnsafeReset()`. -/
def resetWeakThis (h : Heap) (object_ : Option Nat) : Option Heap :=
  match object_ with
  | none => none
  | some p =>
    match h.object p with
    | none => none
    | some o => some (h.setObject p { o with weak_this_ := o.weak_this_.UnsafeReset })

/-- `BlockWithPointer::DecreaseUsage`. -/
def BlockWithPointer.DecreaseUsage (esft : Bool) (h : Heap) (b : Nat) : Option Heap :=
  match h.block b with
  | none => none
  | some blk =>
    let h1 := h.setBlock b { blk with use_count_ := preDec blk.use_count_ }
    if preDec blk.use_count_ = 0 then
      if esft = true ∧ blk.weak_count_ = 1 then
        match resetWeakThis h1 blk.object_ with
        | none => none
        | some h2 =>
          match deleteObject esft h2 blk.object_ with
          | none => none
          | some h3 => deleteThis h3 b
      else
        match deleteObject esft h1 blk.object_ with
        | none => none
        | some h2 =>
          match h2.block b with
          | none => none
          | some blk2 =>
            if addSize blk2.use_count_ blk2.weak_count_ = 0 then deleteThis h2 b else some h2
    else
      if addSize (preDec blk.use_count_) blk.weak_count_ = 0 then deleteThis h1 b else some h1

/-- `BlockWithObject::DecreaseUsage`; `GetPointer()` is never null and `GetPointer()->~T()`
runs the destructor in place. -/
def BlockWithObject.DecreaseUsage (esft : Bool) (h : Heap) (b : Nat) : Option Heap :=
  match h.block b with
  | none => none
  | some blk =>
    let h1 := h.setBlock b { blk with use_count_ := preDec blk.use_count_ }
    if preDec blk.use_count_ = 0 then
      if esft = true ∧ blk.weak_count_ = 1 then
        match resetWeakThis h1 blk.object_ with
        | none => none
        | some h2 =>
          match blk.object_ with
          | none => none
          | some p =>
            match destroyT esft h2 p with
            | none => none
            | some h3 => deleteThis h3 b
      else
        match blk.object_ with
        | none => none
        | some p =>
          match destroyT esft h1 p with
          | none => none
          | some h2 =>
            match h2.block b with
            | none => none
            | some blk2 =>
              if addSize blk2.use_count_ blk2.weak_count_ = 0 then deleteThis h2 b
              else some h2
    else
      if addSize (preDec blk.use_count_) blk.weak_count_ = 0 then deleteThis h1 b else some h1

/-- The virtual call `block->DecreaseUsage()`. -/
def ControlBlock.DecreaseUsage (esft : Bool) (h : Heap) (b : Nat) : Option Heap :=
  match h.block b with
  | none => none
  | some blk =>
    match blk.kind with
    | BlockKind.BlockWithPointer => BlockWithPointer.DecreaseUsage esft h b
    | BlockKind.BlockWithObject => BlockWithObject.DecreaseUsage esft h b

/-! ## SharedPtr (`shared.h`) -/

/-- `SharedPtr::SafeDecrease`. -/
def SharedPtr.SafeDecrease (esft : Bool) (self : SharedPtr) (h : Heap) :
    Option (SharedPtr × Heap) :=
  match self.block_ with
  | some b =>
    match ControlBlock.DecreaseUsage esft h b with
    | none => none
    | some h1 => some (⟨none, none⟩, h1)
  | none => some (⟨none, none⟩, h)

/-- `SharedPtr::SafeIncrease`. -/
def SharedPtr.SafeIncrease (self : SharedPtr) (h : Heap) : Option Heap :=
  match self.block_ with
  | some b => ControlBlock.IncreaseUsage h b
  | none => some h

/-- `SharedPtr::InitWeakThis(e)`: the statement `e->weak_this_ = *this`. -/
def SharedPtr.InitWeakThis (self : SharedPtr) (h : Heap) (e : Option Nat) : Option Heap :=
  match e with
  | none => none
  | some p =>
    match h.object p with
    | none => none
    | some o =>
      match o.weak_this_.assign_shared self h with
      | none => none
      | some (w, h1) => some (h1.setObject p { o with weak_this_ := w })

/-- `SharedPtr::SharedPtr(T* ptr)`. -/
def SharedPtr.ctor_ptr (esft : Bool) (ptr : Option Nat) (h : Heap) :
    Option (SharedPtr × Heap) :=
  let self : SharedPtr := ⟨ptr, some h.blocks.length⟩
  let h1 : Heap := { h with blocks := h.blocks ++ [BlockWithPointer.new ptr] }
  if esft = true then
    match self.InitWeakThis h1 ptr with
    | none => none
    | some h2 => some (self, h2)
  else some (self, h1)

/-- `SharedPtr::SharedPtr(const SharedPtr& other)`. -/
def SharedPtr.ctor_copy (other : SharedPtr) (h : Heap) : Option (SharedPtr × Heap) :=
  let self : SharedPtr := ⟨other.ptr_, other.block_⟩
  match self.SafeIncrease h with
  | none => none
  | some h1 => some (self, h1)

/-- `SharedPtr::SharedPtr(SharedPtr&& other)`: the new handle and what is left of `other`. -/
def SharedPtr.ctor_move (other : SharedPtr) : SharedPtr × SharedPtr :=
  (⟨other.ptr_, other.block_⟩, ⟨none, none⟩)

/-- `SharedPtr::SharedPtr(const SharedPtr<Y>& other, T* ptr)`, the aliasing constructor. -/
def SharedPtr.ctor_alias (other : SharedPtr) (ptr : Option Nat) (h : Heap) :
    Option (SharedPtr × Heap) :=
  let self : SharedPtr := ⟨ptr, other.block_⟩
  match self.SafeIncrease h with
  | none => none
  | some h1 => some (self, h1)

/-- The exception `BadWeakPtr`. -/
inductive BadWeakPtr where
  | thrown
deriving DecidableEq, Repr

/-- `SharedPtr::SharedPtr(const WeakPtr<T>& other)`; a throw leaves the heap as it was. -/
def SharedPtr.ctor_weak (other : WeakPtr) (h : Heap) :
    Option (Except BadWeakPtr SharedPtr × Heap) :=
  let self : SharedPtr := ⟨other.ptr_, other.block_⟩
  match other.Expired h with
  | none => none
  | some true => some (Except.error BadWeakPtr.thrown, h)
  | some false =>
    match self.SafeIncrease h with
    | none => none
    | some h1 => some (Except.ok self, h1)

/-- `SharedPtr::operator=(const SharedPtr& other)` with `other` given by its value, for a
pointee without handle members. The source reads `other.ptr_` and `other.block_` through the
reference after `SafeDecrease()`; the value is what it reads when the release does not
destroy `other`, as for a variable of the caller. `SharedPtr.assign_copy_ref` takes `other`
as a reference. -/
def SharedPtr.assign_copy (esft : Bool) (self other : SharedPtr) (h : Heap) :
    Option (SharedPtr × Heap) :=
  if other.ptr_ = self.ptr_ then some (self, h)
  else
    match self.SafeDecrease esft h with
    | none => none
    | some (_, h1) =>
      let self2 : SharedPtr := ⟨other.ptr_, other.block_⟩
      match self2.SafeIncrease h1 with
      | none => none
      | some h2 => some (self2, h2)

/-- `SharedPtr::Swap`. -/
def SharedPtr.Swap (self other : SharedPtr) : SharedPtr × SharedPtr :=
  (⟨other.ptr_, other.block_⟩, ⟨self.ptr_, self.block_⟩)

/-- `SharedPtr::operator=(SharedPtr&& other)`: the updated `self` and `other`, with `other`
a variable of the caller, which the release of `self`'s unit cannot destroy, and a pointee
without handle members. -/
def SharedPtr.assign_move (esft : Bool) (self other : SharedPtr) (h : Heap) :
    Option (SharedPtr × SharedPtr × Heap) :=
  if other.ptr_ = self.ptr_ then some (self, other, h)
  else
    match self.SafeDecrease esft h with
    | none => none
    | some (self1, h1) =>
      let r := self1.Swap other
      some (r.1, r.2, h1)

/-- `SharedPtr::~SharedPtr`. -/
def SharedPtr.dtor (esft : Bool) (self : SharedPtr) (h : Heap) : Option (SharedPtr × Heap) :=
  self.SafeDecrease esft h

/-- `SharedPtr::Reset()`. -/
def SharedPtr.Reset (esft : Bool) (self : SharedPtr) (h : Heap) : Option (SharedPtr × Heap) :=
  match self.SafeDecrease esft h with
  | none => none
  | some (_, h1) => some (⟨none, none⟩, h1)

/-- `SharedPtr::Reset(T* ptr)`. -/
def SharedPtr.Reset_ptr (esft : Bool) (self : SharedPtr) (ptr : Option Nat) (h : Heap) :
    Option (SharedPtr × Heap) :=
  if ptr = self.ptr_ then some (self, h)
  else
    match self.SafeDecrease esft h with
    | none => none
    | some (_, h1) =>
      if ptr = none then some (⟨ptr, none⟩, h1)
      else
        some (⟨ptr, some h1.blocks.length⟩,
              { h1 with blocks := h1.blocks ++ [BlockWithPointer.new ptr] })

/-- `SharedPtr::Get`. -/
def SharedPtr.Get (self : SharedPtr) : Option Nat := self.ptr_

/-- `SharedPtr::UseCount`. -/
def SharedPtr.UseCount (self : SharedPtr) (h : Heap) : Option Nat :=
  match self.block_ with
  | none => some 0
  | some b => ControlBlock.GetUseCount h b

/-- `SharedPtr::operator bool`. -/
def SharedPtr.toBool (self : SharedPtr) : Bool := decide (self.ptr_ ≠ none)

/-- `MakeShared<T>(args...)`: one allocation holds the block and the object. -/
def MakeShared (esft : Bool) (h : Heap) : Option (SharedPtr × Heap) :=
  let p := h.objects.length
  let b := h.blocks.length
  let h1 : Heap :=
    { h with blocks := h.blocks ++ [BlockWithObject.new p],
             objects := h.objects ++ [⟨WeakPtr.empty, false⟩] }
  let result : SharedPtr := ⟨some p, some b⟩
  if esft = true then
    match result.InitWeakThis h1 result.Get with
    | none => none
    | some h2 => some (result, h2)
  else some (result, h1)

/-- `EnableSharedFromThis<T>::SharedFromThis` on the object at `p`. -/
def EnableSharedFromThis.SharedFromThis (h : Heap) (p : Nat) : Option (SharedPtr × Heap) :=
  match h.object p with
  | none => none
  | some o => o.weak_this_.Lock h

/-- `EnableSharedFromThis<T>::WeakFromThis` on the object at `p`: a copy of `weak_this_`. -/
def EnableSharedFromThis.WeakFromThis (h : Heap) (p : Nat) : Option (WeakPtr × Heap) :=
  match h.object p with
  | none => none
  | some o => WeakPtr.ctor_copy o.weak_this_ h

/-! ## A program working on handles

The caller's frame holds a list of live `SharedPtr` variables and a list of live `WeakPtr`
variables. An `Op` is one statement of the caller; a statement that names a variable that
does not exist is skipped. A new variable is appended, a destroyed one is removed. -/

/-- The caller's frame together with the heap. -/
structure Sys where
  heap : Heap
  shared : List SharedPtr
  weak : List WeakPtr
deriving DecidableEq, Repr

/-- One statement of the caller, `s` the `SharedPtr` variables and `w` the `WeakPtr` ones. -/
inductive Op where
  /-- The declaration `SharedPtr<T> c(s[i]);`. -/
  | sharedCopy (i : Nat)
  /-- The declaration `SharedPtr<T> c(std::move(s[i]));`. -/
  | sharedMove (i : Nat)
  /-- The statement `s[i] = s[j];`. -/
  | sharedAssign (i j : Nat)
  /-- The statement `s[i] = std::move(s[j]);`. -/
  | sharedMoveAssign (i j : Nat)
  /-- The statement `s[i].Reset();`. -/
  | sharedReset (i : Nat)
  /-- The end of the lifetime of `s[i]`. -/
  | sharedDestroy (i : Nat)
  /-- The declaration `SharedPtr<T> c(w[j]);`, which may throw. -/
  | sharedFromWeak (j : Nat)
  /-- The declaration `SharedPtr<T> c = w[j].Lock();`. -/
  | lock (j : Nat)
  /-- The declaration `WeakPtr<T> c(s[i]);`. -/
  | weakFromShared (i : Nat)
  /-- The declaration `WeakPtr<T> c(w[j]);`. -/
  | weakCopy (j : Nat)
  /-- The declaration `WeakPtr<T> c(std::move(w[j]));`. -/
  | weakMove (j : Nat)
  /-- The statement `w[j] = w[k];`. -/
  | weakAssign (j k : Nat)
  /-- The statement `w[j] = std::move(w[k]);`. -/
  | weakMoveAssign (j k : Nat)
  /-- The statement `w[j] = s[i];`. -/
  | weakAssignShared (j i : Nat)
  /-- The statement `w[j].Reset();`. -/
  | weakReset (j : Nat)
  /-- The end of the lifetime of `w[j]`. -/
  | weakDestroy (j : Nat)
deriving DecidableEq, Repr

/-- Run one statement. -/
def Sys.step (esft : Bool) (s : Sys) : Op → Option Sys
  | Op.sharedCopy i =>
    match s.shared[i]? with
    | none => some s
    | some x =>
      match SharedPtr.ctor_copy x s.heap with
      | none => none
      | some (c, h) => some { s with heap := h, shared := s.shared ++ [c] }
  | Op.sharedMove i =>
    match s.shared[i]? with
    | none => some s
    | some x =>
      some { s with shared := s.shared.set i (SharedPtr.ctor_move x).2 ++
                                [(SharedPtr.ctor_move x).1] }
  | Op.sharedAssign i j =>
    match s.shared[i]?, s.shared[j]? with
    | some x, some y =>
      match SharedPtr.assign_copy esft x y s.heap with
      | none => none
      | some (x1, h) => some { s with heap := h, shared := s.shared.set i x1 }
    | _, _ => some s
  | Op.sharedMoveAssign i j =>
    match s.shared[i]?, s.shared[j]? with
    | some x, some y =>
      match SharedPtr.assign_move esft x y s.heap with
      | none => none
      | some (x1, y1, h) => some { s with heap := h, shared := (s.shared.set j y1).set i x1 }
    | _, _ => some s
  | Op.sharedReset i =>
    match s.shared[i]? with
    | none => some s
    | some x =>
      match SharedPtr.Reset esft x s.heap with
      | none => none
      | some (x1, h) => some { s with heap := h, shared := s.shared.set i x1 }
  | Op.sharedDestroy i =>
    match s.shared[i]? with
    | none => some s
    | some x =>
      match SharedPtr.dtor esft x s.heap with
      | none => none
      | some (_, h) => some { s with heap := h, shared := s.shared.eraseIdx i }
  | Op.sharedFromWeak j =>
    match s.weak[j]? with
    | none => some s
    | some w =>
      match SharedPtr.ctor_weak w s.heap with
      | none => none
      | some (Except.error _, h) => some { s with heap := h }
      | some (Except.ok c, h) => some { s with heap := h, shared := s.shared ++ [c] }
  | Op.lock j =>
    match s.weak[j]? with
    | none => some s
    | some w =>
      match w.Lock s.heap with
      | none => none
      | some (c, h) => some { s with heap := h, shared := s.shared ++ [c] }
  | Op.weakFromShared i =>
    match s.shared[i]? with
    | none => some s
    | some x =>
      match WeakPtr.ctor_shared x s.heap with
      | none => none
      | some (c, h) => some { s with heap := h, weak := s.weak ++ [c] }
  | Op.weakCopy j =>
    match s.weak[j]? with
    | none => some s
    | some w =>
      match WeakPtr.ctor_copy w s.heap with
      | none => none
      | some (c, h) => some { s with heap := h, weak := s.weak ++ [c] }
  | Op.weakMove j =>
    match s.weak[j]? with
    | none => some s
    | some w =>
      some { s with weak := s.weak.set j (WeakPtr.ctor_move w).2 ++ [(WeakPtr.ctor_move w).1] }
  | Op.weakAssign j k =>
    match s.weak[j]?, s.weak[k]? with
    | some x, some y =>
      match WeakPtr.assign_copy x y s.heap with
      | none => none
      | some (x1, h) => some { s with heap := h, weak := s.weak.set j x1 }
    | _, _ => some s
  | Op.weakMoveAssign j k =>
    match s.weak[j]?, s.weak[k]? with
    | some x, some y =>
      match WeakPtr.assign_move x y s.heap with
      | none => none
      | some (x1, y1, h) => some { s with heap := h, weak := (s.weak.set k y1).set j x1 }
    | _, _ => some s
  | Op.weakAssignShared j i =>
    match s.weak[j]?, s.shared[i]? with
    | some x, some y =>
      match WeakPtr.assign_shared x y s.heap with
      | none => none
      | some (x1, h) => some { s with heap := h, weak := s.weak.set j x1 }
    | _, _ => some s
  | Op.weakReset j =>
    match s.weak[j]? with
    | none => some s
    | some w =>
      match w.Reset s.heap with
      | none => none
      | some (w1, h) => some { s with heap := h, weak := s.weak.set j w1 }
  | Op.weakDestroy j =>
    match s.weak[j]? with
    | none => some s
    | some w =>
      match w.dtor s.heap with
      | none => none
      | some (_, h) => some { s with heap := h, weak := s.weak.eraseIdx j }

/-- Run a sequence of statements, stopping at undefined behaviour. -/
def Sys.run (esft : Bool) (s : Sys) : List Op → Option Sys
  | [] => some s
  | op :: ops =>
    match s.step esft op with
    | none => none
    | some s1 => s1.run esft ops

/-- The frame right after `SharedPtr<T> a(ptr);`. -/
def Sys.startPtr (esft : Bool) (h : Heap) (ptr : Nat) : Option Sys :=
  match SharedPtr.ctor_ptr esft (some ptr) h with
  | none => none
  | some (a, h1) => some ⟨h1, [a], []⟩

/-- The frame right after `SharedPtr<T> a = MakeShared<T>(...);`. -/
def Sys.startMake (esft : Bool) (h : Heap) : Option Sys :=
  match MakeShared esft h with
  | none => none
  | some (a, h1) => some ⟨h1, [a], []⟩

/-- Number of `destroyObject p` entries in the log. -/
def Heap.destroyCount (h : Heap) (p : Nat) : Nat := h.log.count (Event.destroyObject p)

/-- Number of `deleteBlock b` entries in the log. -/
def Heap.deleteCount (h : Heap) (b : Nat) : Nat := h.log.count (Event.deleteBlock b)

/-- The stored `use_count_` of block `b`, whether or not the block is still allocated. -/
def Heap.useCount (h : Heap) (b : Nat) : Nat :=
  match h.blocks[b]? with
  | some blk => blk.use_count_
  | none => 0

/-- The stored `weak_count_` of block `b`, whether or not the block is still allocated. -/
def Heap.weakCount (h : Heap) (b : Nat) : Nat :=
  match h.blocks[b]? with
  | some blk => blk.weak_count_
  | none => 0

/-- The strong units a handle holds: one when it has a block, none when it is empty. -/
def SharedPtr.unit (x : SharedPtr) : Nat := if x.block_.isSome = true then 1 else 0

/-- The weak units a handle holds: one when it has a block, none when it is empty. -/
def WeakPtr.unit (x : WeakPtr) : Nat := if x.block_.isSome = true then 1 else 0

/-- Number of handles in the list that hold a block. -/
def sharedUnits (l : List SharedPtr) : Nat := l.countP fun x => x.block_.isSome

/-- Number of handles in the list that hold a block. -/
def weakUnits (l : List WeakPtr) : Nat := l.countP fun x => x.block_.isSome

/-- The heap as seen from the family of block `b` with pointee `p`, when `S` strong handles
and `W` weak handles hold the block; `L0` is the log before anything was released. -/
def FamilyHeap (esft : Bool) (b p : Nat) (L0 : List Event) (S W : Nat) (h : Heap) : Prop :=
  ∃ blk o, h.blocks[b]? = some blk ∧ h.objects[p]? = some o ∧
    blk.object_ = some p ∧ blk.use_count_ = S ∧
    (esft = false → blk.weak_count_ = W) ∧
    (esft = true → 0 < S → blk.weak_count_ = W + 1 ∧ o.weak_this_ = ⟨some p, some b⟩) ∧
    (esft = true → S = 0 → 0 < W → blk.weak_count_ = W) ∧
    (blk.deleted = true ↔ S = 0 ∧ W = 0) ∧
    (o.destroyed = true ↔ S = 0) ∧
    h.log = L0 ++ (if S = 0 then [Event.destroyObject p] else []) ++
              (if S = 0 ∧ W = 0 then [Event.deleteBlock b] else [])

/-- A handle of the family: bound to block `b` and pointee `p`, or empty. -/
def SharedPtr.inFamily (b p : Nat) (x : SharedPtr) : Prop :=
  x = ⟨some p, some b⟩ ∨ x = ⟨none, none⟩

/-- A weak handle of the family: bound to block `b` and pointee `p`, or empty. -/
def WeakPtr.inFamily (b p : Nat) (x : WeakPtr) : Prop :=
  x = ⟨some p, some b⟩ ∨ x = ⟨none, none⟩

/-- The invariant of a frame whose handles all belong to the family of block `b`. -/
def FamilyInv (esft : Bool) (b p : Nat) (L0 : List Event) (s : Sys) : Prop :=
  (∀ x ∈ s.shared, x.inFamily b p) ∧ (∀ w ∈ s.weak, w.inFamily b p) ∧
  FamilyHeap esft b p L0 (sharedUnits s.shared) (weakUnits s.weak) s.heap

/-- The pairing a handle keeps when it is not made by the aliasing constructor: the raw
pointer is null exactly when the block pointer is. -/
def SharedPtr.Paired (x : SharedPtr) : Prop := x.ptr_ = none ↔ x.block_ = none

/-- The same pairing for a weak handle. -/
def WeakPtr.Paired (x : WeakPtr) : Prop := x.ptr_ = none ↔ x.block_ = none

/-! ## A program using every public operation

`PubOp` adds to `Op` the statements that create a block, rebind a handle to a new block,
swap two handles or read `weak_this_`. Raw pointers are values of the caller: `none` is
`nullptr`, `some p` the address of the object `p`. -/

/-- One statement of a caller that may use every public operation. -/
inductive PubOp where
  /-- A statement of `Op`. -/
  | handle (op : Op)
  /-- The expression `new T`; the caller keeps the raw pointer. -/
  | newT
  /-- The declaration `SharedPtr<T> c;` or `SharedPtr<T> c(nullptr);`. -/
  | sharedDefault
  /-- The declaration `SharedPtr<T> c(p);`. -/
  | sharedFromPtr (p : Option Nat)
  /-- The declaration `SharedPtr<T> c = MakeShared<T>();`. -/
  | makeShared
  /-- The declaration `SharedPtr<T> c(s[i], p);`. -/
  | sharedAlias (i : Nat) (p : Option Nat)
  /-- The statement `s[i].Reset(p);`. -/
  | sharedResetPtr (i : Nat) (p : Option Nat)
  /-- The statement `s[i].Swap(s[j]);`. -/
  | sharedSwap (i j : Nat)
  /-- The declaration `WeakPtr<T> c;`. -/
  | weakDefault
  /-- The statement `w[j].Swap(w[k]);`. -/
  | weakSwap (j k : Nat)
  /-- The declaration `SharedPtr<T> c = p->SharedFromThis();`, for a self-aware `T`. -/
  | sharedFromThis (p : Nat)
  /-- The declaration `WeakPtr<T> c = p->WeakFromThis();`, for a self-aware `T`. -/
  | weakFromThis (p : Nat)
deriving DecidableEq, Repr

/-- Run one statement; `SharedFromThis` and `WeakFromThis` exist only for a self-aware `T`
and are skipped otherwise. -/
def Sys.stepPub (esft : Bool) (s : Sys) : PubOp → Option Sys
  | PubOp.handle op => s.step esft op
  | PubOp.newT => some { s with heap := s.heap.newObject.2 }
  | PubOp.sharedDefault => some { s with shared := s.shared ++ [SharedPtr.empty] }
  | PubOp.sharedFromPtr p =>
    match SharedPtr.ctor_ptr esft p s.heap with
    | none => none
    | some (c, h) => some { s with heap := h, shared := s.shared ++ [c] }
  | PubOp.makeShared =>
    match MakeShared esft s.heap with
    | none => none
    | some (c, h) => some { s with heap := h, shared := s.shared ++ [c] }
  | PubOp.sharedAlias i p =>
    match s.shared[i]? with
    | none => some s
    | some x =>
      match SharedPtr.ctor_alias x p s.heap with
      | none => none
      | some (c, h) => some { s with heap := h, shared := s.shared ++ [c] }
  | PubOp.sharedResetPtr i p =>
    match s.shared[i]? with
    | none => some s
    | some x =>
      match SharedPtr.Reset_ptr esft x p s.heap with
      | none => none
      | some (x1, h) => some { s with heap := h, shared := s.shared.set i x1 }
  | PubOp.sharedSwap i j =>
    match s.shared[i]?, s.shared[j]? with
    | some x, some y =>
      some { s with shared := (s.shared.set j (x.Swap y).2).set i (x.Swap y).1 }
    | _, _ => some s
  | PubOp.weakDefault => some { s with weak := s.weak ++ [WeakPtr.empty] }
  | PubOp.weakSwap j k =>
    match s.weak[j]?, s.weak[k]? with
    | some x, some y =>
      some { s with weak := (s.weak.set k (x.Swap y).2).set j (x.Swap y).1 }
    | _, _ => some s
  | PubOp.sharedFromThis p =>
    if esft = true then
      match EnableSharedFromThis.SharedFromThis s.heap p with
      | none => none
      | some (c, h) => some { s with heap := h, shared := s.shared ++ [c] }
    else some s
  | PubOp.weakFromThis p =>
    if esft = true then
      match EnableSharedFromThis.WeakFromThis s.heap p with
      | none => none
      | some (c, h) => some { s with heap := h, weak := s.weak ++ [c] }
    else some s

/-- Run a sequence of statements, stopping at undefined behaviour. -/
def Sys.runPub (esft : Bool) (s : Sys) : List PubOp → Option Sys
  | [] => some s
  | op :: ops =>
    match s.stepPub esft op with
    | none => none
    | some s1 => s1.runPub esft ops

/-- The frame of a program that has not run a statement yet. -/
def Sys.init : Sys := ⟨Heap.empty, [], []⟩

/-- The statements that construct, copy, assign, reset, swap or destroy a `WeakPtr`. -/
def PubOp.isWeakOp : PubOp → Bool
  | PubOp.handle (Op.weakFromShared _) => true
  | PubOp.handle (Op.weakCopy _) => true
  | PubOp.handle (Op.weakMove _) => true
  | PubOp.handle (Op.weakAssign _ _) => true
  | PubOp.handle (Op.weakMoveAssign _ _) => true
  | PubOp.handle (Op.weakAssignShared _ _) => true
  | PubOp.handle (Op.weakReset _) => true
  | PubOp.handle (Op.weakDestroy _) => true
  | PubOp.weakDefault => true
  | PubOp.weakSwap _ _ => true
  | PubOp.weakFromThis _ => true
  | _ => false

/-- The strong units a handle holds on block `b`. -/
def SharedPtr.unitAt (x : SharedPtr) (b : Nat) : Nat := if x.block_ = some b then 1 else 0

/-- The weak units a handle holds on block `b`. -/
def WeakPtr.unitAt (x : WeakPtr) (b : Nat) : Nat := if x.block_ = some b then 1 else 0

/-- Number of `SharedPtr` variables whose `block_` is block `b`. -/
def strongHolders (l : List SharedPtr) (b : Nat) : Nat :=
  l.countP fun x => decide (x.block_ = some b)

/-- Number of `WeakPtr` variables whose `block_` is block `b`. -/
def weakHolders (l : List WeakPtr) (b : Nat) : Nat :=
  l.countP fun x => decide (x.block_ = some b)

/-- Strong accounting: every stored `use_count_` is the number of `SharedPtr` variables on
the block. -/
def Sys.StrongAcct (s : Sys) : Prop := ∀ b, s.heap.useCount b = strongHolders s.shared b

/-- Weak accounting: every stored `weak_count_` is the number of `WeakPtr` variables on the
block. -/
def Sys.WeakAcct (s : Sys) : Prop := ∀ b, s.heap.weakCount b = weakHolders s.weak b

/-- What one statement keeps, from the frame `s` before it to the frame `s1` after it:
strong accounting, weak accounting for a `T` that is not self-aware, at most one more
variable, no block slot lost, and no new holder for a block in the heap that has none. -/
def Sys.AcctStep (esft : Bool) (s s1 : Sys) : Prop :=
  s1.StrongAcct ∧ (esft = false → s.WeakAcct → s1.WeakAcct) ∧
  s1.shared.length + s1.weak.length ≤ s.shared.length + s.weak.length + 1 ∧
  s.heap.blocks.length ≤ s1.heap.blocks.length ∧
  ∀ b, b < s.heap.blocks.length → strongHolders s.shared b = 0 →
    strongHolders s1.shared b = 0

/-! ## The counting protocol of one block -/

/-- A call of one of the four counting member functions of a control block. -/
inductive BlockCall where
  | IncreaseUsage
  | DecreaseUsage
  | IncreaseWeakUsage
  | DecreaseWeakUsage
deriving DecidableEq, Repr

/-- The call, on a `BlockWithPointer` at `b`. -/
def BlockWithPointer.call (esft : Bool) (h : Heap) (b : Nat) : BlockCall → Option Heap
  | BlockCall.IncreaseUsage => BlockWithPointer.IncreaseUsage h b
  | BlockCall.DecreaseUsage => BlockWithPointer.DecreaseUsage esft h b
  | BlockCall.IncreaseWeakUsage => BlockWithPointer.IncreaseWeakUsage h b
  | BlockCall.DecreaseWeakUsage => BlockWithPointer.DecreaseWeakUsage h b

/-- The call, on a `BlockWithObject` at `b`. -/
def BlockWithObject.call (esft : Bool) (h : Heap) (b : Nat) : BlockCall → Option Heap
  | BlockCall.IncreaseUsage => BlockWithObject.IncreaseUsage h b
  | BlockCall.DecreaseUsage => BlockWithObject.DecreaseUsage esft h b
  | BlockCall.IncreaseWeakUsage => BlockWithObject.IncreaseWeakUsage h b
  | BlockCall.DecreaseWeakUsage => BlockWithObject.DecreaseWeakUsage h b

/-- What is seen after each call of a sequence on the `BlockWithPointer` at `b`: the value
of `GetUseCount()` (nothing once the block is deleted) and the events so far. The trace
ends with `none` at a call that is undefined. -/
def BlockWithPointer.trace (esft : Bool) (b : Nat) :
    Heap → List BlockCall → List (Option (Option Nat × List Event))
  | _, [] => []
  | h, c :: cs =>
    match BlockWithPointer.call esft h b c with
    | none => [none]
    | some h1 =>
      some (BlockWithPointer.GetUseCount h1 b, h1.log) :: BlockWithPointer.trace esft b h1 cs

/-- The same trace for the `BlockWithObject` at `b`. -/
def BlockWithObject.trace (esft : Bool) (b : Nat) :
    Heap → List BlockCall → List (Option (Option Nat × List Event))
  | _, [] => []
  | h, c :: cs =>
    match BlockWithObject.call esft h b c with
    | none => [none]
    | some h1 =>
      some (BlockWithObject.GetUseCount h1 b, h1.log) :: BlockWithObject.trace esft b h1 cs

/-- The block with its dynamic type replaced by `k`. -/
def ControlBlock.retag (k : BlockKind) (blk : ControlBlock) : ControlBlock :=
  { blk with kind := k }

/-- The heap with the dynamic type of every block replaced by `k`. -/
def Heap.retag (k : BlockKind) (h : Heap) : Heap :=
  { h with blocks := h.blocks.map (ControlBlock.retag k) }

/-- The pointee address stored in each block. -/
def Heap.pointees (h : Heap) : List (Option Nat) := h.blocks.map ControlBlock.object_

/-- The expression `delete object_` of `BlockWithPointer`, for a pointee whose destructor is
`dtorT`; deleting `nullptr` does nothing. -/
def deleteObjectWith (dtorT : Heap → Nat → Option Heap) (h : Heap) (object_ : Option Nat) :
    Option Heap :=
  match object_ with
  | none => some h
  | some p => dtorT h p

/-- `BlockWithPointer::DecreaseUsage`, for a pointee whose destructor is `dtorT`. After
`delete object_` the members `use_count_` and `weak_count_` of `this` are read again: when
the destructor has deleted the block there is nothing to read. -/
def BlockWithPointer.DecreaseUsageWith (dtorT : Heap → Nat → Option Heap) (esft : Bool)
    (h : Heap) (b : Nat) : Option Heap :=
  match h.block b with
  | none => none
  | some blk =>
    let h1 := h.setBlock b { blk with use_count_ := preDec blk.use_count_ }
    if preDec blk.use_count_ = 0 then
      if esft = true ∧ blk.weak_count_ = 1 then
        match resetWeakThis h1 blk.object_ with
        | none => none
        | some h2 =>
          match deleteObjectWith dtorT h2 blk.object_ with
          | none => none
          | some h3 => deleteThis h3 b
      else
        match deleteObjectWith dtorT h1 blk.object_ with
        | none => none
        | some h2 =>
          match h2.block b with
          | none => none
          | some blk2 =>
            if addSize blk2.use_count_ blk2.weak_count_ = 0 then deleteThis h2 b else some h2
    else
      if addSize (preDec blk.use_count_) blk.weak_count_ = 0 then deleteThis h1 b else some h1

/-- `BlockWithObject::DecreaseUsage`, for a pointee whose destructor is `dtorT`. -/
def BlockWithObject.DecreaseUsageWith (dtorT : Heap → Nat → Option Heap) (esft : Bool)
    (h : Heap) (b : Nat) : Option Heap :=
  match h.block b with
  | none => none
  | some blk =>
    let h1 := h.setBlock b { blk with use_count_ := preDec blk.use_count_ }
    if preDec blk.use_count_ = 0 then
      if esft = true ∧ blk.weak_count_ = 1 then
        match resetWeakThis h1 blk.object_ with
        | none => none
        | some h2 =>
          match blk.object_ with
          | none => none
          | some p =>
            match dtorT h2 p with
            | none => none
            | some h3 => deleteThis h3 b
      else
        match blk.object_ with
        | none => none
        | some p =>
          match dtorT h1 p with
          | none => none
          | some h2 =>
            match h2.block b with
            | none => none
            | some blk2 =>
              if addSize blk2.use_count_ blk2.weak_count_ = 0 then deleteThis h2 b
              else some h2
    else
      if addSize (preDec blk.use_count_) blk.weak_count_ = 0 then deleteThis h1 b else some h1

/-- The virtual call `block->DecreaseUsage()`, for a pointee whose destructor is `dtorT`. -/
def ControlBlock.DecreaseUsageWith (dtorT : Heap → Nat → Option Heap) (esft : Bool)
    (h : Heap) (b : Nat) : Option Heap :=
  match h.block b with
  | none => none
  | some blk =>
    match blk.kind with
    | BlockKind.BlockWithPointer => BlockWithPointer.DecreaseUsageWith dtorT esft h b
    | BlockKind.BlockWithObject => BlockWithObject.DecreaseUsageWith dtorT esft h b

/-- `SharedPtr::SafeDecrease`, for a pointee whose destructor is `dtorT`. -/
def SharedPtr.SafeDecreaseWith (dtorT : Heap → Nat → Option Heap) (esft : Bool)
    (self : SharedPtr) (h : Heap) : Option (SharedPtr × Heap) :=
  match self.block_ with
  | some b =>
    match ControlBlock.DecreaseUsageWith dtorT esft h b with
    | none => none
    | some h1 => some (⟨none, none⟩, h1)
  | none => some (⟨none, none⟩, h)

/-- `SharedPtr::Reset()`, for a pointee whose destructor is `dtorT`. -/
def SharedPtr.ResetWith (dtorT : Heap → Nat → Option Heap) (esft : Bool)
    (self : SharedPtr) (h : Heap) : Option (SharedPtr × Heap) :=
  match self.SafeDecreaseWith dtorT esft h with
  | none => none
  | some (_, h1) => some (⟨none, none⟩, h1)

/-- `SharedPtr::operator=(const SharedPtr& other)`, for a pointee whose destructor is `dtorT`,
with `other` as the reference it is: `other hp` is the handle that the reference denotes
when the heap is `hp`, and `none` when the object that contains the handle has been
destroyed. The source reads `other.ptr_` for the test, and `other.ptr_` and `other.block_`
again after `SafeDecrease()`. -/
def SharedPtr.assign_copy_ref (dtorT : Heap → Nat → Option Heap) (esft : Bool)
    (self : SharedPtr) (other : Heap → Option SharedPtr) (h : Heap) :
    Option (SharedPtr × Heap) :=
  match other h with
  | none => none
  | some o0 =>
    if o0.ptr_ = self.ptr_ then some (self, h)
    else
      match self.SafeDecreaseWith dtorT esft h with
      | none => none
      | some (_, h1) =>
        match other h1 with
        | none => none
        | some o1 =>
          let self2 : SharedPtr := ⟨o1.ptr_, o1.block_⟩
          match self2.SafeIncrease h1 with
          | none => none
          | some h2 => some (self2, h2)

/-- The destructor of `struct W { WeakPtr<W> self; };` (not self-aware) on the object at
`p`: the member `self`, whose value is `self p`, is destroyed, then the object is dead. -/
def destroyWeakHolder (self : Nat → WeakPtr) (h : Heap) (p : Nat) : Option Heap :=
  match h.object p with
  | none => none
  | some _ =>
    match (self p).dtor h with
    | none => none
    | some (_, h1) =>
      match h1.object p with
      | none => none
      | some o =>
        some ((h1.setObject p { o with destroyed := true }).logEvent (Event.destroyObject p))

/-- The destructor of `struct Node { SharedPtr<Node> next; };` (not self-aware) on the object
at `p`: the member `next`, whose value is `next p`, is destroyed, which can run the
destructor of the next node, then the object is dead. The first argument bounds the depth of
nested destructor calls; `none` is returned when it is used up. -/
def destroyNode (next : Nat → SharedPtr) : Nat → Heap → Nat → Option Heap
  | 0, _, _ => none
  | fuel + 1, h, p =>
    match h.object p with
    | none => none
    | some _ =>
      match (next p).SafeDecreaseWith (destroyNode next fuel) false h with
      | none => none
      | some (_, h1) =>
        match h1.object p with
        | none => none
        | some o =>
          some ((h1.setObject p { o with destroyed := true }).logEvent
            (Event.destroyObject p))

/-- The reference `n->next` for the node `n` at `p`: the member can be read while the node is
alive. -/
def memberNext (next : Nat → SharedPtr) (p : Nat) (h : Heap) : Option SharedPtr :=
  match h.object p with
  | none => none
  | some _ => some (next p)

/-! ## UniquePtr (`unique/unique.h`)

A `UniquePtr<T>` with the default deleter `SimpleDeleter<T>`. The deleter has no state, so
of the pair `ptr_` only the raw pointer `ptr_.GetFirst()` is kept, and
`ptr_.GetSecond() = std::move(other.GetDeleter())` changes nothing. The pointee type is
`struct Node { UniquePtr<Node> next; };`, so a `UniquePtr` object is a variable of the
caller or the member `next` of a node on the free store, and `delete x` runs the destructor
of that member. The array specialisation `UniquePtr<T[], Deleter>` has the same member
functions line for line. -/

/-- A `Node` on the free store: the raw pointer held by its member `next`, and whether the
object has been freed. -/
structure Node where
  next : Option Nat
  freed : Bool
deriving DecidableEq, Repr

/-- Where a `UniquePtr<Node>` object lives: the variable `u[i]` of the caller, or the member
`next` of the node at `p`. -/
inductive UniqueRef where
  | var (i : Nat)
  | next (p : Nat)
deriving DecidableEq, Repr

/-- The raw pointers held by the caller's variables, the nodes on the free store, and the
pointers the deleter has been called on, in the order of the calls. -/
structure UniqueHeap where
  vars : List (Option Nat)
  nodes : List Node
  calls : List Nat
deriving DecidableEq, Repr

/-- The live node at `p`: `none` when there is no node there or it has been freed. -/
def UniqueHeap.node (s : UniqueHeap) (p : Nat) : Option Node :=
  match s.nodes[p]? with
  | some n => if n.freed = true then none else some n
  | none => none

/-- The caller's `new Node`: a fresh node whose member `next` is null. Returns its
address. -/
def UniqueHeap.newNode (s : UniqueHeap) : Nat × UniqueHeap :=
  (s.nodes.length, { s with nodes := s.nodes ++ [⟨none, false⟩] })

/-- Read `ptr_.GetFirst()` of the `UniquePtr` object at `r`; `none` when the object does not
exist or lies in a freed node. -/
def UniqueHeap.GetFirst (s : UniqueHeap) : UniqueRef → Option (Option Nat)
  | UniqueRef.var i => s.vars[i]?
  | UniqueRef.next p =>
    match s.node p with
    | none => none
    | some n => some n.next

/-- The assignment `ptr_.GetFirst() = v` in the `UniquePtr` object at `r`; `none` when the
object does not exist or lies in a freed node. -/
def UniqueHeap.setFirst (s : UniqueHeap) : UniqueRef → Option Nat → Option UniqueHeap
  | UniqueRef.var i, v =>
    if i < s.vars.length then some { s with vars := s.vars.set i v } else none
  | UniqueRef.next p, v =>
    match s.node p with
    | none => none
    | some n => some { s with nodes := s.nodes.set p { n with next := v } }

/-- The declaration `UniquePtr<Node> u(ptr);` of a new variable of the caller. -/
def UniquePtr.ctor (s : UniqueHeap) (ptr : Option Nat) : UniqueHeap :=
  { s with vars := s.vars ++ [ptr] }

/-- `UniquePtr::Get`. -/
def UniquePtr.Get (s : UniqueHeap) (self : UniqueRef) : Option (Option Nat) :=
  s.GetFirst self

/-- `UniquePtr::TryDelete(ptr)`: `if (ptr != nullptr) ptr_.GetSecond()(ptr);`, the deleter
being `deleter`. -/
def UniquePtr.TryDelete (deleter : UniqueHeap → Nat → Option UniqueHeap) (s : UniqueHeap)
    (ptr : Option Nat) : Option UniqueHeap :=
  match ptr with
  | none => some s
  | some p => deleter s p

/-- `UniquePtr::~UniquePtr`: `TryDelete(ptr_.GetFirst())`. -/
def UniquePtr.dtor (deleter : UniqueHeap → Nat → Option UniqueHeap) (s : UniqueHeap)
    (self : UniqueRef) : Option UniqueHeap :=
  match s.GetFirst self with
  | none => none
  | some first => UniquePtr.TryDelete deleter s first

/-- `SimpleDeleter<Node>::operator()(x)`, that is `delete x`: the call is recorded, the
destructor of the node destroys the member `next`, which can delete the next node, and the
node is freed. Deleting a node that has been freed is undefined. The first argument bounds
the depth of nested deleter calls; `none` is returned when it is used up. -/
def SimpleDeleter.call : Nat → UniqueHeap → Nat → Option UniqueHeap
  | 0, _, _ => none
  | fuel + 1, s, x =>
    match UniqueHeap.node { s with calls := s.calls ++ [x] } x with
    | none => none
    | some _ =>
      match UniquePtr.dtor (SimpleDeleter.call fuel) { s with calls := s.calls ++ [x] }
          (UniqueRef.next x) with
      | none => none
      | some s1 =>
        match s1.node x with
        | none => none
        | some n => some { s1 with nodes := s1.nodes.set x { n with freed := true } }

/-- `UniquePtr::Release`: the returned pointer and the state afterwards. -/
def UniquePtr.Release (s : UniqueHeap) (self : UniqueRef) :
    Option (Option Nat × UniqueHeap) :=
  match s.GetFirst self with
  | none => none
  | some released_ptr =>
    match s.setFirst self none with
    | none => none
    | some s1 => some (released_ptr, s1)

/-- `UniquePtr::Reset(T* ptr)`: the pointer is stored first, then the old one is deleted. -/
def UniquePtr.Reset (deleter : UniqueHeap → Nat → Option UniqueHeap) (s : UniqueHeap)
    (self : UniqueRef) (ptr : Option Nat) : Option UniqueHeap :=
  match s.GetFirst self with
  | none => none
  | some old_ptr =>
    match s.setFirst self ptr with
    | none => none
    | some s1 => UniquePtr.TryDelete deleter s1 old_ptr

/-- `UniquePtr::operator=(UniquePtr&& other)`: after the test `&other == this` the old
pointer is deleted first, then `other.Release()` is called and its result stored. -/
def UniquePtr.assign_move (deleter : UniqueHeap → Nat → Option UniqueHeap) (s : UniqueHeap)
    (self other : UniqueRef) : Option UniqueHeap :=
  if other = self then some s
  else
    match s.GetFirst self with
    | none => none
    | some first =>
      match UniquePtr.TryDelete deleter s first with
      | none => none
      | some s1 =>
        match UniquePtr.Release s1 other with
        | none => none
        | some (released_ptr, s2) => s2.setFirst self released_ptr

/-- `UniquePtr::operator=(std::nullptr_t)`. -/
def UniquePtr.assign_nullptr (deleter : UniqueHeap → Nat → Option UniqueHeap)
    (s : UniqueHeap) (self : UniqueRef) : Option UniqueHeap :=
  match s.GetFirst self with
  | none => none
  | some first =>
    match UniquePtr.TryDelete deleter s first with
    | none => none
    | some s1 => s1.setFirst self none

/-! ## Lemmas -/

theorem preInc_eq {x : Nat} (h : x + 1 < SIZE_MOD) : preInc x = x + 1 := by
  unfold preInc; exact Nat.mod_eq_of_lt h

theorem preDec_eq {x : Nat} (h0 : 0 < x) (h : x < SIZE_MOD) : preDec x = x - 1 := by
  unfold preDec SIZE_MOD at *; omega

theorem addSize_eq {x y : Nat} (h : x + y < SIZE_MOD) : addSize x y = x + y := by
  unfold addSize; exact Nat.mod_eq_of_lt h

theorem getElem?_set_same {α : Type} {l : List α} {i : Nat} {x y : α} (h : l[i]? = some x) :
    (l.set i y)[i]? = some y := by
  have hi : i < l.length := by
    by_contra hc
    rw [List.getElem?_eq_none (by omega)] at h
    cases h
  simp [List.getElem?_set, hi]

theorem block_of_get {h : Heap} {b : Nat} {blk : ControlBlock}
    (hb : h.blocks[b]? = some blk) (hd : blk.deleted = false) : h.block b = some blk := by
  simp [Heap.block, hb, hd]

theorem get_of_block {h : Heap} {b : Nat} {blk : ControlBlock}
    (hb : h.block b = some blk) : h.blocks[b]? = some blk ∧ blk.deleted = false := by
  unfold Heap.block at hb
  split at hb
  · split at hb
    · cases hb
    · cases hb; simp_all
  · cases hb

theorem object_of_get {h : Heap} {p : Nat} {o : Object}
    (hb : h.objects[p]? = some o) (hd : o.destroyed = false) : h.object p = some o := by
  simp [Heap.object, hb, hd]

theorem ControlBlock.GetUseCount_eq {h : Heap} {b : Nat} {blk : ControlBlock}
    (hb : h.block b = some blk) : ControlBlock.GetUseCount h b = some blk.use_count_ := by
  unfold ControlBlock.GetUseCount BlockWithPointer.GetUseCount BlockWithObject.GetUseCount
  rw [hb]; dsimp only; split <;> rfl

theorem ControlBlock.IncreaseUsage_eq {h : Heap} {b : Nat} {blk : ControlBlock}
    (hb : h.block b = some blk) :
    ControlBlock.IncreaseUsage h b =
      some (h.setBlock b { blk with use_count_ := preInc blk.use_count_ }) := by
  unfold ControlBlock.IncreaseUsage BlockWithPointer.IncreaseUsage BlockWithObject.IncreaseUsage
  rw [hb]; dsimp only; split <;> rfl

theorem ControlBlock.IncreaseWeakUsage_eq {h : Heap} {b : Nat} {blk : ControlBlock}
    (hb : h.block b = some blk) :
    ControlBlock.IncreaseWeakUsage h b =
      some (h.setBlock b { blk with weak_count_ := preInc blk.weak_count_ }) := by
  unfold ControlBlock.IncreaseWeakUsage BlockWithPointer.IncreaseWeakUsage
    BlockWithObject.IncreaseWeakUsage
  rw [hb]; dsimp only; split <;> rfl

theorem ControlBlock.DecreaseWeakUsage_eq {h : Heap} {b : Nat} {blk : ControlBlock}
    (hb : h.block b = some blk) :
    ControlBlock.DecreaseWeakUsage h b =
      if addSize blk.use_count_ (preDec blk.weak_count_) = 0
      then deleteThis (h.setBlock b { blk with weak_count_ := preDec blk.weak_count_ }) b
      else some (h.setBlock b { blk with weak_count_ := preDec blk.weak_count_ }) := by
  unfold ControlBlock.DecreaseWeakUsage BlockWithPointer.DecreaseWeakUsage
    BlockWithObject.DecreaseWeakUsage
  rw [hb]; dsimp only; split <;> rfl

theorem ControlBlock.DecreaseUsage_eq {esft : Bool} {h : Heap} {b p : Nat} {blk : ControlBlock}
    (hb : h.block b = some blk) (hp : blk.object_ = some p) :
    ControlBlock.DecreaseUsage esft h b =
      if preDec blk.use_count_ = 0 then
        if esft = true ∧ blk.weak_count_ = 1 then
          (resetWeakThis (h.setBlock b { blk with use_count_ := preDec blk.use_count_ })
              (some p)).bind fun h2 =>
            (destroyT esft h2 p).bind fun h3 => deleteThis h3 b
        else
          (destroyT esft (h.setBlock b { blk with use_count_ := preDec blk.use_count_ }) p).bind
            fun h2 => (h2.block b).bind fun blk2 =>
              if addSize blk2.use_count_ blk2.weak_count_ = 0 then deleteThis h2 b else some h2
      else
        if addSize (preDec blk.use_count_) blk.weak_count_ = 0
        then deleteThis (h.setBlock b { blk with use_count_ := preDec blk.use_count_ }) b
        else some (h.setBlock b { blk with use_count_ := preDec blk.use_count_ }) := by
  obtain ⟨k, u, w, obj, d⟩ := blk
  dsimp only at hp
  subst hp
  unfold ControlBlock.DecreaseUsage BlockWithPointer.DecreaseUsage
    BlockWithObject.DecreaseUsage deleteObject
  rw [hb]
  cases k
  all_goals
    dsimp only
    split
    · split
      · cases resetWeakThis (h.setBlock b ⟨_, preDec u, w, some p, d⟩) (some p) with
        | none => rfl
        | some h2 =>
          dsimp only [Option.bind]
          cases destroyT esft h2 p <;> rfl
      · cases destroyT esft (h.setBlock b ⟨_, preDec u, w, some p, d⟩) p with
        | none => rfl
        | some h2 =>
          dsimp only [Option.bind]
          cases h2.block b <;> rfl
    · rfl


theorem lt_of_getElem? {α : Type} {l : List α} {i : Nat} {x : α} (h : l[i]? = some x) :
    i < l.length := by
  by_contra hc
  rw [List.getElem?_eq_none (by omega)] at h
  cases h


@[simp] theorem Heap.setBlock_blocks (h : Heap) (b : Nat) (x : ControlBlock) :
    (h.setBlock b x).blocks = h.blocks.set b x := rfl
@[simp] theorem Heap.setBlock_objects (h : Heap) (b : Nat) (x : ControlBlock) :
    (h.setBlock b x).objects = h.objects := rfl
@[simp] theorem Heap.setBlock_log (h : Heap) (b : Nat) (x : ControlBlock) :
    (h.setBlock b x).log = h.log := rfl
@[simp] theorem Heap.setObject_blocks (h : Heap) (p : Nat) (o : Object) :
    (h.setObject p o).blocks = h.blocks := rfl
@[simp] theorem Heap.setObject_objects (h : Heap) (p : Nat) (o : Object) :
    (h.setObject p o).objects = h.objects.set p o := rfl
@[simp] theorem Heap.setObject_log (h : Heap) (p : Nat) (o : Object) :
    (h.setObject p o).log = h.log := rfl
@[simp] theorem Heap.logEvent_blocks (h : Heap) (e : Event) : (h.logEvent e).blocks = h.blocks :=
  rfl
@[simp] theorem Heap.logEvent_objects (h : Heap) (e : Event) :
    (h.logEvent e).objects = h.objects := rfl
@[simp] theorem Heap.logEvent_log (h : Heap) (e : Event) : (h.logEvent e).log = h.log ++ [e] :=
  rfl

@[simp] theorem Heap.object_setBlock (h : Heap) (b p : Nat) (x : ControlBlock) :
    (h.setBlock b x).object p = h.object p := rfl
@[simp] theorem Heap.object_logEvent (h : Heap) (e : Event) (p : Nat) :
    (h.logEvent e).object p = h.object p := rfl
@[simp] theorem Heap.block_setObject (h : Heap) (b p : Nat) (o : Object) :
    (h.setObject p o).block b = h.block b := rfl
@[simp] theorem Heap.block_logEvent (h : Heap) (e : Event) (b : Nat) :
    (h.logEvent e).block b = h.block b := rfl

theorem Heap.block_setBlock_self {h : Heap} {b : Nat} (x : ControlBlock)
    (hbl : b < h.blocks.length) :
    (h.setBlock b x).block b = if x.deleted = true then none else some x := by
  simp [Heap.block, hbl]

theorem Heap.object_setObject_self {h : Heap} {p : Nat} (o : Object)
    (hpl : p < h.objects.length) :
    (h.setObject p o).object p = if o.destroyed = true then none else some o := by
  simp [Heap.object, hpl]

@[simp] theorem Heap.setBlock_setBlock (h : Heap) (b : Nat) (x y : ControlBlock) :
    (h.setBlock b x).setBlock b y = h.setBlock b y := by
  simp [Heap.setBlock]

@[simp] theorem Heap.setObject_setObject (h : Heap) (p : Nat) (x y : Object) :
    (h.setObject p x).setObject p y = h.setObject p y := by
  simp [Heap.setObject]

theorem Heap.setObject_setBlock (h : Heap) (b p : Nat) (x : ControlBlock) (o : Object) :
    (h.setBlock b x).setObject p o = (h.setObject p o).setBlock b x := rfl

/-- The destructor of a self-aware object whose `weak_this_` is empty touches no block. -/
theorem EnableSharedFromThis.dtor_empty {h : Heap} {p : Nat} {o : Object}
    (ho : h.object p = some o) (hw : o.weak_this_ = ⟨none, none⟩) :
    EnableSharedFromThis.dtor h p = some (h.setObject p ⟨⟨none, none⟩, o.destroyed⟩) := by
  simp [EnableSharedFromThis.dtor, ho, hw, WeakPtr.assign_shared, SharedPtr.empty, WeakPtr.dtor,
    WeakPtr.SafeWeakDecrease]

/-- The destructor of a self-aware object whose `weak_this_` is bound releases its weak
unit. -/
theorem EnableSharedFromThis.dtor_bound {h : Heap} {p q b : Nat} {o : Object}
    (ho : h.object p = some o) (hw : o.weak_this_ = ⟨some q, some b⟩) :
    EnableSharedFromThis.dtor h p =
      (ControlBlock.DecreaseWeakUsage h b).bind fun h1 =>
        some (h1.setObject p ⟨⟨none, none⟩, o.destroyed⟩) := by
  simp only [EnableSharedFromThis.dtor, ho, hw, WeakPtr.assign_shared, SharedPtr.empty,
    WeakPtr.dtor, WeakPtr.SafeWeakDecrease]
  cases ControlBlock.DecreaseWeakUsage h b <;> simp [WeakPtr.SafeWeakIncrease]

theorem FamilyHeap.DecreaseUsage {esft : Bool} {b p : Nat} {L0 : List Event} {S W : Nat}
    {h : Heap} (H : FamilyHeap esft b p L0 S W h) (hS : 0 < S)
    (hfit : S + W + 1 < SIZE_MOD) :
    ∃ h1, ControlBlock.DecreaseUsage esft h b = some h1 ∧
      FamilyHeap esft b p L0 (S - 1) W h1 := by
  obtain ⟨blk, o, hb, ho, hobj, huse, hw0, hw1, hw2, hdel, hdes, hlog⟩ := H
  have hd : blk.deleted = false := by
    cases hx : blk.deleted
    · rfl
    · have := hdel.1 hx; omega
  have hod : o.destroyed = false := by
    cases hx : o.destroyed
    · rfl
    · have := hdes.1 hx; omega
  have hblock := block_of_get hb hd
  have hobject := object_of_get ho hod
  have hbl := lt_of_getElem? hb
  have hpl := lt_of_getElem? ho
  have hS0 : S ≠ 0 := by omega
  rw [ControlBlock.DecreaseUsage_eq hblock hobj]
  obtain ⟨k, u, w, obj, d⟩ := blk
  obtain ⟨wt, de⟩ := o
  dsimp only at *
  subst hobj huse hd hod
  have hM : (0:Nat) < SIZE_MOD := by unfold SIZE_MOD; omega
  simp only [hS0, false_and, if_false, List.append_nil] at hlog
  by_cases h1 : u = 1
  · subst h1
    have hp0 : preDec 1 = 0 := by unfold preDec SIZE_MOD; rfl
    rw [if_pos hp0, hp0]
    cases esft
    · have hw := hw0 rfl
      subst hw
      simp only [Bool.false_eq_true, false_and, if_false]
      by_cases hW : w = 0
      · subst hW
        simp [destroyT, hobject, Heap.block_setBlock_self, Heap.object_setObject_self, hbl, hpl,
            addSize, deleteThis, hM, Nat.zero_mod, FamilyHeap, hlog]
      · have hwm : w % SIZE_MOD = w := Nat.mod_eq_of_lt (by omega)
        simp [destroyT, hobject, Heap.block_setBlock_self, Heap.object_setObject_self, hbl, hpl,
            addSize, deleteThis, hM, hwm, FamilyHeap, hlog, hW]
    · obtain ⟨hw, hwt⟩ := hw1 rfl hS
      subst hw hwt
      by_cases hW : W = 0
      · subst hW
        simp [destroyT, hobject, Heap.block_setBlock_self, Heap.object_setObject_self, hbl, hpl,
            addSize, deleteThis, hM, Nat.zero_mod, FamilyHeap, hlog, resetWeakThis,
            EnableSharedFromThis.dtor, WeakPtr.assign_shared, WeakPtr.UnsafeReset,
            SharedPtr.empty, WeakPtr.dtor, WeakPtr.SafeWeakDecrease]
      · have hwm : W % SIZE_MOD = W := Nat.mod_eq_of_lt (by omega)
        have hpd : preDec (W + 1) = W := by rw [preDec_eq (by omega) (by omega)]; rfl
        have hblk1 : (h.setBlock b ⟨k, 0, W + 1, some p, false⟩).block b
            = some ⟨k, 0, W + 1, some p, false⟩ :=
          block_of_get (getElem?_set_same hb) rfl
        have hobj1 : (h.setBlock b ⟨k, 0, W + 1, some p, false⟩).object p
            = some ⟨⟨some p, some b⟩, false⟩ := hobject
        simp [destroyT, Heap.block_setBlock_self, Heap.object_setObject_self, hbl, hpl,
            addSize, deleteThis, hM, hwm, FamilyHeap, hlog, hW,
            EnableSharedFromThis.dtor_bound hobj1 rfl,
            ControlBlock.DecreaseWeakUsage_eq hblk1, hpd]
  · have hu : preDec u = u - 1 := preDec_eq hS (by omega)
    have hne : u - 1 ≠ 0 := by omega
    rw [hu, if_neg hne]
    have hadd : addSize (u - 1) w ≠ 0 := by
      unfold addSize
      cases esft
      · have := hw0 rfl; subst this
        rw [Nat.mod_eq_of_lt (by omega)]; omega
      · have := (hw1 rfl hS).1; subst this
        rw [Nat.mod_eq_of_lt (by omega)]; omega
    rw [if_neg hadd]
    refine ⟨_, rfl, ⟨k, u - 1, w, some p, false⟩, ⟨wt, false⟩, ?_, ?_, rfl, rfl, hw0, ?_, ?_,
      ?_, ?_, ?_⟩
    · exact getElem?_set_same hb
    · simpa [Heap.setBlock] using ho
    · intro he _; exact hw1 he hS
    · intro _ h0; omega
    · simp; omega
    · simp; omega
    · simp [hlog, hne]


theorem FamilyHeap.not_deleted {esft : Bool} {b p : Nat} {L0 : List Event} {S W : Nat}
    {h : Heap} (H : FamilyHeap esft b p L0 S W h) (hSW : 0 < S + W) :
    ∃ blk, h.block b = some blk ∧ blk.use_count_ = S := by
  obtain ⟨blk, o, hb, ho, hobj, huse, hw0, hw1, hw2, hdel, hdes, hlog⟩ := H
  have hd : blk.deleted = false := by
    cases hx : blk.deleted
    · rfl
    · have := hdel.1 hx; omega
  exact ⟨blk, block_of_get hb hd, huse⟩

theorem FamilyHeap.GetUseCount {esft : Bool} {b p : Nat} {L0 : List Event} {S W : Nat}
    {h : Heap} (H : FamilyHeap esft b p L0 S W h) (hSW : 0 < S + W) :
    ControlBlock.GetUseCount h b = some S := by
  obtain ⟨blk, hblk, huse⟩ := H.not_deleted hSW
  rw [ControlBlock.GetUseCount_eq hblk, huse]

theorem FamilyHeap.IncreaseUsage {esft : Bool} {b p : Nat} {L0 : List Event} {S W : Nat}
    {h : Heap} (H : FamilyHeap esft b p L0 S W h) (hS : 0 < S) (hfit : S + 1 < SIZE_MOD) :
    ∃ h1, ControlBlock.IncreaseUsage h b = some h1 ∧ FamilyHeap esft b p L0 (S + 1) W h1 := by
  obtain ⟨blk, o, hb, ho, hobj, huse, hw0, hw1, hw2, hdel, hdes, hlog⟩ := H
  have hd : blk.deleted = false := by
    cases hx : blk.deleted
    · rfl
    · have := hdel.1 hx; omega
  rw [ControlBlock.IncreaseUsage_eq (block_of_get hb hd)]
  have hS0 : S ≠ 0 := by omega
  refine ⟨_, rfl, { blk with use_count_ := preInc blk.use_count_ }, o, getElem?_set_same hb, ho,
    hobj, ?_, hw0, ?_, ?_, ?_, ?_, ?_⟩
  · simp [huse, preInc_eq hfit]
  · intro he _; exact hw1 he hS
  · intro _ h0; omega
  · simp [hd]
  · simp [hdes]; omega
  · simpa [hS0] using hlog

theorem FamilyHeap.IncreaseWeakUsage {esft : Bool} {b p : Nat} {L0 : List Event} {S W : Nat}
    {h : Heap} (H : FamilyHeap esft b p L0 S W h) (hSW : 0 < S + W)
    (hfit : W + 2 < SIZE_MOD) :
    ∃ h1, ControlBlock.IncreaseWeakUsage h b = some h1 ∧
      FamilyHeap esft b p L0 S (W + 1) h1 := by
  obtain ⟨blk, o, hb, ho, hobj, huse, hw0, hw1, hw2, hdel, hdes, hlog⟩ := H
  have hd : blk.deleted = false := by
    cases hx : blk.deleted
    · rfl
    · have := hdel.1 hx; omega
  rw [ControlBlock.IncreaseWeakUsage_eq (block_of_get hb hd)]
  have hW : ¬ (S = 0 ∧ W = 0) := by omega
  refine ⟨_, rfl, { blk with weak_count_ := preInc blk.weak_count_ }, o, getElem?_set_same hb,
    ho, hobj, huse, ?_, ?_, ?_, ?_, hdes, ?_⟩
  · intro he
    simp [hw0 he, preInc_eq (show W + 1 < SIZE_MOD by omega)]
  · intro he h0
    obtain ⟨h1, h2⟩ := hw1 he h0
    simp [h1, h2, preInc_eq (show W + 1 + 1 < SIZE_MOD by omega)]
  · intro he h0 _
    have hW0 : 0 < W := by omega
    simp [hw2 he h0 hW0, preInc_eq (show W + 1 < SIZE_MOD by omega)]
  · simp [hd]
  · simpa [hW] using hlog

theorem FamilyHeap.DecreaseWeakUsage {esft : Bool} {b p : Nat} {L0 : List Event} {S W : Nat}
    {h : Heap} (H : FamilyHeap esft b p L0 S W h) (hW : 0 < W)
    (hfit : S + W + 1 < SIZE_MOD) :
    ∃ h1, ControlBlock.DecreaseWeakUsage h b = some h1 ∧
      FamilyHeap esft b p L0 S (W - 1) h1 := by
  obtain ⟨blk, o, hb, ho, hobj, huse, hw0, hw1, hw2, hdel, hdes, hlog⟩ := H
  have hd : blk.deleted = false := by
    cases hx : blk.deleted
    · rfl
    · have := hdel.1 hx; omega
  have hbl := lt_of_getElem? hb
  rw [ControlBlock.DecreaseWeakUsage_eq (block_of_get hb hd)]
  obtain ⟨k, u, w, obj, d⟩ := blk
  dsimp only at *
  subst hobj huse hd
  have hW0 : W ≠ 0 := by omega
  simp only [hW0, and_false, if_false, List.append_nil] at hlog
  have hwpos : 0 < w ∧ w < SIZE_MOD ∧ u + (w - 1) < SIZE_MOD ∧
      (u = 0 → w = W) ∧ (esft = false → w = W) ∧ (esft = true → 0 < u → w = W + 1) := by
    cases esft
    · have := hw0 rfl; subst this; simp; omega
    · by_cases hu : u = 0
      · have := hw2 rfl hu hW; subst this; simp; omega
      · have := (hw1 rfl (by omega)).1; subst this; simp; omega
  obtain ⟨hw_pos, hw_lt, hsum, hwu, hwf, hwt⟩ := hwpos
  rw [preDec_eq hw_pos hw_lt, addSize_eq hsum]
  by_cases hz : u + (w - 1) = 0
  · have hu : u = 0 := by omega
    have hw1' : w = 1 := by omega
    have hW1 : W = 1 := by have := hwu hu; omega
    subst hu hw1' hW1
    simp [deleteThis, Heap.block_setBlock_self, hbl, FamilyHeap, hlog, ho]
    simpa using hdes
  · rw [if_neg hz]
    refine ⟨_, rfl, ⟨k, u, w - 1, some p, false⟩, o, getElem?_set_same hb, ho, rfl, rfl,
      ?_, ?_, ?_, ?_, hdes, ?_⟩
    · intro he; have := hwf he; dsimp only; omega
    · intro he h0
      have := hwt he h0
      exact ⟨by dsimp only; omega, (hw1 he h0).2⟩
    · intro _ h0 _; have := hwu h0; dsimp only; omega
    · simp; omega
    · have : ¬ (u = 0 ∧ W - 1 = 0) := by
        intro ⟨h0, h1⟩; have := hwu h0; omega
      simp [hlog, this]


/-! ### Counting handles -/

theorem countP_set_add {α : Type} (P : α → Bool) {l : List α} {i : Nat} {x : α} (y : α)
    (h : l[i]? = some x) :
    (l.set i y).countP P + (if P x = true then 1 else 0) =
      l.countP P + (if P y = true then 1 else 0) := by
  induction l generalizing i with
  | nil => simp at h
  | cons a l ih =>
    cases i with
    | zero =>
      simp at h; subst h
      simp [List.countP_cons]; omega
    | succ i =>
      simp at h
      have := ih h
      simp [List.countP_cons]; omega

theorem countP_eraseIdx_add {α : Type} (P : α → Bool) {l : List α} {i : Nat} {x : α}
    (h : l[i]? = some x) :
    (l.eraseIdx i).countP P + (if P x = true then 1 else 0) = l.countP P := by
  induction l generalizing i with
  | nil => simp at h
  | cons a l ih =>
    cases i with
    | zero =>
      simp at h; subst h
      simp [List.countP_cons]
    | succ i =>
      simp at h
      have := ih h
      simp [List.countP_cons]; omega

theorem countP_ge_of_getElem? {α : Type} (P : α → Bool) {l : List α} {i : Nat} {x : α}
    (h : l[i]? = some x) : (if P x = true then 1 else 0) ≤ l.countP P := by
  have := countP_eraseIdx_add P h
  omega

theorem set_same {α : Type} {l : List α} {i : Nat} {x : α} (h : l[i]? = some x) :
    l.set i x = l := by
  induction l generalizing i with
  | nil => simp
  | cons a l ih =>
    cases i with
    | zero => simp at h; subst h; rfl
    | succ i => simp at h; simp [ih h]

theorem mem_of_getElem? {α : Type} {l : List α} {i : Nat} {x : α} (h : l[i]? = some x) :
    x ∈ l := by
  have hi := lt_of_getElem? h
  rw [List.getElem?_eq_getElem hi] at h
  cases h
  exact List.getElem_mem hi


/-! ### Handles of one family -/

section family
variable {esft : Bool} {b p : Nat} {L0 : List Event} {S W : Nat} {h : Heap}

theorem SharedPtr.inFamily.SafeDecrease {x : SharedPtr} (hx : x.inFamily b p)
    (H : FamilyHeap esft b p L0 S W h) (hu : x.unit ≤ S) (hfit : S + W + 1 < SIZE_MOD) :
    ∃ h1, x.SafeDecrease esft h = some (⟨none, none⟩, h1) ∧
      FamilyHeap esft b p L0 (S - x.unit) W h1 := by
  rcases hx with rfl | rfl
  · obtain ⟨h1, e1, H1⟩ := H.DecreaseUsage (by simpa [SharedPtr.unit] using hu) hfit
    exact ⟨h1, by simp [SharedPtr.SafeDecrease, e1], by simpa [SharedPtr.unit] using H1⟩
  · exact ⟨h, by simp [SharedPtr.SafeDecrease], by simpa [SharedPtr.unit] using H⟩

theorem SharedPtr.inFamily.SafeIncrease {x : SharedPtr} (hx : x.inFamily b p)
    (H : FamilyHeap esft b p L0 S W h) (hu : x.unit ≤ S) (hfit : S + 1 < SIZE_MOD) :
    ∃ h1, x.SafeIncrease h = some h1 ∧ FamilyHeap esft b p L0 (S + x.unit) W h1 := by
  rcases hx with rfl | rfl
  · obtain ⟨h1, e1, H1⟩ := H.IncreaseUsage (by simpa [SharedPtr.unit] using hu) hfit
    exact ⟨h1, by simp [SharedPtr.SafeIncrease, e1], by simpa [SharedPtr.unit] using H1⟩
  · exact ⟨h, by simp [SharedPtr.SafeIncrease], by simpa [SharedPtr.unit] using H⟩

theorem WeakPtr.inFamily.SafeWeakDecrease {x : WeakPtr} (hx : x.inFamily b p)
    (H : FamilyHeap esft b p L0 S W h) (hu : x.unit ≤ W) (hfit : S + W + 1 < SIZE_MOD) :
    ∃ h1, x.SafeWeakDecrease h = some (⟨none, none⟩, h1) ∧
      FamilyHeap esft b p L0 S (W - x.unit) h1 := by
  rcases hx with rfl | rfl
  · obtain ⟨h1, e1, H1⟩ := H.DecreaseWeakUsage (by simpa [WeakPtr.unit] using hu) hfit
    exact ⟨h1, by simp [WeakPtr.SafeWeakDecrease, e1], by simpa [WeakPtr.unit] using H1⟩
  · exact ⟨h, by simp [WeakPtr.SafeWeakDecrease], by simpa [WeakPtr.unit] using H⟩

theorem WeakPtr.inFamily.SafeWeakIncrease {x : WeakPtr} (hx : x.inFamily b p)
    (H : FamilyHeap esft b p L0 S W h) (hu : x.unit ≤ S + W) (hfit : W + 2 < SIZE_MOD) :
    ∃ h1, x.SafeWeakIncrease h = some h1 ∧ FamilyHeap esft b p L0 S (W + x.unit) h1 := by
  rcases hx with rfl | rfl
  · obtain ⟨h1, e1, H1⟩ := H.IncreaseWeakUsage (by simp [WeakPtr.unit] at hu; omega) hfit
    exact ⟨h1, by simp [WeakPtr.SafeWeakIncrease, e1], by simpa [WeakPtr.unit] using H1⟩
  · exact ⟨h, by simp [WeakPtr.SafeWeakIncrease], by simpa [WeakPtr.unit] using H⟩

theorem SharedPtr.inFamily.shared_ctor_copy {x : SharedPtr} (hx : x.inFamily b p)
    (H : FamilyHeap esft b p L0 S W h) (hu : x.unit ≤ S) (hfit : S + 1 < SIZE_MOD) :
    ∃ h1, SharedPtr.ctor_copy x h = some (x, h1) ∧
      FamilyHeap esft b p L0 (S + x.unit) W h1 := by
  obtain ⟨h1, e1, H1⟩ := hx.SafeIncrease H hu hfit
  exact ⟨h1, by simp [SharedPtr.ctor_copy, e1], H1⟩

theorem SharedPtr.inFamily.shared_assign_copy {x y : SharedPtr} (hx : x.inFamily b p)
    (hy : y.inFamily b p) (H : FamilyHeap esft b p L0 S W h) (hu : x.unit ≤ S)
    (hv : y.unit ≤ S) (hfit : S + W + 1 < SIZE_MOD) :
    ∃ h1, SharedPtr.assign_copy esft x y h = some (y, h1) ∧
      FamilyHeap esft b p L0 (S - x.unit + y.unit) W h1 := by
  rcases hx with rfl | rfl <;> rcases hy with rfl | rfl
  · refine ⟨h, by simp [SharedPtr.assign_copy], ?_⟩
    simp [SharedPtr.unit] at hu ⊢
    rw [Nat.sub_add_cancel hu]; exact H
  · obtain ⟨h1, e1, H1⟩ := SharedPtr.inFamily.SafeDecrease
      (Or.inl rfl : SharedPtr.inFamily b p ⟨some p, some b⟩) H hu hfit
    exact ⟨h1, by simp [SharedPtr.assign_copy, e1, SharedPtr.SafeIncrease],
      by simpa [SharedPtr.unit] using H1⟩
  · simp [SharedPtr.unit] at hv
    obtain ⟨h1, e1, H1⟩ := H.IncreaseUsage hv (by omega)
    exact ⟨h1, by simp [SharedPtr.assign_copy, SharedPtr.SafeDecrease, SharedPtr.SafeIncrease, e1],
      by simpa [SharedPtr.unit] using H1⟩
  · exact ⟨h, by simp [SharedPtr.assign_copy], by simpa [SharedPtr.unit] using H⟩

theorem SharedPtr.inFamily.shared_assign_move {x y : SharedPtr} (hx : x.inFamily b p)
    (hy : y.inFamily b p) (H : FamilyHeap esft b p L0 S W h) (hu : x.unit ≤ S)
    (hfit : S + W + 1 < SIZE_MOD) :
    (x = y ∧ SharedPtr.assign_move esft x y h = some (x, y, h)) ∨
    (x ≠ y ∧ ∃ h1, SharedPtr.assign_move esft x y h = some (y, ⟨none, none⟩, h1) ∧
      FamilyHeap esft b p L0 (S - x.unit) W h1) := by
  rcases hx with rfl | rfl <;> rcases hy with rfl | rfl
  · exact Or.inl ⟨rfl, by simp [SharedPtr.assign_move]⟩
  · obtain ⟨h1, e1, H1⟩ := SharedPtr.inFamily.SafeDecrease
      (Or.inl rfl : SharedPtr.inFamily b p ⟨some p, some b⟩) H hu hfit
    exact Or.inr ⟨by simp, h1, by simp [SharedPtr.assign_move, e1, SharedPtr.Swap], H1⟩
  · exact Or.inr ⟨by simp, h,
      by simp [SharedPtr.assign_move, SharedPtr.SafeDecrease, SharedPtr.Swap],
      by simpa [SharedPtr.unit] using H⟩
  · exact Or.inl ⟨rfl, by simp [SharedPtr.assign_move]⟩

theorem SharedPtr.inFamily.Reset {x : SharedPtr} (hx : x.inFamily b p)
    (H : FamilyHeap esft b p L0 S W h) (hu : x.unit ≤ S) (hfit : S + W + 1 < SIZE_MOD) :
    ∃ h1, x.Reset esft h = some (⟨none, none⟩, h1) ∧
      FamilyHeap esft b p L0 (S - x.unit) W h1 := by
  obtain ⟨h1, e1, H1⟩ := hx.SafeDecrease H hu hfit
  exact ⟨h1, by simp [SharedPtr.Reset, e1], H1⟩

theorem WeakPtr.inFamily.Lock {x : WeakPtr} (hx : x.inFamily b p)
    (H : FamilyHeap esft b p L0 S W h) (hu : x.unit ≤ W) (hfit : S + 1 < SIZE_MOD) :
    ∃ c h1, x.Lock h = some (c, h1) ∧ c.inFamily b p ∧ c.unit ≤ S ∧
      FamilyHeap esft b p L0 (S + c.unit) W h1 := by
  rcases hx with rfl | rfl
  · simp [WeakPtr.unit] at hu
    have hg := H.GetUseCount (show 0 < S + W by omega)
    by_cases hS : S = 0
    · subst hS
      exact ⟨SharedPtr.empty, h, by simp [WeakPtr.Lock, WeakPtr.Expired, WeakPtr.UseCount, hg],
        Or.inr rfl, by simp [SharedPtr.unit, SharedPtr.empty],
        by simpa [SharedPtr.unit, SharedPtr.empty] using H⟩
    · obtain ⟨h1, e1, H1⟩ := H.IncreaseUsage (by omega) hfit
      exact ⟨⟨some p, some b⟩, h1,
        by simp [WeakPtr.Lock, WeakPtr.Expired, WeakPtr.UseCount, hg, hS, e1],
        Or.inl rfl, by simp [SharedPtr.unit]; omega, by simpa [SharedPtr.unit] using H1⟩
  · exact ⟨SharedPtr.empty, h, by simp [WeakPtr.Lock, WeakPtr.Expired, WeakPtr.UseCount],
      Or.inr rfl, by simp [SharedPtr.unit, SharedPtr.empty],
      by simpa [SharedPtr.unit, SharedPtr.empty] using H⟩

theorem WeakPtr.inFamily.ctor_weak {x : WeakPtr} (hx : x.inFamily b p)
    (H : FamilyHeap esft b p L0 S W h) (hu : x.unit ≤ W) (hfit : S + 1 < SIZE_MOD) :
    SharedPtr.ctor_weak x h = some (Except.error BadWeakPtr.thrown, h) ∨
    ∃ c h1, SharedPtr.ctor_weak x h = some (Except.ok c, h1) ∧ c.inFamily b p ∧
      c.unit ≤ S ∧ FamilyHeap esft b p L0 (S + c.unit) W h1 := by
  rcases hx with rfl | rfl
  · simp [WeakPtr.unit] at hu
    have hg := H.GetUseCount (show 0 < S + W by omega)
    by_cases hS : S = 0
    · subst hS
      exact Or.inl (by simp [SharedPtr.ctor_weak, WeakPtr.Expired, WeakPtr.UseCount, hg])
    · obtain ⟨h1, e1, H1⟩ := H.IncreaseUsage (by omega) hfit
      exact Or.inr ⟨⟨some p, some b⟩, h1,
        by simp [SharedPtr.ctor_weak, WeakPtr.Expired, WeakPtr.UseCount, hg, hS, e1,
          SharedPtr.SafeIncrease],
        Or.inl rfl, by simp [SharedPtr.unit]; omega, by simpa [SharedPtr.unit] using H1⟩
  · exact Or.inl (by simp [SharedPtr.ctor_weak, WeakPtr.Expired, WeakPtr.UseCount])

theorem WeakPtr.inFamily.weak_ctor_copy {x : WeakPtr} (hx : x.inFamily b p)
    (H : FamilyHeap esft b p L0 S W h) (hu : x.unit ≤ S + W) (hfit : W + 2 < SIZE_MOD) :
    ∃ h1, WeakPtr.ctor_copy x h = some (x, h1) ∧
      FamilyHeap esft b p L0 S (W + x.unit) h1 := by
  obtain ⟨h1, e1, H1⟩ := hx.SafeWeakIncrease H hu hfit
  exact ⟨h1, by simp [WeakPtr.ctor_copy, e1], H1⟩

theorem SharedPtr.inFamily.ctor_shared {x : SharedPtr} (hx : x.inFamily b p)
    (H : FamilyHeap esft b p L0 S W h) (hu : x.unit ≤ S) (hfit : W + 2 < SIZE_MOD) :
    ∃ h1, WeakPtr.ctor_shared x h = some (⟨x.ptr_, x.block_⟩, h1) ∧
      FamilyHeap esft b p L0 S (W + x.unit) h1 := by
  have hx' : WeakPtr.inFamily b p ⟨x.ptr_, x.block_⟩ := by
    rcases hx with rfl | rfl
    · exact Or.inl rfl
    · exact Or.inr rfl
  obtain ⟨h1, e1, H1⟩ := hx'.SafeWeakIncrease H
    (by simp only [WeakPtr.unit, SharedPtr.unit] at hu ⊢; omega) hfit
  exact ⟨h1, by simp [WeakPtr.ctor_shared, e1], H1⟩

theorem WeakPtr.inFamily.weak_assign_copy {x y : WeakPtr} (hx : x.inFamily b p)
    (hy : y.inFamily b p) (H : FamilyHeap esft b p L0 S W h) (hu : x.unit ≤ W)
    (hv : y.unit ≤ S + W) (hfit : S + W + 2 < SIZE_MOD) :
    ∃ h1, WeakPtr.assign_copy x y h = some (y, h1) ∧
      FamilyHeap esft b p L0 S (W - x.unit + y.unit) h1 := by
  rcases hx with rfl | rfl <;> rcases hy with rfl | rfl
  · refine ⟨h, by simp [WeakPtr.assign_copy], ?_⟩
    simp [WeakPtr.unit] at hu ⊢
    rw [Nat.sub_add_cancel hu]; exact H
  · obtain ⟨h1, e1, H1⟩ := WeakPtr.inFamily.SafeWeakDecrease
      (Or.inl rfl : WeakPtr.inFamily b p ⟨some p, some b⟩) H hu (by omega)
    exact ⟨h1, by simp [WeakPtr.assign_copy, e1, WeakPtr.SafeWeakIncrease],
      by simpa [WeakPtr.unit] using H1⟩
  · simp [WeakPtr.unit] at hv
    obtain ⟨h1, e1, H1⟩ := H.IncreaseWeakUsage (by omega) (by omega)
    exact ⟨h1,
      by simp [WeakPtr.assign_copy, WeakPtr.SafeWeakDecrease, WeakPtr.SafeWeakIncrease, e1],
      by simpa [WeakPtr.unit] using H1⟩
  · exact ⟨h, by simp [WeakPtr.assign_copy], by simpa [WeakPtr.unit] using H⟩

theorem WeakPtr.inFamily.assign_shared {x : WeakPtr} {y : SharedPtr} (hx : x.inFamily b p)
    (hy : y.inFamily b p) (H : FamilyHeap esft b p L0 S W h) (hu : x.unit ≤ W)
    (hv : y.unit ≤ S) (hfit : S + W + 2 < SIZE_MOD) :
    ∃ h1, WeakPtr.assign_shared x y h = some (⟨y.ptr_, y.block_⟩, h1) ∧
      FamilyHeap esft b p L0 S (W - x.unit + y.unit) h1 := by
  rcases hx with rfl | rfl <;> rcases hy with rfl | rfl
  · refine ⟨h, by simp [WeakPtr.assign_shared], ?_⟩
    simp [WeakPtr.unit, SharedPtr.unit] at hu ⊢
    rw [Nat.sub_add_cancel hu]; exact H
  · obtain ⟨h1, e1, H1⟩ := WeakPtr.inFamily.SafeWeakDecrease
      (Or.inl rfl : WeakPtr.inFamily b p ⟨some p, some b⟩) H hu (by omega)
    exact ⟨h1, by simp [WeakPtr.assign_shared, e1, WeakPtr.SafeWeakIncrease],
      by simpa [WeakPtr.unit, SharedPtr.unit] using H1⟩
  · simp [SharedPtr.unit] at hv
    obtain ⟨h1, e1, H1⟩ := H.IncreaseWeakUsage (by omega) (by omega)
    exact ⟨h1,
      by simp [WeakPtr.assign_shared, WeakPtr.SafeWeakDecrease, WeakPtr.SafeWeakIncrease, e1],
      by simpa [WeakPtr.unit, SharedPtr.unit] using H1⟩
  · exact ⟨h, by simp [WeakPtr.assign_shared],
      by simpa [WeakPtr.unit, SharedPtr.unit] using H⟩

theorem WeakPtr.inFamily.weak_assign_move {x y : WeakPtr} (hx : x.inFamily b p)
    (hy : y.inFamily b p) (H : FamilyHeap esft b p L0 S W h) (hu : x.unit ≤ W)
    (hfit : S + W + 1 < SIZE_MOD) :
    (x = y ∧ WeakPtr.assign_move x y h = some (x, y, h)) ∨
    (x ≠ y ∧ ∃ h1, WeakPtr.assign_move x y h = some (y, ⟨none, none⟩, h1) ∧
      FamilyHeap esft b p L0 S (W - x.unit) h1) := by
  rcases hx with rfl | rfl <;> rcases hy with rfl | rfl
  · exact Or.inl ⟨rfl, by simp [WeakPtr.assign_move]⟩
  · obtain ⟨h1, e1, H1⟩ := WeakPtr.inFamily.SafeWeakDecrease
      (Or.inl rfl : WeakPtr.inFamily b p ⟨some p, some b⟩) H hu hfit
    exact Or.inr ⟨by simp, h1, by simp [WeakPtr.assign_move, e1, WeakPtr.Swap], H1⟩
  · exact Or.inr ⟨by simp, h,
      by simp [WeakPtr.assign_move, WeakPtr.SafeWeakDecrease, WeakPtr.Swap],
      by simpa [WeakPtr.unit] using H⟩
  · exact Or.inl ⟨rfl, by simp [WeakPtr.assign_move]⟩

end family


/-! ### Lists of handles -/

theorem sharedUnits_append (l : List SharedPtr) (c : SharedPtr) :
    sharedUnits (l ++ [c]) = sharedUnits l + c.unit := by
  simp [sharedUnits, SharedPtr.unit, List.countP_cons]

theorem sharedUnits_set {l : List SharedPtr} {i : Nat} {x : SharedPtr} (y : SharedPtr)
    (h : l[i]? = some x) : sharedUnits (l.set i y) + x.unit = sharedUnits l + y.unit :=
  countP_set_add _ y h

theorem sharedUnits_eraseIdx {l : List SharedPtr} {i : Nat} {x : SharedPtr}
    (h : l[i]? = some x) : sharedUnits (l.eraseIdx i) + x.unit = sharedUnits l :=
  countP_eraseIdx_add _ h

theorem unit_le_sharedUnits {l : List SharedPtr} {i : Nat} {x : SharedPtr}
    (h : l[i]? = some x) : x.unit ≤ sharedUnits l :=
  countP_ge_of_getElem? (fun x : SharedPtr => x.block_.isSome) h

theorem sharedUnits_le_length (l : List SharedPtr) : sharedUnits l ≤ l.length :=
  List.countP_le_length _

theorem weakUnits_append (l : List WeakPtr) (c : WeakPtr) :
    weakUnits (l ++ [c]) = weakUnits l + c.unit := by
  simp [weakUnits, WeakPtr.unit, List.countP_cons]

theorem weakUnits_set {l : List WeakPtr} {i : Nat} {x : WeakPtr} (y : WeakPtr)
    (h : l[i]? = some x) : weakUnits (l.set i y) + x.unit = weakUnits l + y.unit :=
  countP_set_add _ y h

theorem weakUnits_eraseIdx {l : List WeakPtr} {i : Nat} {x : WeakPtr}
    (h : l[i]? = some x) : weakUnits (l.eraseIdx i) + x.unit = weakUnits l :=
  countP_eraseIdx_add _ h

theorem unit_le_weakUnits {l : List WeakPtr} {i : Nat} {x : WeakPtr}
    (h : l[i]? = some x) : x.unit ≤ weakUnits l :=
  countP_ge_of_getElem? (fun x : WeakPtr => x.block_.isSome) h

theorem weakUnits_le_length (l : List WeakPtr) : weakUnits l ≤ l.length :=
  List.countP_le_length _

theorem forall_mem_append_one {α : Type} {P : α → Prop} {l : List α} {c : α}
    (hl : ∀ x ∈ l, P x) (hc : P c) : ∀ x ∈ l ++ [c], P x := by
  intro x hx
  rcases List.mem_append.1 hx with h | h
  · exact hl x h
  · simp at h; subst h; exact hc

theorem forall_mem_set {α : Type} {P : α → Prop} {l : List α} {i : Nat} {c : α}
    (hl : ∀ x ∈ l, P x) (hc : P c) : ∀ x ∈ l.set i c, P x := by
  intro x hx
  rcases List.mem_or_eq_of_mem_set hx with h | h
  · exact hl x h
  · subst h; exact hc

theorem forall_mem_eraseIdx {α : Type} {P : α → Prop} {l : List α} {i : Nat}
    (hl : ∀ x ∈ l, P x) : ∀ x ∈ l.eraseIdx i, P x :=
  fun x hx => hl x (List.mem_of_mem_eraseIdx hx)

/-- Every statement runs without undefined behaviour on a frame of one family, keeps the
frame in the family, creates at most one handle and releases at most one unit. -/
theorem FamilyInv.step {esft : Bool} {b p : Nat} {L0 : List Event} {s : Sys}
    (H : FamilyInv esft b p L0 s) (op : Op)
    (hfit : s.shared.length + s.weak.length + 3 < SIZE_MOD) :
    ∃ s1, s.step esft op = some s1 ∧ FamilyInv esft b p L0 s1 ∧
      s1.shared.length + s1.weak.length ≤ s.shared.length + s.weak.length + 1 ∧
      sharedUnits s.shared ≤ sharedUnits s1.shared + 1 ∧
      sharedUnits s.shared + weakUnits s.weak ≤
        sharedUnits s1.shared + weakUnits s1.weak + 1 ∧
      (sharedUnits s.shared = 0 → sharedUnits s1.shared = 0) ∧
      (sharedUnits s.shared + weakUnits s.weak = 0 →
        sharedUnits s1.shared + weakUnits s1.weak = 0) := by
  obtain ⟨hsh, hwk, HH⟩ := H
  have hSl := sharedUnits_le_length s.shared
  have hWl := weakUnits_le_length s.weak
  have hskip : ∃ s1, some s = some s1 ∧ FamilyInv esft b p L0 s1 ∧
      s1.shared.length + s1.weak.length ≤ s.shared.length + s.weak.length + 1 ∧
      sharedUnits s.shared ≤ sharedUnits s1.shared + 1 ∧
      sharedUnits s.shared + weakUnits s.weak ≤
        sharedUnits s1.shared + weakUnits s1.weak + 1 ∧
      (sharedUnits s.shared = 0 → sharedUnits s1.shared = 0) ∧
      (sharedUnits s.shared + weakUnits s.weak = 0 →
        sharedUnits s1.shared + weakUnits s1.weak = 0) :=
    ⟨s, rfl, ⟨hsh, hwk, HH⟩, by omega, by omega, by omega, id, id⟩
  have hS0 : SharedPtr.unit ⟨none, none⟩ = 0 := rfl
  have hW0 : WeakPtr.unit ⟨none, none⟩ = 0 := rfl
  cases op with
  | sharedCopy i =>
    simp only [Sys.step]
    cases hx : s.shared[i]? with
    | none => exact hskip
    | some x =>
      have hxf := hsh x (mem_of_getElem? hx)
      have hxu := unit_le_sharedUnits hx
      obtain ⟨h1, e1, H1⟩ := hxf.shared_ctor_copy HH hxu (by omega)
      have hu := sharedUnits_append s.shared x
      refine ⟨⟨h1, s.shared ++ [x], s.weak⟩, by simp [e1],
        ⟨forall_mem_append_one hsh hxf, hwk, by rw [hu]; exact H1⟩, ?_, ?_, ?_, ?_, ?_⟩
      all_goals simp only [List.length_append, List.length_cons, List.length_nil]; omega
  | sharedMove i =>
    simp only [Sys.step]
    cases hx : s.shared[i]? with
    | none => exact hskip
    | some x =>
      have hxf := hsh x (mem_of_getElem? hx)
      have hu := sharedUnits_append (s.shared.set i ⟨none, none⟩) x
      have hv := sharedUnits_set ⟨none, none⟩ hx
      have hx' : (⟨x.ptr_, x.block_⟩ : SharedPtr) = x := rfl
      refine ⟨_, rfl, ⟨?_, hwk, ?_⟩, ?_, ?_, ?_, ?_, ?_⟩
      · exact forall_mem_append_one (forall_mem_set hsh (Or.inr rfl)) hxf
      · simp only [SharedPtr.ctor_move, hx']
        rw [show sharedUnits (s.shared.set i ⟨none, none⟩ ++ [x]) = sharedUnits s.shared by omega]
        exact HH
      all_goals simp only [SharedPtr.ctor_move, hx', List.length_append, List.length_set,
        List.length_cons, List.length_nil]; omega
  | sharedAssign i j =>
    simp only [Sys.step]
    cases hx : s.shared[i]? with
    | none => exact hskip
    | some x =>
      cases hy : s.shared[j]? with
      | none => exact hskip
      | some y =>
        have hxf := hsh x (mem_of_getElem? hx)
        have hyf := hsh y (mem_of_getElem? hy)
        have hxu := unit_le_sharedUnits hx
        have hyu := unit_le_sharedUnits hy
        obtain ⟨h1, e1, H1⟩ := hxf.shared_assign_copy hyf HH hxu hyu (by omega)
        have hv := sharedUnits_set y hx
        have hxle : x.unit ≤ 1 := by unfold SharedPtr.unit; split <;> omega
        refine ⟨⟨h1, s.shared.set i y, s.weak⟩, by simp [e1],
          ⟨forall_mem_set hsh hyf, hwk, ?_⟩, ?_, ?_, ?_, ?_, ?_⟩
        · rw [show sharedUnits (s.shared.set i y) = sharedUnits s.shared - x.unit + y.unit by
            omega]
          exact H1
        all_goals simp only [List.length_set]; omega
  | sharedMoveAssign i j =>
    simp only [Sys.step]
    cases hx : s.shared[i]? with
    | none => exact hskip
    | some x =>
      cases hy : s.shared[j]? with
      | none => exact hskip
      | some y =>
        have hxf := hsh x (mem_of_getElem? hx)
        have hyf := hsh y (mem_of_getElem? hy)
        have hxu := unit_le_sharedUnits hx
        rcases hxf.shared_assign_move hyf HH hxu (by omega) with ⟨hxy, e1⟩ | ⟨hxy, h1, e1, H1⟩
        · subst hxy
          have e2 : (s.shared.set j x).set i x = s.shared := by
            rw [set_same hy, set_same hx]
          refine ⟨s, by simp [e1, e2], ⟨hsh, hwk, HH⟩, by omega, by omega, by omega, id, id⟩
        · have hij : j ≠ i := by
            rintro rfl
            rw [hx] at hy
            exact hxy (Option.some.inj hy)
          have hx2 : (s.shared.set j ⟨none, none⟩)[i]? = some x := by
            rw [List.getElem?_set_ne hij]; exact hx
          have hv1 := sharedUnits_set ⟨none, none⟩ hy
          have hv2 := sharedUnits_set y hx2
          have hxle : x.unit ≤ 1 := by unfold SharedPtr.unit; split <;> omega
          refine ⟨⟨h1, (s.shared.set j ⟨none, none⟩).set i y, s.weak⟩, by simp [e1],
            ⟨forall_mem_set (forall_mem_set hsh (Or.inr rfl)) hyf, hwk, ?_⟩, ?_, ?_, ?_, ?_, ?_⟩
          · rw [show sharedUnits ((s.shared.set j ⟨none, none⟩).set i y) =
              sharedUnits s.shared - x.unit by omega]
            exact H1
          all_goals simp only [List.length_set]; omega
  | sharedReset i =>
    simp only [Sys.step]
    cases hx : s.shared[i]? with
    | none => exact hskip
    | some x =>
      have hxf := hsh x (mem_of_getElem? hx)
      have hxu := unit_le_sharedUnits hx
      have hxle : x.unit ≤ 1 := by unfold SharedPtr.unit; split <;> omega
      obtain ⟨h1, e1, H1⟩ := hxf.Reset HH hxu (by omega)
      have hv := sharedUnits_set ⟨none, none⟩ hx
      refine ⟨⟨h1, s.shared.set i ⟨none, none⟩, s.weak⟩, by simp [e1],
        ⟨forall_mem_set hsh (Or.inr rfl), hwk, ?_⟩, ?_, ?_, ?_, ?_, ?_⟩
      · rw [show sharedUnits (s.shared.set i ⟨none, none⟩) = sharedUnits s.shared - x.unit by
          omega]
        exact H1
      all_goals simp only [List.length_set]; omega
  | sharedDestroy i =>
    simp only [Sys.step]
    cases hx : s.shared[i]? with
    | none => exact hskip
    | some x =>
      have hxf := hsh x (mem_of_getElem? hx)
      have hxu := unit_le_sharedUnits hx
      have hxle : x.unit ≤ 1 := by unfold SharedPtr.unit; split <;> omega
      obtain ⟨h1, e1, H1⟩ := hxf.SafeDecrease HH hxu (by omega)
      have hv := sharedUnits_eraseIdx hx
      have hlen : (s.shared.eraseIdx i).length ≤ s.shared.length := by
        rw [List.length_eraseIdx]; split <;> omega
      refine ⟨⟨h1, s.shared.eraseIdx i, s.weak⟩, by simp [SharedPtr.dtor, e1],
        ⟨forall_mem_eraseIdx hsh, hwk, ?_⟩, ?_, ?_, ?_, ?_, ?_⟩
      · rw [show sharedUnits (s.shared.eraseIdx i) = sharedUnits s.shared - x.unit by omega]
        exact H1
      all_goals dsimp only; omega
  | sharedFromWeak j =>
    simp only [Sys.step]
    cases hx : s.weak[j]? with
    | none => exact hskip
    | some x =>
      have hxf := hwk x (mem_of_getElem? hx)
      have hxu := unit_le_weakUnits hx
      rcases hxf.ctor_weak HH hxu (by omega) with e1 | ⟨c, h1, e1, hc, hcu, H1⟩
      · exact ⟨s, by simp [e1], ⟨hsh, hwk, HH⟩, by omega, by omega, by omega, id, id⟩
      · have hu := sharedUnits_append s.shared c
        refine ⟨⟨h1, s.shared ++ [c], s.weak⟩, by simp [e1],
          ⟨forall_mem_append_one hsh hc, hwk, by rw [hu]; exact H1⟩, ?_, ?_, ?_, ?_, ?_⟩
        all_goals simp only [List.length_append, List.length_cons, List.length_nil]; omega
  | lock j =>
    simp only [Sys.step]
    cases hx : s.weak[j]? with
    | none => exact hskip
    | some x =>
      have hxf := hwk x (mem_of_getElem? hx)
      have hxu := unit_le_weakUnits hx
      obtain ⟨c, h1, e1, hc, hcu, H1⟩ := hxf.Lock HH hxu (by omega)
      have hu := sharedUnits_append s.shared c
      refine ⟨⟨h1, s.shared ++ [c], s.weak⟩, by simp [e1],
        ⟨forall_mem_append_one hsh hc, hwk, by rw [hu]; exact H1⟩, ?_, ?_, ?_, ?_, ?_⟩
      all_goals simp only [List.length_append, List.length_cons, List.length_nil]; omega
  | weakFromShared i =>
    simp only [Sys.step]
    cases hx : s.shared[i]? with
    | none => exact hskip
    | some x =>
      have hxf := hsh x (mem_of_getElem? hx)
      have hxu := unit_le_sharedUnits hx
      obtain ⟨h1, e1, H1⟩ := hxf.ctor_shared HH hxu (by omega)
      have hc : WeakPtr.inFamily b p ⟨x.ptr_, x.block_⟩ := by
        rcases hxf with rfl | rfl
        · exact Or.inl rfl
        · exact Or.inr rfl
      have hu := weakUnits_append s.weak ⟨x.ptr_, x.block_⟩
      have hcu : WeakPtr.unit ⟨x.ptr_, x.block_⟩ = x.unit := rfl
      refine ⟨⟨h1, s.shared, s.weak ++ [⟨x.ptr_, x.block_⟩]⟩, by simp [e1],
        ⟨hsh, forall_mem_append_one hwk hc, by rw [hu, hcu]; exact H1⟩, ?_, ?_, ?_, ?_, ?_⟩
      all_goals simp only [List.length_append, List.length_cons, List.length_nil]; omega
  | weakCopy j =>
    simp only [Sys.step]
    cases hx : s.weak[j]? with
    | none => exact hskip
    | some x =>
      have hxf := hwk x (mem_of_getElem? hx)
      have hxu := unit_le_weakUnits hx
      obtain ⟨h1, e1, H1⟩ := hxf.weak_ctor_copy HH (by omega) (by omega)
      have hu := weakUnits_append s.weak x
      refine ⟨⟨h1, s.shared, s.weak ++ [x]⟩, by simp [e1],
        ⟨hsh, forall_mem_append_one hwk hxf, by rw [hu]; exact H1⟩, ?_, ?_, ?_, ?_, ?_⟩
      all_goals simp only [List.length_append, List.length_cons, List.length_nil]; omega
  | weakMove j =>
    simp only [Sys.step]
    cases hx : s.weak[j]? with
    | none => exact hskip
    | some x =>
      have hxf := hwk x (mem_of_getElem? hx)
      have hu := weakUnits_append (s.weak.set j ⟨none, none⟩) x
      have hv := weakUnits_set ⟨none, none⟩ hx
      have hx' : (⟨x.ptr_, x.block_⟩ : WeakPtr) = x := rfl
      refine ⟨_, rfl, ⟨hsh, ?_, ?_⟩, ?_, ?_, ?_, ?_, ?_⟩
      · exact forall_mem_append_one (forall_mem_set hwk (Or.inr rfl)) hxf
      · simp only [WeakPtr.ctor_move, hx']
        rw [show weakUnits (s.weak.set j ⟨none, none⟩ ++ [x]) = weakUnits s.weak by omega]
        exact HH
      all_goals simp only [WeakPtr.ctor_move, hx', List.length_append, List.length_set,
        List.length_cons, List.length_nil]; omega
  | weakAssign j k =>
    simp only [Sys.step]
    cases hx : s.weak[j]? with
    | none => exact hskip
    | some x =>
      cases hy : s.weak[k]? with
      | none => exact hskip
      | some y =>
        have hxf := hwk x (mem_of_getElem? hx)
        have hyf := hwk y (mem_of_getElem? hy)
        have hxu := unit_le_weakUnits hx
        have hyu := unit_le_weakUnits hy
        obtain ⟨h1, e1, H1⟩ := hxf.weak_assign_copy hyf HH hxu (by omega) (by omega)
        have hv := weakUnits_set y hx
        have hxle : x.unit ≤ 1 := by unfold WeakPtr.unit; split <;> omega
        refine ⟨⟨h1, s.shared, s.weak.set j y⟩, by simp [e1],
          ⟨hsh, forall_mem_set hwk hyf, ?_⟩, ?_, ?_, ?_, ?_, ?_⟩
        · rw [show weakUnits (s.weak.set j y) = weakUnits s.weak - x.unit + y.unit by omega]
          exact H1
        all_goals simp only [List.length_set]; omega
  | weakMoveAssign j k =>
    simp only [Sys.step]
    cases hx : s.weak[j]? with
    | none => exact hskip
    | some x =>
      cases hy : s.weak[k]? with
      | none => exact hskip
      | some y =>
        have hxf := hwk x (mem_of_getElem? hx)
        have hyf := hwk y (mem_of_getElem? hy)
        have hxu := unit_le_weakUnits hx
        rcases hxf.weak_assign_move hyf HH hxu (by omega) with ⟨hxy, e1⟩ | ⟨hxy, h1, e1, H1⟩
        · subst hxy
          have e2 : (s.weak.set k x).set j x = s.weak := by
            rw [set_same hy, set_same hx]
          refine ⟨s, by simp [e1, e2], ⟨hsh, hwk, HH⟩, by omega, by omega, by omega, id, id⟩
        · have hij : k ≠ j := by
            rintro rfl
            rw [hx] at hy
            exact hxy (Option.some.inj hy)
          have hx2 : (s.weak.set k ⟨none, none⟩)[j]? = some x := by
            rw [List.getElem?_set_ne hij]; exact hx
          have hv1 := weakUnits_set ⟨none, none⟩ hy
          have hv2 := weakUnits_set y hx2
          have hxle : x.unit ≤ 1 := by unfold WeakPtr.unit; split <;> omega
          refine ⟨⟨h1, s.shared, (s.weak.set k ⟨none, none⟩).set j y⟩, by simp [e1],
            ⟨hsh, forall_mem_set (forall_mem_set hwk (Or.inr rfl)) hyf, ?_⟩, ?_, ?_, ?_, ?_, ?_⟩
          · rw [show weakUnits ((s.weak.set k ⟨none, none⟩).set j y) =
              weakUnits s.weak - x.unit by omega]
            exact H1
          all_goals simp only [List.length_set]; omega
  | weakAssignShared j i =>
    simp only [Sys.step]
    cases hx : s.weak[j]? with
    | none => exact hskip
    | some x =>
      cases hy : s.shared[i]? with
      | none => exact hskip
      | some y =>
        have hxf := hwk x (mem_of_getElem? hx)
        have hyf := hsh y (mem_of_getElem? hy)
        have hxu := unit_le_weakUnits hx
        have hyu := unit_le_sharedUnits hy
        obtain ⟨h1, e1, H1⟩ := hxf.assign_shared hyf HH hxu hyu (by omega)
        have hc : WeakPtr.inFamily b p ⟨y.ptr_, y.block_⟩ := by
          rcases hyf with rfl | rfl
          · exact Or.inl rfl
          · exact Or.inr rfl
        have hcu : WeakPtr.unit ⟨y.ptr_, y.block_⟩ = y.unit := rfl
        have hv := weakUnits_set ⟨y.ptr_, y.block_⟩ hx
        have hxle : x.unit ≤ 1 := by unfold WeakPtr.unit; split <;> omega
        refine ⟨⟨h1, s.shared, s.weak.set j ⟨y.ptr_, y.block_⟩⟩, by simp [e1],
          ⟨hsh, forall_mem_set hwk hc, ?_⟩, ?_, ?_, ?_, ?_, ?_⟩
        · rw [show weakUnits (s.weak.set j ⟨y.ptr_, y.block_⟩) =
            weakUnits s.weak - x.unit + y.unit by omega]
          exact H1
        all_goals simp only [List.length_set]; omega
  | weakReset j =>
    simp only [Sys.step]
    cases hx : s.weak[j]? with
    | none => exact hskip
    | some x =>
      have hxf := hwk x (mem_of_getElem? hx)
      have hxu := unit_le_weakUnits hx
      have hxle : x.unit ≤ 1 := by unfold WeakPtr.unit; split <;> omega
      obtain ⟨h1, e1, H1⟩ := hxf.SafeWeakDecrease HH hxu (by omega)
      have hv := weakUnits_set ⟨none, none⟩ hx
      refine ⟨⟨h1, s.shared, s.weak.set j ⟨none, none⟩⟩, by simp [WeakPtr.Reset, e1],
        ⟨hsh, forall_mem_set hwk (Or.inr rfl), ?_⟩, ?_, ?_, ?_, ?_, ?_⟩
      · rw [show weakUnits (s.weak.set j ⟨none, none⟩) = weakUnits s.weak - x.unit by omega]
        exact H1
      all_goals simp only [List.length_set]; omega
  | weakDestroy j =>
    simp only [Sys.step]
    cases hx : s.weak[j]? with
    | none => exact hskip
    | some x =>
      have hxf := hwk x (mem_of_getElem? hx)
      have hxu := unit_le_weakUnits hx
      have hxle : x.unit ≤ 1 := by unfold WeakPtr.unit; split <;> omega
      obtain ⟨h1, e1, H1⟩ := hxf.SafeWeakDecrease HH hxu (by omega)
      have hv := weakUnits_eraseIdx hx
      have hlen : (s.weak.eraseIdx j).length ≤ s.weak.length := by
        rw [List.length_eraseIdx]; split <;> omega
      refine ⟨⟨h1, s.shared, s.weak.eraseIdx j⟩, by simp [WeakPtr.dtor, e1],
        ⟨hsh, forall_mem_eraseIdx hwk, ?_⟩, ?_, ?_, ?_, ?_, ?_⟩
      · rw [show weakUnits (s.weak.eraseIdx j) = weakUnits s.weak - x.unit by omega]
        exact H1
      all_goals dsimp only; omega

/-- A sequence of statements runs to the end on a frame of one family and keeps the frame in
the family. -/
theorem FamilyInv.run {esft : Bool} {b p : Nat} {L0 : List Event} (ops : List Op) {s : Sys}
    (H : FamilyInv esft b p L0 s)
    (hfit : s.shared.length + s.weak.length + ops.length + 2 < SIZE_MOD) :
    ∃ s1, s.run esft ops = some s1 ∧ FamilyInv esft b p L0 s1 ∧
      s1.shared.length + s1.weak.length ≤ s.shared.length + s.weak.length + ops.length := by
  induction ops generalizing s with
  | nil => exact ⟨s, rfl, H, by simp⟩
  | cons op ops ih =>
    simp only [List.length_cons] at hfit
    obtain ⟨s1, e1, H1, hl, -, -, -, -⟩ := H.step op (by omega)
    obtain ⟨s2, e2, H2, hl2⟩ := ih H1 (by omega)
    refine ⟨s2, by simp [Sys.run, e1, e2], H2, ?_⟩
    simp only [List.length_cons]; omega

theorem Sys.run_append (esft : Bool) (s : Sys) (xs ys : List Op) :
    s.run esft (xs ++ ys) = (s.run esft xs).bind fun s1 => s1.run esft ys := by
  induction xs generalizing s with
  | nil => rfl
  | cons op xs ih =>
    simp only [List.cons_append, Sys.run]
    cases s.step esft op with
    | none => rfl
    | some s1 => exact ih s1

/-- The block just allocated at the end of the block list is live. -/
theorem block_after_alloc (bs : List ControlBlock) (objs : List Object) (lg : List Event)
    (blk : ControlBlock) (hd : blk.deleted = false) :
    Heap.block ⟨bs ++ [blk], objs, lg⟩ bs.length = some blk := by
  simp [Heap.block, hd]

/-- `SharedPtr<T>(p)` for a self-aware `T`, on a live object that no handle has wrapped:
the new block gets one strong and one weak unit, and `weak_this_` is bound to it. -/
theorem SharedPtr.ctor_ptr_esft {h0 : Heap} {p : Nat} {o : Object}
    (ho : h0.object p = some o) (hw : o.weak_this_ = WeakPtr.empty) :
    SharedPtr.ctor_ptr true (some p) h0 =
      some (⟨some p, some h0.blocks.length⟩,
        Heap.setObject
          (Heap.setBlock { h0 with blocks := h0.blocks ++ [BlockWithPointer.new (some p)] }
            h0.blocks.length { BlockWithPointer.new (some p) with weak_count_ := 1 })
          p { o with weak_this_ := ⟨some p, some h0.blocks.length⟩ }) := by
  have hobj : Heap.object { h0 with blocks := h0.blocks ++ [BlockWithPointer.new (some p)] } p
      = some o := ho
  have hblk := block_after_alloc h0.blocks h0.objects h0.log (BlockWithPointer.new (some p)) rfl
  have h1 : preInc 0 = 1 := by unfold preInc SIZE_MOD; rfl
  simp only [SharedPtr.ctor_ptr, SharedPtr.InitWeakThis, hobj, hw, WeakPtr.assign_shared,
    WeakPtr.empty, WeakPtr.SafeWeakDecrease, WeakPtr.SafeWeakIncrease,
    ControlBlock.IncreaseWeakUsage_eq hblk, if_true]
  simp [BlockWithPointer.new, h1]

/-- `SharedPtr<T>(p)` for a `T` that is not self-aware. -/
theorem SharedPtr.ctor_ptr_plain (h0 : Heap) (ptr : Option Nat) :
    SharedPtr.ctor_ptr false ptr h0 =
      some (⟨ptr, some h0.blocks.length⟩,
        { h0 with blocks := h0.blocks ++ [BlockWithPointer.new ptr] }) := by
  simp [SharedPtr.ctor_ptr]

/-- `MakeShared<T>()` for a self-aware `T`. -/
theorem MakeShared_esft (h0 : Heap) :
    MakeShared true h0 =
      some (⟨some h0.objects.length, some h0.blocks.length⟩,
        Heap.setObject
          (Heap.setBlock
            { h0 with blocks := h0.blocks ++ [BlockWithObject.new h0.objects.length],
                      objects := h0.objects ++ [⟨WeakPtr.empty, false⟩] }
            h0.blocks.length { BlockWithObject.new h0.objects.length with weak_count_ := 1 })
          h0.objects.length ⟨⟨some h0.objects.length, some h0.blocks.length⟩, false⟩) := by
  have hobj : Heap.object
      ⟨h0.blocks ++ [BlockWithObject.new h0.objects.length],
        h0.objects ++ [⟨⟨none, none⟩, false⟩], h0.log⟩ h0.objects.length
      = some ⟨⟨none, none⟩, false⟩ := by
    simp [Heap.object]
  have hblk := block_after_alloc h0.blocks (h0.objects ++ [⟨⟨none, none⟩, false⟩]) h0.log
    (BlockWithObject.new h0.objects.length) rfl
  have h1 : preInc 0 = 1 := by unfold preInc SIZE_MOD; rfl
  simp only [MakeShared, WeakPtr.empty, SharedPtr.InitWeakThis, SharedPtr.Get, hobj,
    WeakPtr.assign_shared, WeakPtr.SafeWeakDecrease, WeakPtr.SafeWeakIncrease,
    ControlBlock.IncreaseWeakUsage_eq hblk, if_true]
  simp [BlockWithObject.new, h1]

/-- `MakeShared<T>()` for a `T` that is not self-aware. -/
theorem MakeShared_plain (h0 : Heap) :
    MakeShared false h0 =
      some (⟨some h0.objects.length, some h0.blocks.length⟩,
        { h0 with blocks := h0.blocks ++ [BlockWithObject.new h0.objects.length],
                  objects := h0.objects ++ [⟨WeakPtr.empty, false⟩] }) := by
  simp [MakeShared]

/-- The frame after `SharedPtr<T> a(p)` on a live object that no handle has wrapped yet. -/
theorem FamilyInv.startPtr {esft : Bool} {h0 : Heap} {p : Nat} {o : Object}
    (ho : h0.object p = some o) (hw : esft = true → o.weak_this_ = WeakPtr.empty) :
    ∃ s0, Sys.startPtr esft h0 p = some s0 ∧ s0.heap.log = h0.log ∧
      s0.shared = [⟨some p, some h0.blocks.length⟩] ∧ s0.weak = [] ∧
      FamilyInv esft h0.blocks.length p h0.log s0 := by
  have hget : h0.objects[p]? = some o ∧ o.destroyed = false := by
    unfold Heap.object at ho
    split at ho
    · split at ho
      · cases ho
      · cases ho; simp_all
    · cases ho
  obtain ⟨hget, hd⟩ := hget
  have hpl := lt_of_getElem? hget
  have hfam : ∀ x ∈ [(⟨some p, some h0.blocks.length⟩ : SharedPtr)],
      x.inFamily h0.blocks.length p := by
    intro x hx; simp at hx; subst hx; exact Or.inl rfl
  have hfamw : ∀ x ∈ ([] : List WeakPtr), x.inFamily h0.blocks.length p := by
    intro x hx; simp at hx
  cases esft
  · simp only [Sys.startPtr, SharedPtr.ctor_ptr_plain]
    refine ⟨_, rfl, rfl, rfl, rfl, hfam, hfamw,
      BlockWithPointer.new (some p), o, ?_, hget, rfl, rfl, ?_, ?_, ?_, ?_, ?_, ?_⟩
    · simp
    · intro _; rfl
    · intro h; cases h
    · intro h; cases h
    · simp [sharedUnits, BlockWithPointer.new]
    · simp [sharedUnits, hd]
    · simp [sharedUnits]
  · simp only [Sys.startPtr, SharedPtr.ctor_ptr_esft ho (hw rfl)]
    refine ⟨_, rfl, rfl, rfl, rfl,
      hfam, hfamw, { BlockWithPointer.new (some p) with weak_count_ := 1 },
      { o with weak_this_ := ⟨some p, some h0.blocks.length⟩ }, ?_, ?_, rfl, rfl, ?_, ?_,
      ?_, ?_, ?_, ?_⟩
    · simp
    · simp [hpl]
    · intro h; cases h
    · intro _ _; exact ⟨by simp [weakUnits], rfl⟩
    · intro _ h; simp [sharedUnits] at h
    · simp [sharedUnits, BlockWithPointer.new]
    · simp [sharedUnits, hd]
    · simp [sharedUnits]

/-- The frame after `SharedPtr<T> a = MakeShared<T>()`. -/
theorem FamilyInv.startMake (esft : Bool) (h0 : Heap) :
    ∃ s0, Sys.startMake esft h0 = some s0 ∧ s0.heap.log = h0.log ∧
      s0.shared = [⟨some h0.objects.length, some h0.blocks.length⟩] ∧ s0.weak = [] ∧
      FamilyInv esft h0.blocks.length h0.objects.length h0.log s0 := by
  have hfam : ∀ x ∈ [(⟨some h0.objects.length, some h0.blocks.length⟩ : SharedPtr)],
      x.inFamily h0.blocks.length h0.objects.length := by
    intro x hx; simp at hx; subst hx; exact Or.inl rfl
  have hfamw : ∀ x ∈ ([] : List WeakPtr), x.inFamily h0.blocks.length h0.objects.length := by
    intro x hx; simp at hx
  cases esft
  · simp only [Sys.startMake, MakeShared_plain]
    refine ⟨_, rfl, rfl, rfl, rfl, hfam, hfamw,
      BlockWithObject.new h0.objects.length, ⟨WeakPtr.empty, false⟩, ?_, ?_, rfl, rfl, ?_, ?_,
      ?_, ?_, ?_, ?_⟩
    · simp
    · simp
    · intro _; rfl
    · intro h; cases h
    · intro h; cases h
    · simp [sharedUnits, BlockWithObject.new]
    · simp [sharedUnits]
    · simp [sharedUnits]
  · simp only [Sys.startMake, MakeShared_esft]
    refine ⟨_, rfl, rfl, rfl, rfl,
      hfam, hfamw, { BlockWithObject.new h0.objects.length with weak_count_ := 1 },
      ⟨⟨some h0.objects.length, some h0.blocks.length⟩, false⟩, ?_, ?_, rfl, rfl, ?_, ?_,
      ?_, ?_, ?_, ?_⟩
    · simp
    · simp
    · intro h; cases h
    · intro _ _; exact ⟨by simp [weakUnits], rfl⟩
    · intro _ h; simp [sharedUnits] at h
    · simp [sharedUnits, BlockWithObject.new]
    · simp [sharedUnits]
    · simp [sharedUnits]

/-! ### What the log and the stored counters say in a family -/

section observe
variable {esft : Bool} {b p : Nat} {L0 : List Event} {S W : Nat} {h : Heap}

theorem FamilyHeap.destroyCount_eq (H : FamilyHeap esft b p L0 S W h) :
    h.destroyCount p = L0.count (Event.destroyObject p) + (if S = 0 then 1 else 0) := by
  obtain ⟨blk, o, -, -, -, -, -, -, -, -, -, hlog⟩ := H
  unfold Heap.destroyCount
  rw [hlog]
  by_cases h1 : S = 0 <;> by_cases h2 : W = 0 <;> simp [h1, h2]

theorem FamilyHeap.deleteCount_eq (H : FamilyHeap esft b p L0 S W h) :
    h.deleteCount b = L0.count (Event.deleteBlock b) + (if S = 0 ∧ W = 0 then 1 else 0) := by
  obtain ⟨blk, o, -, -, -, -, -, -, -, -, -, hlog⟩ := H
  unfold Heap.deleteCount
  rw [hlog]
  by_cases h1 : S = 0 <;> by_cases h2 : W = 0 <;> simp [h1, h2]

theorem FamilyHeap.useCount_eq (H : FamilyHeap esft b p L0 S W h) : h.useCount b = S := by
  obtain ⟨blk, o, hb, -, -, hu, -, -, -, -, -, -⟩ := H
  simp [Heap.useCount, hb, hu]

theorem FamilyHeap.weakCount_eq (H : FamilyHeap false b p L0 S W h) : h.weakCount b = W := by
  obtain ⟨blk, o, hb, -, -, -, hw, -, -, -, -, -⟩ := H
  simp [Heap.weakCount, hb, hw rfl]

theorem FamilyHeap.log_cases (H : FamilyHeap esft b p L0 S W h) :
    h.log = L0 ∨ h.log = L0 ++ [Event.destroyObject p] ∨
      h.log = L0 ++ [Event.destroyObject p, Event.deleteBlock b] := by
  obtain ⟨blk, o, -, -, -, -, -, -, -, -, -, hlog⟩ := H
  rw [hlog]
  by_cases h1 : S = 0 <;> by_cases h2 : W = 0 <;> simp [h1, h2]

end observe

/-- The two ways the first handle of a family comes to be: `SharedPtr<T> a(p)` on a live
object not wrapped before, or `SharedPtr<T> a = MakeShared<T>()`. -/
theorem FamilyInv.of_start {esft : Bool} {h0 : Heap} {p : Nat} {s0 : Sys}
    (hstart : (∃ o, h0.object p = some o ∧ (esft = true → o.weak_this_ = WeakPtr.empty) ∧
                Sys.startPtr esft h0 p = some s0) ∨
              (p = h0.objects.length ∧ Sys.startMake esft h0 = some s0)) :
    s0.shared = [⟨some p, some h0.blocks.length⟩] ∧ s0.weak = [] ∧ s0.heap.log = h0.log ∧
      FamilyInv esft h0.blocks.length p h0.log s0 := by
  rcases hstart with ⟨o, ho, hw, hs⟩ | ⟨hp, hs⟩
  · obtain ⟨s, e, hl, h1, h2, H⟩ := FamilyInv.startPtr ho hw
    rw [e] at hs; cases hs
    exact ⟨h1, h2, hl, H⟩
  · obtain ⟨s, e, hl, h1, h2, H⟩ := FamilyInv.startMake esft h0
    rw [e] at hs; cases hs
    subst hp
    exact ⟨h1, h2, hl, H⟩

/-- Running up to and over one statement of a sequence. -/
theorem FamilyInv.run_split {esft : Bool} {b p : Nat} {L0 : List Event} {s0 : Sys}
    (H : FamilyInv esft b p L0 s0) {ops pre suf : List Op} {op : Op}
    (hops : ops = pre ++ op :: suf)
    (hfit : s0.shared.length + s0.weak.length + ops.length + 2 < SIZE_MOD) :
    ∃ s1 s2, s0.run esft pre = some s1 ∧ s1.step esft op = some s2 ∧
      FamilyInv esft b p L0 s1 ∧ FamilyInv esft b p L0 s2 ∧
      sharedUnits s1.shared ≤ sharedUnits s2.shared + 1 ∧
      sharedUnits s1.shared + weakUnits s1.weak ≤
        sharedUnits s2.shared + weakUnits s2.weak + 1 ∧
      (sharedUnits s1.shared = 0 → sharedUnits s2.shared = 0) ∧
      (sharedUnits s1.shared + weakUnits s1.weak = 0 →
        sharedUnits s2.shared + weakUnits s2.weak = 0) := by
  subst hops
  simp only [List.length_append, List.length_cons] at hfit
  obtain ⟨s1, e1, H1, hl⟩ := H.run pre (by omega)
  obtain ⟨s2, e2, H2, -, hu, huw, hm, hmw⟩ := H1.step op (by omega)
  exact ⟨s1, s2, e1, e2, H1, H2, hu, huw, hm, hmw⟩

/-- C1. Start a family with `SharedPtr<T> a(p)` (on a live object not wrapped before) or
with `MakeShared<T>()`, for a self-aware or a plain `T`, and run any sequence of copy and
move constructions, assignments, `Reset()` and destructions (and of the weak-handle
statements) on it: the run has no undefined behaviour, the pointee's destructor is logged at
most once and exactly when no handle holds a strong unit any more, and the statement that
logs it is the one that takes `use_count_` from 1 to 0, the block's `use_count_` being the
number of handles that hold a strong unit. -/
theorem C1_pointee_destroyed_once_at_last_release (esft : Bool) (h0 : Heap) (p : Nat)
    (s0 : Sys)
    (hstart : (∃ o, h0.object p = some o ∧ (esft = true → o.weak_this_ = WeakPtr.empty) ∧
                Sys.startPtr esft h0 p = some s0) ∨
              (p = h0.objects.length ∧ Sys.startMake esft h0 = some s0))
    (ops : List Op) (hfit : ops.length + 3 < SIZE_MOD) :
    ∃ s, s0.run esft ops = some s ∧
      s.heap.destroyCount p ≤ s0.heap.destroyCount p + 1 ∧
      (s.heap.destroyCount p = s0.heap.destroyCount p + 1 ↔ sharedUnits s.shared = 0) ∧
      ∀ pre op suf, ops = pre ++ op :: suf →
        ∃ s1 s2, s0.run esft pre = some s1 ∧ s1.step esft op = some s2 ∧
          s1.heap.useCount h0.blocks.length = sharedUnits s1.shared ∧
          s2.heap.useCount h0.blocks.length = sharedUnits s2.shared ∧
          (s2.heap.destroyCount p = s1.heap.destroyCount p ∨
            s2.heap.destroyCount p = s1.heap.destroyCount p + 1) ∧
          (s2.heap.destroyCount p = s1.heap.destroyCount p + 1 ↔
            s1.heap.useCount h0.blocks.length = 1 ∧
              s2.heap.useCount h0.blocks.length = 0) := by
  obtain ⟨hl1, hl2, hlog, H0⟩ := FamilyInv.of_start hstart
  have hc0 := H0.2.2.destroyCount_eq
  have hS0 : sharedUnits s0.shared = 1 := by rw [hl1]; rfl
  have hlen : s0.shared.length + s0.weak.length + ops.length + 2 < SIZE_MOD := by
    rw [hl1, hl2]; simp only [List.length_cons, List.length_nil]; omega
  rw [hS0] at hc0
  simp only [one_ne_zero, if_false, Nat.add_zero] at hc0
  obtain ⟨s, e, H, -⟩ := H0.run ops hlen
  have hc := H.2.2.destroyCount_eq
  refine ⟨s, e, ?_, ?_, ?_⟩
  · rw [hc, hc0]; split <;> omega
  · rw [hc, hc0]; split <;> omega
  · intro pre op suf hops
    obtain ⟨s1, s2, e1, e2, H1, H2, hu, -, hm, -⟩ := H0.run_split hops hlen
    have c1 := H1.2.2.destroyCount_eq
    have c2 := H2.2.2.destroyCount_eq
    have u1 := H1.2.2.useCount_eq
    have u2 := H2.2.2.useCount_eq
    refine ⟨s1, s2, e1, e2, u1, u2, ?_, ?_⟩
    · rw [c1, c2]; split <;> split <;> omega
    · rw [c1, c2, u1, u2]; split <;> split <;> omega

/-- C1 at a concrete run: a self-aware object made by `MakeShared`, copied, then both
handles destroyed. -/
theorem C1_pointee_destroyed_once_at_last_release_witness :
    ((∃ o, Heap.empty.object 0 = some o ∧ (true = true → o.weak_this_ = WeakPtr.empty) ∧
        Sys.startPtr true Heap.empty 0 =
          some ⟨⟨[⟨BlockKind.BlockWithObject, 1, 1, some 0, false⟩],
                 [⟨⟨some 0, some 0⟩, false⟩], []⟩, [⟨some 0, some 0⟩], []⟩) ∨
      (0 = Heap.empty.objects.length ∧
        Sys.startMake true Heap.empty =
          some ⟨⟨[⟨BlockKind.BlockWithObject, 1, 1, some 0, false⟩],
                 [⟨⟨some 0, some 0⟩, false⟩], []⟩, [⟨some 0, some 0⟩], []⟩)) ∧
    [Op.sharedCopy 0, Op.sharedDestroy 0, Op.sharedDestroy 0].length + 3 < SIZE_MOD ∧
    ∃ s, Sys.run true
          ⟨⟨[⟨BlockKind.BlockWithObject, 1, 1, some 0, false⟩],
            [⟨⟨some 0, some 0⟩, false⟩], []⟩, [⟨some 0, some 0⟩], []⟩
          [Op.sharedCopy 0, Op.sharedDestroy 0, Op.sharedDestroy 0] = some s ∧
      s.heap.destroyCount 0 ≤ 0 + 1 :=
  ⟨Or.inr ⟨rfl, by decide⟩, by decide,
    (C1_pointee_destroyed_once_at_last_release true Heap.empty 0 _
      (Or.inr ⟨rfl, by decide⟩)
      [Op.sharedCopy 0, Op.sharedDestroy 0, Op.sharedDestroy 0] (by decide)).imp
      fun _ hs => ⟨hs.1, hs.2.1⟩⟩

/-- For a `T` that is not self-aware and has no handle among its members (the destructor
is `destroyT`), start a family with `SharedPtr<T> a(p)` or with
`MakeShared<T>()` and run any sequence of `SharedPtr` and `WeakPtr` constructions, copies,
moves, assignments, `Lock` promotions and releases on it: the run has no undefined
behaviour; the log grows by nothing, by the pointee's destruction, or by the pointee's
destruction followed by the block's deletion, so the block is deleted at most once and never
before the pointee is destroyed; and the statement that deletes the block is the one after
which the stored `use_count_ + weak_count_` is 0, the two counters being the numbers of
strong and weak handles that hold the block. -/
theorem plain_block_deleted_once_when_both_counts_zero (h0 : Heap) (p : Nat) (s0 : Sys)
    (hstart : (∃ o, h0.object p = some o ∧ Sys.startPtr false h0 p = some s0) ∨
              (p = h0.objects.length ∧ Sys.startMake false h0 = some s0))
    (ops : List Op) (hfit : ops.length + 3 < SIZE_MOD) :
    ∃ s, s0.run false ops = some s ∧
      (s.heap.log = s0.heap.log ∨ s.heap.log = s0.heap.log ++ [Event.destroyObject p] ∨
        s.heap.log = s0.heap.log ++
          [Event.destroyObject p, Event.deleteBlock h0.blocks.length]) ∧
      s.heap.deleteCount h0.blocks.length ≤ s0.heap.deleteCount h0.blocks.length + 1 ∧
      (s.heap.deleteCount h0.blocks.length = s0.heap.deleteCount h0.blocks.length + 1 ↔
        s.heap.useCount h0.blocks.length + s.heap.weakCount h0.blocks.length = 0) ∧
      ∀ pre op suf, ops = pre ++ op :: suf →
        ∃ s1 s2, s0.run false pre = some s1 ∧ s1.step false op = some s2 ∧
          s1.heap.useCount h0.blocks.length = sharedUnits s1.shared ∧
          s1.heap.weakCount h0.blocks.length = weakUnits s1.weak ∧
          s2.heap.useCount h0.blocks.length = sharedUnits s2.shared ∧
          s2.heap.weakCount h0.blocks.length = weakUnits s2.weak ∧
          (s2.heap.deleteCount h0.blocks.length = s1.heap.deleteCount h0.blocks.length ∨
            s2.heap.deleteCount h0.blocks.length =
              s1.heap.deleteCount h0.blocks.length + 1) ∧
          (s2.heap.deleteCount h0.blocks.length =
              s1.heap.deleteCount h0.blocks.length + 1 ↔
            s1.heap.useCount h0.blocks.length + s1.heap.weakCount h0.blocks.length ≠ 0 ∧
              s2.heap.useCount h0.blocks.length + s2.heap.weakCount h0.blocks.length = 0) ∧
          (s2.heap.deleteCount h0.blocks.length =
              s1.heap.deleteCount h0.blocks.length + 1 →
            s2.heap.destroyCount p = s0.heap.destroyCount p + 1) := by
  have hstart' : (∃ o, h0.object p = some o ∧ (false = true → o.weak_this_ = WeakPtr.empty) ∧
        Sys.startPtr false h0 p = some s0) ∨
      (p = h0.objects.length ∧ Sys.startMake false h0 = some s0) := by
    rcases hstart with ⟨o, ho, hs⟩ | h
    · exact Or.inl ⟨o, ho, fun hf => Bool.noConfusion hf, hs⟩
    · exact Or.inr h
  obtain ⟨hl1, hl2, hlog, H0⟩ := FamilyInv.of_start hstart'
  have hd0 := H0.2.2.deleteCount_eq
  have hc0 := H0.2.2.destroyCount_eq
  have hS0 : sharedUnits s0.shared = 1 := by rw [hl1]; rfl
  have hlen : s0.shared.length + s0.weak.length + ops.length + 2 < SIZE_MOD := by
    rw [hl1, hl2]; simp only [List.length_cons, List.length_nil]; omega
  rw [hS0] at hd0 hc0
  simp only [one_ne_zero, false_and, if_false, Nat.add_zero] at hd0 hc0
  obtain ⟨s, e, H, -⟩ := H0.run ops hlen
  have hd := H.2.2.deleteCount_eq
  have hu := H.2.2.useCount_eq
  have hw := H.2.2.weakCount_eq
  refine ⟨s, e, ?_, ?_, ?_, ?_⟩
  · rw [hlog]; exact H.2.2.log_cases
  · rw [hd, hd0]; split <;> omega
  · rw [hd, hd0, hu, hw]; split <;> omega
  · intro pre op suf hops
    obtain ⟨s1, s2, e1, e2, H1, H2, -, huw, -, hmw⟩ := H0.run_split hops hlen
    have d1 := H1.2.2.deleteCount_eq
    have d2 := H2.2.2.deleteCount_eq
    have c2 := H2.2.2.destroyCount_eq
    have u1 := H1.2.2.useCount_eq
    have u2 := H2.2.2.useCount_eq
    have w1 := H1.2.2.weakCount_eq
    have w2 := H2.2.2.weakCount_eq
    refine ⟨s1, s2, e1, e2, u1, w1, u2, w2, ?_, ?_, ?_⟩
    · rw [d1, d2]; split <;> split <;> omega
    · rw [d1, d2, u1, u2, w1, w2]; split <;> split <;> omega
    · rw [d1, d2, c2, hc0]; split <;> split <;> split <;> omega

/-- A concrete run for a pointee without handle members: a weak observer is taken, the
strong handle is destroyed, then the weak one. -/
theorem plain_block_deleted_once_example :
    ((∃ o, Heap.empty.object 0 = some o ∧
        Sys.startPtr false Heap.empty 0 =
          some ⟨⟨[⟨BlockKind.BlockWithObject, 1, 0, some 0, false⟩],
                 [⟨⟨none, none⟩, false⟩], []⟩, [⟨some 0, some 0⟩], []⟩) ∨
      (0 = Heap.empty.objects.length ∧
        Sys.startMake false Heap.empty =
          some ⟨⟨[⟨BlockKind.BlockWithObject, 1, 0, some 0, false⟩],
                 [⟨⟨none, none⟩, false⟩], []⟩, [⟨some 0, some 0⟩], []⟩)) ∧
    [Op.weakFromShared 0, Op.sharedDestroy 0, Op.weakDestroy 0].length + 3 < SIZE_MOD ∧
    ∃ s, Sys.run false
          ⟨⟨[⟨BlockKind.BlockWithObject, 1, 0, some 0, false⟩],
            [⟨⟨none, none⟩, false⟩], []⟩, [⟨some 0, some 0⟩], []⟩
          [Op.weakFromShared 0, Op.sharedDestroy 0, Op.weakDestroy 0] = some s ∧
      s.heap.deleteCount 0 ≤ 0 + 1 :=
  ⟨Or.inr ⟨rfl, by decide⟩, by decide,
    (plain_block_deleted_once_when_both_counts_zero Heap.empty 0 _
      (Or.inr ⟨rfl, by decide⟩)
      [Op.weakFromShared 0, Op.sharedDestroy 0, Op.weakDestroy 0] (by decide)).imp
      fun _ hs => ⟨hs.1, hs.2.2.1⟩⟩

/-- A handle is expired when it is empty or its (allocated) block has no strong unit. -/
theorem WeakPtr.Expired_true_iff (h : Heap) (w : WeakPtr) :
    w.Expired h = some true ↔
      w.block_ = none ∨ ∃ b blk, w.block_ = some b ∧ h.block b = some blk ∧
        blk.use_count_ = 0 := by
  constructor
  · intro he
    cases hb : w.block_ with
    | none => exact Or.inl rfl
    | some b =>
      right
      simp only [WeakPtr.Expired, WeakPtr.UseCount, hb] at he
      cases hblk : h.block b with
      | none => simp [ControlBlock.GetUseCount, hblk] at he
      | some blk =>
        rw [ControlBlock.GetUseCount_eq hblk] at he
        exact ⟨b, blk, rfl, hblk, by simpa using he⟩
  · rintro (hb | ⟨b, blk, hb, hblk, h0⟩)
    · simp [WeakPtr.Expired, WeakPtr.UseCount, hb]
    · simp [WeakPtr.Expired, WeakPtr.UseCount, hb, ControlBlock.GetUseCount_eq hblk, h0]

/-- A handle that is not expired has an allocated block with a strong unit. -/
theorem WeakPtr.Expired_false {h : Heap} {w : WeakPtr} (he : w.Expired h = some false) :
    ∃ b blk, w.block_ = some b ∧ h.block b = some blk ∧ blk.use_count_ ≠ 0 := by
  cases hb : w.block_ with
  | none => simp [WeakPtr.Expired, WeakPtr.UseCount, hb] at he
  | some b =>
    simp only [WeakPtr.Expired, WeakPtr.UseCount, hb] at he
    cases hblk : h.block b with
    | none => simp [ControlBlock.GetUseCount, hblk] at he
    | some blk =>
      rw [ControlBlock.GetUseCount_eq hblk] at he
      exact ⟨b, blk, rfl, hblk, by simpa using he⟩

/-- Writing a live block back keeps it readable. -/
theorem Heap.block_setBlock_live {h : Heap} {b : Nat} {blk : ControlBlock} (x : ControlBlock)
    (hblk : h.block b = some blk) (hx : x.deleted = false) :
    (h.setBlock b x).block b = some x := by
  rw [Heap.block_setBlock_self _ (lt_of_getElem? (get_of_block hblk).1)]; simp [hx]

/-- C3. `WeakPtr::Lock` on a handle whose block (if any) is still allocated. If the handle
is not expired, which means its block has a strong unit, `Lock` returns a `SharedPtr` with
the handle's raw pointer and block, the block's `use_count_` is incremented (it is the old
`UseCount()` plus one unless `size_t` overflows) and nothing else in the heap changes, the
weak count included. If the handle is expired, which means it is empty or its block's
`use_count_` is 0, `Lock` returns the empty `SharedPtr` and the heap is unchanged. -/
theorem C3_Lock_promotes_or_returns_empty (h : Heap) (w : WeakPtr) :
    (w.Expired h = some false →
      ∃ b blk, w.block_ = some b ∧ h.block b = some blk ∧ blk.use_count_ ≠ 0) ∧
    (∀ b blk, w.block_ = some b → h.block b = some blk → blk.use_count_ ≠ 0 →
      w.Expired h = some false ∧ w.UseCount h = some blk.use_count_ ∧
      w.Lock h = some (⟨w.ptr_, some b⟩,
        h.setBlock b { blk with use_count_ := preInc blk.use_count_ }) ∧
      SharedPtr.Get ⟨w.ptr_, some b⟩ = w.ptr_ ∧
      SharedPtr.UseCount ⟨w.ptr_, some b⟩
        (h.setBlock b { blk with use_count_ := preInc blk.use_count_ }) =
          some (preInc blk.use_count_) ∧
      (h.setBlock b { blk with use_count_ := preInc blk.use_count_ }).weakCount b =
        blk.weak_count_ ∧
      (blk.use_count_ + 1 < SIZE_MOD → preInc blk.use_count_ = blk.use_count_ + 1)) ∧
    (w.Expired h = some true ↔
      w.block_ = none ∨ ∃ b blk, w.block_ = some b ∧ h.block b = some blk ∧
        blk.use_count_ = 0) ∧
    (w.Expired h = some true →
      w.Lock h = some (SharedPtr.empty, h) ∧ SharedPtr.empty.Get = none ∧
      SharedPtr.empty.block_ = none ∧ SharedPtr.empty.UseCount h = some 0) := by
  refine ⟨WeakPtr.Expired_false, ?_, ?_, ?_⟩
  · intro b blk hb hblk hne
    obtain ⟨hget, hd⟩ := get_of_block hblk
    have hbl := lt_of_getElem? hget
    have hg := ControlBlock.GetUseCount_eq hblk
    have hblk1 := Heap.block_setBlock_live { blk with use_count_ := preInc blk.use_count_ }
      hblk hd
    refine ⟨?_, ?_, ?_, rfl, ?_, ?_, fun hlt => preInc_eq hlt⟩
    · simp [WeakPtr.Expired, WeakPtr.UseCount, hb, hg, hne]
    · simp [WeakPtr.UseCount, hb, hg]
    · simp [WeakPtr.Lock, WeakPtr.Expired, WeakPtr.UseCount, hb, hg, hne,
        ControlBlock.IncreaseUsage_eq hblk]
    · simp [SharedPtr.UseCount, ControlBlock.GetUseCount_eq hblk1]
    · simp [Heap.weakCount, hbl]
  · exact WeakPtr.Expired_true_iff h w
  · intro he
    exact ⟨by simp [WeakPtr.Lock, he], rfl, rfl, rfl⟩

/-- C3 at a concrete heap: a block with two strong units and one weak unit is locked, and a
block whose strong count is 0 is locked. -/
theorem C3_Lock_promotes_or_returns_empty_witness :
    WeakPtr.Lock ⟨some 0, some 0⟩
        ⟨[⟨BlockKind.BlockWithPointer, 2, 1, some 0, false⟩], [⟨⟨none, none⟩, false⟩], []⟩ =
      some (⟨some 0, some 0⟩,
        ⟨[⟨BlockKind.BlockWithPointer, 3, 1, some 0, false⟩], [⟨⟨none, none⟩, false⟩], []⟩) ∧
    WeakPtr.Lock ⟨some 0, some 0⟩
        ⟨[⟨BlockKind.BlockWithPointer, 0, 1, some 0, false⟩], [⟨⟨none, none⟩, true⟩], []⟩ =
      some (SharedPtr.empty,
        ⟨[⟨BlockKind.BlockWithPointer, 0, 1, some 0, false⟩], [⟨⟨none, none⟩, true⟩], []⟩) :=
  ⟨((C3_Lock_promotes_or_returns_empty
        ⟨[⟨BlockKind.BlockWithPointer, 2, 1, some 0, false⟩], [⟨⟨none, none⟩, false⟩], []⟩
        ⟨some 0, some 0⟩).2.1 0 ⟨BlockKind.BlockWithPointer, 2, 1, some 0, false⟩ rfl rfl
        (by decide)).2.2.1,
   ((C3_Lock_promotes_or_returns_empty
        ⟨[⟨BlockKind.BlockWithPointer, 0, 1, some 0, false⟩], [⟨⟨none, none⟩, true⟩], []⟩
        ⟨some 0, some 0⟩).2.2.2 (by decide)).1⟩

/-- C4. `SharedPtr::SharedPtr(const WeakPtr<T>&)` on a handle that is not dangling, `e`
being the value of `Expired()`. It throws `BadWeakPtr` exactly when the handle is expired
(empty, or the block's `use_count_` is 0) and then the heap is unchanged. Otherwise it
returns a handle with the same raw pointer and block, and the heap differs only in that the
block's `use_count_` is incremented (by exactly one unless `size_t` overflows). -/
theorem C4_ctor_weak_throws_iff_expired (h : Heap) (w : WeakPtr) (e : Bool)
    (he : w.Expired h = some e) :
    ((∃ h1, SharedPtr.ctor_weak w h = some (Except.error BadWeakPtr.thrown, h1)) ↔ e = true) ∧
    (e = true ↔ w.block_ = none ∨ ∃ b blk, w.block_ = some b ∧ h.block b = some blk ∧
        blk.use_count_ = 0) ∧
    (e = true → SharedPtr.ctor_weak w h = some (Except.error BadWeakPtr.thrown, h)) ∧
    (e = false → ∃ b blk, w.block_ = some b ∧ h.block b = some blk ∧
      SharedPtr.ctor_weak w h = some (Except.ok ⟨w.ptr_, w.block_⟩,
        h.setBlock b { blk with use_count_ := preInc blk.use_count_ }) ∧
      (h.setBlock b { blk with use_count_ := preInc blk.use_count_ }).block b =
        some { blk with use_count_ := preInc blk.use_count_ } ∧
      (blk.use_count_ + 1 < SIZE_MOD → preInc blk.use_count_ = blk.use_count_ + 1)) := by
  cases e
  · obtain ⟨b, blk, hb, hblk, hne⟩ := WeakPtr.Expired_false he
    have hd := (get_of_block hblk).2
    have hc : SharedPtr.ctor_weak w h = some (Except.ok ⟨w.ptr_, w.block_⟩,
        h.setBlock b { blk with use_count_ := preInc blk.use_count_ }) := by
      simp [SharedPtr.ctor_weak, he, SharedPtr.SafeIncrease, hb,
        ControlBlock.IncreaseUsage_eq hblk]
    refine ⟨?_, ?_, ?_, ?_⟩
    · simp [hc]
    · have := WeakPtr.Expired_true_iff h w
      rw [he] at this
      simpa using this
    · intro hf; cases hf
    · intro _
      exact ⟨b, blk, hb, hblk, hc, Heap.block_setBlock_live _ hblk hd,
        fun hlt => preInc_eq hlt⟩
  · have hc : SharedPtr.ctor_weak w h = some (Except.error BadWeakPtr.thrown, h) := by
      simp [SharedPtr.ctor_weak, he]
    refine ⟨?_, ?_, fun _ => hc, ?_⟩
    · simp [hc]
    · have := WeakPtr.Expired_true_iff h w
      rw [he] at this
      simpa using this
    · intro hf; cases hf

/-- C4 at a concrete heap: constructing from a handle whose block has no strong unit left
throws and leaves the heap as it was. -/
theorem C4_ctor_weak_throws_iff_expired_witness :
    WeakPtr.Expired ⟨some 0, some 0⟩
        ⟨[⟨BlockKind.BlockWithPointer, 0, 1, some 0, false⟩], [⟨⟨none, none⟩, true⟩], []⟩ =
      some true ∧
    SharedPtr.ctor_weak ⟨some 0, some 0⟩
        ⟨[⟨BlockKind.BlockWithPointer, 0, 1, some 0, false⟩], [⟨⟨none, none⟩, true⟩], []⟩ =
      some (Except.error BadWeakPtr.thrown,
        ⟨[⟨BlockKind.BlockWithPointer, 0, 1, some 0, false⟩], [⟨⟨none, none⟩, true⟩], []⟩) :=
  ⟨by decide,
   (C4_ctor_weak_throws_iff_expired
      ⟨[⟨BlockKind.BlockWithPointer, 0, 1, some 0, false⟩], [⟨⟨none, none⟩, true⟩], []⟩
      ⟨some 0, some 0⟩ true (by decide)).2.2.1 rfl⟩

/-- C5. The scenario for an object `X` (at address 0) of a type that is not self-aware,
statement by statement: `SharedPtr A(X)` gives strong 1 and weak 0; `WeakPtr W(A)` gives weak
1; copying `A` to `B` gives strong 2; destroying `A` gives strong 1, the pointee alive and
nothing logged; `W.Lock()` returns a non-empty `L` and strong 2; destroying `B` and `L`
gives strong 0 and logs the pointee's destruction once while the block stays allocated;
`W.Expired()` is then true; destroying `W` brings weak to 0 and logs the block's deletion
once, after the pointee's destruction. -/
theorem C5_scenario_trace :
    ∃ (A B L : SharedPtr) (W : WeakPtr) (h1 h2 h3 h4 h5 h6 h7 h8 : Heap),
      SharedPtr.ctor_ptr false (some 0) Heap.empty.newObject.2 = some (A, h1) ∧
      A.UseCount h1 = some 1 ∧ h1.weakCount 0 = 0 ∧
      WeakPtr.ctor_shared A h1 = some (W, h2) ∧ h2.weakCount 0 = 1 ∧
      SharedPtr.ctor_copy A h2 = some (B, h3) ∧ B.UseCount h3 = some 2 ∧
      SharedPtr.dtor false A h3 = some (SharedPtr.empty, h4) ∧ B.UseCount h4 = some 1 ∧
      (h4.object 0).isSome = true ∧ h4.log = [] ∧
      W.Lock h4 = some (L, h5) ∧ L.toBool = true ∧ L.UseCount h5 = some 2 ∧
      SharedPtr.dtor false B h5 = some (SharedPtr.empty, h6) ∧ h6.log = [] ∧
      SharedPtr.dtor false L h6 = some (SharedPtr.empty, h7) ∧
      h7.useCount 0 = 0 ∧ h7.weakCount 0 = 1 ∧ h7.object 0 = none ∧
      h7.log = [Event.destroyObject 0] ∧ (h7.block 0).isSome = true ∧
      W.Expired h7 = some true ∧
      W.dtor h7 = some (WeakPtr.empty, h8) ∧ h8.weakCount 0 = 0 ∧ h8.block 0 = none ∧
      h8.log = [Event.destroyObject 0, Event.deleteBlock 0] :=
  ⟨_, _, _, _, _, _, _, _, _, _, _, _, rfl, rfl, rfl, rfl, rfl, rfl, rfl, rfl, rfl, rfl, rfl,
    rfl, rfl, rfl, rfl, rfl, rfl, rfl, rfl, rfl, rfl, rfl, rfl, rfl, rfl, rfl, rfl⟩

/-- While a strong unit is held the pointee is alive, and a self-aware pointee's
`weak_this_` is bound to the family's block. -/
theorem FamilyHeap.object_alive {esft : Bool} {b p : Nat} {L0 : List Event} {S W : Nat}
    {h : Heap} (H : FamilyHeap esft b p L0 S W h) (hS : 0 < S) :
    ∃ o, h.object p = some o ∧ (esft = true → o.weak_this_ = ⟨some p, some b⟩) := by
  obtain ⟨blk, o, -, ho, -, -, -, hw1, -, -, hdes, -⟩ := H
  have hod : o.destroyed = false := by
    cases hx : o.destroyed
    · rfl
    · have := hdes.1 hx; omega
  exact ⟨o, object_of_get ho hod, fun he => (hw1 he hS).2⟩

/-- While a strong unit is held nothing has been logged. -/
theorem FamilyHeap.log_eq {esft : Bool} {b p : Nat} {L0 : List Event} {S W : Nat}
    {h : Heap} (H : FamilyHeap esft b p L0 S W h) (hS : 0 < S) : h.log = L0 := by
  obtain ⟨blk, o, -, -, -, -, -, -, -, -, -, hlog⟩ := H
  have : S ≠ 0 := by omega
  simpa [this] using hlog

/-- C6. For a self-aware `T` and any heap: `sp = MakeShared<T>()` has `UseCount() == 1`;
`sp->SharedFromThis()` then returns a non-empty `q` with `q.Get() == sp.Get()` and
`q.UseCount() == sp.UseCount() == 2`; after `q` is destroyed `sp.UseCount() == 1`, the
pointee is alive and nothing has been destroyed. -/
theorem C6_SharedFromThis_after_MakeShared (h0 : Heap) :
    ∃ (sp q : SharedPtr) (h1 h2 h3 : Heap),
      MakeShared true h0 = some (sp, h1) ∧ sp.Get = some h0.objects.length ∧
      sp.UseCount h1 = some 1 ∧
      EnableSharedFromThis.SharedFromThis h1 h0.objects.length = some (q, h2) ∧
      q.toBool = true ∧ q.Get = sp.Get ∧ q.UseCount h2 = some 2 ∧ sp.UseCount h2 = some 2 ∧
      SharedPtr.dtor true q h2 = some (SharedPtr.empty, h3) ∧ sp.UseCount h3 = some 1 ∧
      (h3.object h0.objects.length).isSome = true ∧ h3.log = h0.log := by
  obtain ⟨s0, e0, -, hsh, -, H0⟩ := FamilyInv.startMake true h0
  simp only [Sys.startMake] at e0
  cases hm : MakeShared true h0 with
  | none => rw [hm] at e0; cases e0
  | some r =>
    obtain ⟨sp, h1⟩ := r
    rw [hm] at e0
    cases e0
    dsimp only at hsh
    cases hsh
    have H1 : FamilyHeap true h0.blocks.length h0.objects.length h0.log 1 0 h1 := H0.2.2
    obtain ⟨o, ho, hwt⟩ := H1.object_alive (by omega)
    have g1 := H1.GetUseCount (by omega)
    obtain ⟨h2, e2, H2⟩ := H1.IncreaseUsage (by omega) (by decide)
    have g2 := H2.GetUseCount (by omega)
    obtain ⟨h3, e3, H3⟩ := H2.DecreaseUsage (by omega) (by decide)
    have g3 := H3.GetUseCount (by omega)
    obtain ⟨o3, ho3, -⟩ := H3.object_alive (by omega)
    refine ⟨_, ⟨some h0.objects.length, some h0.blocks.length⟩, h1, h2, h3, rfl, rfl, ?_, ?_,
      rfl, rfl, ?_, ?_, ?_, ?_, ?_, H3.log_eq (by omega)⟩
    · simpa [SharedPtr.UseCount] using g1
    · simp [EnableSharedFromThis.SharedFromThis, ho, hwt rfl, WeakPtr.Lock, WeakPtr.Expired,
        WeakPtr.UseCount, g1, e2]
    · simpa [SharedPtr.UseCount] using g2
    · simpa [SharedPtr.UseCount] using g2
    · simp [SharedPtr.dtor, SharedPtr.SafeDecrease, e3, SharedPtr.empty]
    · simpa [SharedPtr.UseCount] using g3
    · simp [ho3]

/-- On a block whose pointee pointer is not null, `BlockWithObject::DecreaseUsage` and
`BlockWithPointer::DecreaseUsage` do the same. -/
theorem BlockWithObject.DecreaseUsage_same_body {esft : Bool} {h : Heap} {b p : Nat}
    {blk : ControlBlock} (hb : h.block b = some blk) (hp : blk.object_ = some p) :
    BlockWithObject.DecreaseUsage esft h b = BlockWithPointer.DecreaseUsage esft h b := by
  obtain ⟨k, u, w, obj, d⟩ := blk
  dsimp only at hp
  subst hp
  unfold BlockWithPointer.DecreaseUsage BlockWithObject.DecreaseUsage deleteObject
  rw [hb]

/-- The virtual call reaches one of the two bodies, which agree. -/
theorem ControlBlock.DecreaseUsage_dispatch {esft : Bool} {h : Heap} {b p : Nat}
    {blk : ControlBlock} (hb : h.block b = some blk) (hp : blk.object_ = some p) :
    ControlBlock.DecreaseUsage esft h b = BlockWithPointer.DecreaseUsage esft h b := by
  unfold ControlBlock.DecreaseUsage
  rw [hb]
  dsimp only
  split
  · rfl
  · exact BlockWithObject.DecreaseUsage_same_body hb hp

/-- C7. A self-aware object at `p` owned by one `SharedPtr` (`use_count_ == 1`) whose block
`b` has the object's own `weak_this_` as its only weak unit (`weak_count_ == 1`), for a
block of either kind. Releasing the `SharedPtr` runs one `DecreaseUsage`, in both
`BlockWithPointer` and `BlockWithObject`: `UnsafeReset` clears `weak_this_`; the destructor's
`weak_this_ = nullptr` then changes no block and logs nothing; the pointee's destruction and
the block's deletion are each logged once, in this order; the stored `weak_count_` is still
1, so `DecreaseWeakUsage` was not called. -/
theorem C7_selfaware_teardown_only_weak_this (h : Heap) (b p : Nat) (blk : ControlBlock)
    (o : Object) (hblk : h.block b = some blk) (hu : blk.use_count_ = 1)
    (hw : blk.weak_count_ = 1) (hobj : blk.object_ = some p) (ho : h.object p = some o)
    (hwt : o.weak_this_ = ⟨some p, some b⟩) :
    resetWeakThis (h.setBlock b { blk with use_count_ := 0 }) (some p) =
      some ((h.setBlock b { blk with use_count_ := 0 }).setObject p
        { o with weak_this_ := ⟨none, none⟩ }) ∧
    (∃ h3, EnableSharedFromThis.dtor
        ((h.setBlock b { blk with use_count_ := 0 }).setObject p
          { o with weak_this_ := ⟨none, none⟩ }) p = some h3 ∧
      h3.blocks = h.blocks.set b { blk with use_count_ := 0 } ∧ h3.log = h.log) ∧
    ∃ hf, SharedPtr.dtor true ⟨some p, some b⟩ h = some (SharedPtr.empty, hf) ∧
      BlockWithPointer.DecreaseUsage true h b = some hf ∧
      BlockWithObject.DecreaseUsage true h b = some hf ∧
      hf.blocks = h.blocks.set b { blk with use_count_ := 0, deleted := true } ∧
      hf.objects = h.objects.set p ⟨⟨none, none⟩, true⟩ ∧
      hf.log = h.log ++ [Event.destroyObject p, Event.deleteBlock b] ∧
      hf.weakCount b = 1 ∧
      hf.destroyCount p = h.destroyCount p + 1 ∧
      hf.deleteCount b = h.deleteCount b + 1 := by
  obtain ⟨hget, hd⟩ := get_of_block hblk
  have hbl := lt_of_getElem? hget
  have hoget : h.objects[p]? = some o ∧ o.destroyed = false := by
    unfold Heap.object at ho
    split at ho
    · split at ho
      · cases ho
      · cases ho; simp_all
    · cases ho
  obtain ⟨hoget, hod⟩ := hoget
  have hpl := lt_of_getElem? hoget
  obtain ⟨k, u, w, obj, d⟩ := blk
  obtain ⟨wt, de⟩ := o
  dsimp only at hu hw hobj hwt hd hod
  subst hu hw hobj hwt hd hod
  have hp0 : preDec 1 = 0 := by unfold preDec SIZE_MOD; rfl
  have hdec : ∃ hf, ControlBlock.DecreaseUsage true h b = some hf ∧
      hf.blocks = h.blocks.set b ⟨k, 0, 1, some p, true⟩ ∧
      hf.objects = h.objects.set p ⟨⟨none, none⟩, true⟩ ∧
      hf.log = h.log ++ [Event.destroyObject p, Event.deleteBlock b] := by
    rw [ControlBlock.DecreaseUsage_eq hblk rfl]
    simp [hp0, destroyT, ho, Heap.block_setBlock_self, Heap.object_setObject_self, hbl, hpl,
      deleteThis, resetWeakThis, EnableSharedFromThis.dtor, WeakPtr.assign_shared,
      WeakPtr.UnsafeReset, SharedPtr.empty, WeakPtr.dtor, WeakPtr.SafeWeakDecrease]
  obtain ⟨hf, hdec, hfb, hfo, hfl⟩ := hdec
  dsimp only
  refine ⟨?_, ?_, hf, ?_, ?_, ?_, hfb, hfo, hfl, ?_, ?_, ?_⟩
  · simp [resetWeakThis, ho, WeakPtr.UnsafeReset]
  · refine ⟨_, EnableSharedFromThis.dtor_empty
      (o := ⟨⟨none, none⟩, false⟩) ?_ rfl, rfl, rfl⟩
    simp [Heap.object_setObject_self, hpl]
  · simp [SharedPtr.dtor, SharedPtr.SafeDecrease, hdec, SharedPtr.empty]
  · rw [← ControlBlock.DecreaseUsage_dispatch hblk rfl]; exact hdec
  · rw [BlockWithObject.DecreaseUsage_same_body hblk rfl,
      ← ControlBlock.DecreaseUsage_dispatch hblk rfl]; exact hdec
  · simp [Heap.weakCount, hfb, hbl]
  · simp [Heap.destroyCount, hfl]
  · simp [Heap.deleteCount, hfl]

/-- C7 at a concrete heap: the state right after `MakeShared<T>()` for a self-aware `T`. -/
theorem C7_selfaware_teardown_only_weak_this_witness :
    Heap.block ⟨[⟨BlockKind.BlockWithObject, 1, 1, some 0, false⟩],
        [⟨⟨some 0, some 0⟩, false⟩], []⟩ 0 =
      some ⟨BlockKind.BlockWithObject, 1, 1, some 0, false⟩ ∧
    Heap.object ⟨[⟨BlockKind.BlockWithObject, 1, 1, some 0, false⟩],
        [⟨⟨some 0, some 0⟩, false⟩], []⟩ 0 = some ⟨⟨some 0, some 0⟩, false⟩ ∧
    ∃ hf, SharedPtr.dtor true ⟨some 0, some 0⟩
        ⟨[⟨BlockKind.BlockWithObject, 1, 1, some 0, false⟩],
          [⟨⟨some 0, some 0⟩, false⟩], []⟩ = some (SharedPtr.empty, hf) ∧
      hf.log = [] ++ [Event.destroyObject 0, Event.deleteBlock 0] :=
  ⟨rfl, rfl,
    (C7_selfaware_teardown_only_weak_this
      ⟨[⟨BlockKind.BlockWithObject, 1, 1, some 0, false⟩], [⟨⟨some 0, some 0⟩, false⟩], []⟩
      0 0 ⟨BlockKind.BlockWithObject, 1, 1, some 0, false⟩ ⟨⟨some 0, some 0⟩, false⟩
      rfl rfl rfl rfl rfl rfl).2.2.imp fun _ hs => ⟨hs.1, hs.2.2.2.2.2.1⟩⟩

/-- The block of a family is allocated as long as a handle holds it, with these counters. -/
theorem FamilyHeap.live_block {esft : Bool} {b p : Nat} {L0 : List Event} {S W : Nat}
    {h : Heap} (H : FamilyHeap esft b p L0 S W h) (hSW : 0 < S + W) :
    ∃ blk, h.block b = some blk ∧ blk.use_count_ = S ∧
      (esft = false → blk.weak_count_ = W) ∧
      (esft = true → 0 < S → blk.weak_count_ = W + 1) ∧
      (esft = true → S = 0 → blk.weak_count_ = W) := by
  obtain ⟨blk, o, hb, ho, hobj, huse, hw0, hw1, hw2, hdel, hdes, hlog⟩ := H
  have hd : blk.deleted = false := by
    cases hx : blk.deleted
    · rfl
    · have := hdel.1 hx; omega
  exact ⟨blk, block_of_get hb hd, huse, hw0, fun he h0 => (hw1 he h0).1,
    fun he h0 => hw2 he h0 (by omega)⟩

/-- The log of a family once the last strong unit is gone. -/
theorem FamilyHeap.log_released {esft : Bool} {b p : Nat} {L0 : List Event} {W : Nat}
    {h : Heap} (H : FamilyHeap esft b p L0 0 W h) :
    h.log = L0 ++ [Event.destroyObject p] ++ (if W = 0 then [Event.deleteBlock b] else []) := by
  obtain ⟨blk, o, -, -, -, -, -, -, -, -, -, hlog⟩ := H
  simpa using hlog

/-- Once the block of a family is deleted it cannot be read. -/
theorem FamilyHeap.block_deleted {esft : Bool} {b p : Nat} {L0 : List Event}
    {h : Heap} (H : FamilyHeap esft b p L0 0 0 h) : h.block b = none := by
  obtain ⟨blk, o, hb, -, -, -, -, -, -, hdel, -, -⟩ := H
  have hd : blk.deleted = true := hdel.2 ⟨rfl, rfl⟩
  simp [Heap.block, hb, hd]

/-- Destroying weak handles of a family whose strong units are gone. -/
theorem FamilyHeap.dtorAll {esft : Bool} {b p : Nat} {L0 : List Event} (ws : List WeakPtr)
    {W : Nat} {h : Heap} (H : FamilyHeap esft b p L0 0 W h)
    (hall : ∀ w ∈ ws, w = ⟨some p, some b⟩) (hlen : ws.length ≤ W)
    (hfit : W + 1 < SIZE_MOD) :
    ∃ h1, WeakPtr.dtorAll ws h = some h1 ∧ FamilyHeap esft b p L0 0 (W - ws.length) h1 := by
  induction ws generalizing W h with
  | nil => exact ⟨h, rfl, by simpa using H⟩
  | cons w ws ih =>
    have hw := hall w (List.mem_cons_self _ _)
    subst hw
    simp only [List.length_cons] at hlen
    obtain ⟨h1, e1, H1⟩ := H.DecreaseWeakUsage (by omega) (by omega)
    obtain ⟨h2, e2, H2⟩ := ih H1 (fun x hx => hall x (List.mem_cons_of_mem _ hx)) (by omega)
      (by omega)
    refine ⟨h2, ?_, ?_⟩
    · simp [WeakPtr.dtorAll, WeakPtr.dtor, WeakPtr.SafeWeakDecrease, e1, e2]
    · simp only [List.length_cons]
      rw [show W - (ws.length + 1) = W - 1 - ws.length by omega]
      exact H2

theorem get_of_object {h : Heap} {p : Nat} {o : Object}
    (ho : h.object p = some o) : h.objects[p]? = some o ∧ o.destroyed = false := by
  unfold Heap.object at ho
  split at ho
  · split at ho
    · cases ho
    · cases ho; simp_all
  · cases ho

/-- A live block that owns a live pointee, with `S` strong units and, for a self-aware
pointee, `weak_this_` bound to it, is the heap of a family. -/
theorem FamilyHeap.of_owner {esft : Bool} {h : Heap} {b p S W : Nat} {blk : ControlBlock}
    {o : Object} (hblk : h.block b = some blk) (hu : blk.use_count_ = S) (hS : 0 < S)
    (hobj : blk.object_ = some p) (ho : h.object p = some o)
    (hw0 : esft = false → blk.weak_count_ = W)
    (hw1 : esft = true → blk.weak_count_ = W + 1 ∧ o.weak_this_ = ⟨some p, some b⟩) :
    FamilyHeap esft b p h.log S W h := by
  obtain ⟨hget, hd⟩ := get_of_block hblk
  obtain ⟨hoget, hod⟩ := get_of_object ho
  have hS0 : S ≠ 0 := by omega
  refine ⟨blk, o, hget, hoget, hobj, hu, hw0, fun he _ => hw1 he, ?_, ?_, ?_, ?_⟩
  · intro _ h0; omega
  · simp [hd, hS0]
  · simp [hod, hS0]
  · simp [hS0]

/-- C8. A self-aware object at `p` whose block `b` has one strong unit and weak count
`k + 1`: the object's `weak_this_` and `k >= 1` external `WeakPtr` handles `ws`. Releasing
the last `SharedPtr` logs only the pointee's destruction; the destructor releases the
`weak_this_` unit, so the block stays allocated with strong count 0 and weak count `k`;
every external handle reports `Expired()` and `Lock()` returns the empty handle without
touching the heap; destroying any proper part of the external handles logs nothing and
leaves the block allocated; destroying the last one logs the block's deletion, once. -/
theorem C8_selfaware_teardown_with_observers (h : Heap) (b p k : Nat) (blk : ControlBlock)
    (o : Object) (ws : List WeakPtr) (hblk : h.block b = some blk)
    (hu : blk.use_count_ = 1) (hw : blk.weak_count_ = k + 1) (hk : 1 ≤ k)
    (hfit : k + 2 < SIZE_MOD) (hobj : blk.object_ = some p) (ho : h.object p = some o)
    (hwt : o.weak_this_ = ⟨some p, some b⟩) (hlen : ws.length = k)
    (hall : ∀ w ∈ ws, w = ⟨some p, some b⟩) :
    ∃ h1, SharedPtr.dtor true ⟨some p, some b⟩ h = some (SharedPtr.empty, h1) ∧
      h1.log = h.log ++ [Event.destroyObject p] ∧
      (∃ blk1, h1.block b = some blk1 ∧ blk1.use_count_ = 0 ∧ blk1.weak_count_ = k) ∧
      (∀ w ∈ ws, w.Expired h1 = some true ∧ w.Lock h1 = some (SharedPtr.empty, h1)) ∧
      (∀ pre suf, ws = pre ++ suf → suf ≠ [] →
        ∃ h2 blk2, WeakPtr.dtorAll pre h1 = some h2 ∧ h2.log = h1.log ∧
          h2.block b = some blk2 ∧ blk2.use_count_ = 0 ∧ blk2.weak_count_ = suf.length) ∧
      ∃ h3, WeakPtr.dtorAll ws h1 = some h3 ∧
        h3.log = h.log ++ [Event.destroyObject p, Event.deleteBlock b] ∧
        h3.block b = none ∧ h3.deleteCount b = h.deleteCount b + 1 ∧
        h3.destroyCount p = h.destroyCount p + 1 := by
  have H : FamilyHeap true b p h.log 1 k h :=
    FamilyHeap.of_owner hblk hu (by omega) hobj ho (fun hf => Bool.noConfusion hf)
      (fun _ => ⟨hw, hwt⟩)
  obtain ⟨h1, e1, H1⟩ := H.DecreaseUsage (by omega) (by omega)
  have H1' : FamilyHeap true b p h.log 0 k h1 := H1
  have hk0 : k ≠ 0 := by omega
  have hlog1 : h1.log = h.log ++ [Event.destroyObject p] := by
    have := H1'.log_released
    simpa [hk0] using this
  obtain ⟨blk1, hb1, hu1, -, -, hw1⟩ := H1'.live_block (by omega)
  refine ⟨h1, ?_, hlog1, ⟨blk1, hb1, hu1, hw1 rfl rfl⟩, ?_, ?_, ?_⟩
  · simp [SharedPtr.dtor, SharedPtr.SafeDecrease, e1, SharedPtr.empty]
  · intro w hwm
    have hwe := hall w hwm
    subst hwe
    have he : WeakPtr.Expired ⟨some p, some b⟩ h1 = some true :=
      (WeakPtr.Expired_true_iff h1 _).2 (Or.inr ⟨b, blk1, rfl, hb1, hu1⟩)
    exact ⟨he, by simp [WeakPtr.Lock, he]⟩
  · intro pre suf hsplit hsuf
    have hsl : 0 < suf.length := List.length_pos.2 hsuf
    have hpl : pre.length + suf.length = k := by
      rw [← hlen, hsplit, List.length_append]
    obtain ⟨h2, e2, H2⟩ := H1'.dtorAll pre
      (fun x hx => hall x (by rw [hsplit]; exact List.mem_append_left _ hx)) (by omega)
      (by omega)
    have hne : k - pre.length ≠ 0 := by omega
    obtain ⟨blk2, hb2, hu2, -, -, hw2⟩ := H2.live_block (by omega)
    refine ⟨h2, blk2, e2, ?_, hb2, hu2, ?_⟩
    · have := H2.log_released
      rw [hlog1]; simpa [hne] using this
    · rw [hw2 rfl rfl]; omega
  · obtain ⟨h3, e3, H3⟩ := H1'.dtorAll ws hall (by omega) (by omega)
    rw [hlen, Nat.sub_self] at H3
    have hlog3 : h3.log = h.log ++ [Event.destroyObject p, Event.deleteBlock b] := by
      have := H3.log_released
      simpa using this
    refine ⟨h3, e3, hlog3, H3.block_deleted, ?_, ?_⟩
    · simp [Heap.deleteCount, hlog3]
    · simp [Heap.destroyCount, hlog3]

/-- C8 at a concrete heap: one strong handle, `weak_this_` and two external weak handles. -/
theorem C8_selfaware_teardown_with_observers_witness :
    Heap.block ⟨[⟨BlockKind.BlockWithPointer, 1, 3, some 0, false⟩],
        [⟨⟨some 0, some 0⟩, false⟩], []⟩ 0 =
      some ⟨BlockKind.BlockWithPointer, 1, 3, some 0, false⟩ ∧
    Heap.object ⟨[⟨BlockKind.BlockWithPointer, 1, 3, some 0, false⟩],
        [⟨⟨some 0, some 0⟩, false⟩], []⟩ 0 = some ⟨⟨some 0, some 0⟩, false⟩ ∧
    (1 ≤ 2 ∧ 2 + 2 < SIZE_MOD) ∧
    ∃ h1, SharedPtr.dtor true ⟨some 0, some 0⟩
        ⟨[⟨BlockKind.BlockWithPointer, 1, 3, some 0, false⟩],
          [⟨⟨some 0, some 0⟩, false⟩], []⟩ = some (SharedPtr.empty, h1) ∧
      h1.log = [] ++ [Event.destroyObject 0] :=
  ⟨rfl, rfl, ⟨by decide, by decide⟩,
    (C8_selfaware_teardown_with_observers
      ⟨[⟨BlockKind.BlockWithPointer, 1, 3, some 0, false⟩], [⟨⟨some 0, some 0⟩, false⟩], []⟩
      0 0 2 ⟨BlockKind.BlockWithPointer, 1, 3, some 0, false⟩ ⟨⟨some 0, some 0⟩, false⟩
      [⟨some 0, some 0⟩, ⟨some 0, some 0⟩] rfl rfl rfl (by decide) (by decide) rfl rfl rfl rfl
      (by decide)).imp fun _ hs => ⟨hs.1, hs.2.1⟩⟩

/-- C9, the code at a failing input, for a self-aware `T` and a fresh object at address 0:
`SharedPtr<T> sp; sp.Reset(p); WeakPtr<T> w(sp); sp.Reset();`. `Reset(T*)` does not call
`InitWeakThis`, so the new block has weak count 0 and the object's `weak_this_` stays
empty; `w` then holds the block's only weak unit; `sp.Reset()` drives `use_count_` to 0
while `weak_count_ == 1` and deletes the block although `w` still refers to it: the next
`w.Expired()` reads a deleted block. -/
theorem C9_Reset_ptr_breaks_sole_weak_unit_is_weak_this :
    ∃ (sp : SharedPtr) (w : WeakPtr) (h1 h2 h3 : Heap),
      SharedPtr.Reset_ptr true SharedPtr.empty (some 0) Heap.empty.newObject.2 =
        some (sp, h1) ∧
      h1.object 0 = some ⟨WeakPtr.empty, false⟩ ∧
      h1.useCount 0 = 1 ∧ h1.weakCount 0 = 0 ∧
      WeakPtr.ctor_shared sp h1 = some (w, h2) ∧
      w.block_ = some 0 ∧ h2.useCount 0 = 1 ∧ h2.weakCount 0 = 1 ∧
      h2.object 0 = some ⟨WeakPtr.empty, false⟩ ∧
      SharedPtr.Reset true sp h2 = some (SharedPtr.empty, h3) ∧
      h3.useCount 0 = 0 ∧ h3.weakCount 0 = 1 ∧
      h3.log = [Event.destroyObject 0, Event.deleteBlock 0] ∧
      h3.block 0 = none ∧ w.Expired h3 = none ∧ w.dtor h3 = none :=
  ⟨_, _, _, _, _, rfl, rfl, rfl, rfl, rfl, rfl, rfl, rfl, rfl, rfl, rfl, rfl, rfl, rfl, rfl,
    rfl⟩

/-- C10. For a self-aware `T`. After `SharedPtr<T>(p)` on a live object at `p` that no
handle has wrapped yet (its `weak_this_` is still default-constructed), and after
`MakeShared<T>()`, the object's `weak_this_` holds the object's address and the new block,
and the block has strong count 1 and weak count 1. A later copy construction, aliasing
construction or move construction from a handle on a live block leaves that block's
`weak_count_` and every object (so every `weak_this_`) as they were; the move touches no
heap at all. -/
theorem C10_weak_this_populated_once_per_object (h0 : Heap) (p : Nat) (o : Object)
    (ho : h0.object p = some o) (hw : o.weak_this_ = WeakPtr.empty) :
    (∃ h1 o1 blk1,
      SharedPtr.ctor_ptr true (some p) h0 = some (⟨some p, some h0.blocks.length⟩, h1) ∧
      h1.object p = some o1 ∧ o1.weak_this_ = ⟨some p, some h0.blocks.length⟩ ∧
      h1.block h0.blocks.length = some blk1 ∧ blk1.use_count_ = 1 ∧
      blk1.weak_count_ = 1) ∧
    (∃ h1 o1 blk1,
      MakeShared true h0 =
        some (⟨some h0.objects.length, some h0.blocks.length⟩, h1) ∧
      h1.object h0.objects.length = some o1 ∧
      o1.weak_this_ = ⟨some h0.objects.length, some h0.blocks.length⟩ ∧
      h1.block h0.blocks.length = some blk1 ∧ blk1.use_count_ = 1 ∧
      blk1.weak_count_ = 1) ∧
    ∀ (h : Heap) (sp : SharedPtr) (b : Nat) (blk : ControlBlock) (q : Option Nat),
      sp.block_ = some b → h.block b = some blk →
      (∃ h1, SharedPtr.ctor_copy sp h = some (⟨sp.ptr_, some b⟩, h1) ∧
        h1.weakCount b = blk.weak_count_ ∧ h1.objects = h.objects) ∧
      (∃ h1, SharedPtr.ctor_alias sp q h = some (⟨q, some b⟩, h1) ∧
        h1.weakCount b = blk.weak_count_ ∧ h1.objects = h.objects) ∧
      SharedPtr.ctor_move sp = (⟨sp.ptr_, some b⟩, SharedPtr.empty) := by
  obtain ⟨hoget, hod⟩ := get_of_object ho
  have hpl := lt_of_getElem? hoget
  refine ⟨?_, ?_, ?_⟩
  · refine ⟨_, { o with weak_this_ := ⟨some p, some h0.blocks.length⟩ },
      { BlockWithPointer.new (some p) with weak_count_ := 1 },
      SharedPtr.ctor_ptr_esft ho hw, ?_, rfl, ?_, rfl, rfl⟩
    · rw [Heap.object_setObject_self _ (by simpa using hpl)]; simp [hod]
    · simp [Heap.block, BlockWithPointer.new]
  · refine ⟨_, ⟨⟨some h0.objects.length, some h0.blocks.length⟩, false⟩,
      { BlockWithObject.new h0.objects.length with weak_count_ := 1 },
      MakeShared_esft h0, ?_, rfl, ?_, rfl, rfl⟩
    · simp [Heap.object]
    · simp [Heap.block, BlockWithObject.new]
  · intro h sp b blk q hb hblk
    have hbl := lt_of_getElem? (get_of_block hblk).1
    refine ⟨⟨h.setBlock b { blk with use_count_ := preInc blk.use_count_ }, ?_, ?_, rfl⟩,
      ⟨h.setBlock b { blk with use_count_ := preInc blk.use_count_ }, ?_, ?_, rfl⟩, ?_⟩
    · simp [SharedPtr.ctor_copy, SharedPtr.SafeIncrease, hb, ControlBlock.IncreaseUsage_eq hblk]
    · simp [Heap.weakCount, hbl]
    · simp [SharedPtr.ctor_alias, SharedPtr.SafeIncrease, hb,
        ControlBlock.IncreaseUsage_eq hblk]
    · simp [Heap.weakCount, hbl]
    · simp [SharedPtr.ctor_move, hb, SharedPtr.empty]

/-- C10 at a concrete heap: one fresh object at address 0. -/
theorem C10_weak_this_populated_once_per_object_witness :
    Heap.object Heap.empty.newObject.2 0 = some ⟨WeakPtr.empty, false⟩ ∧
    ∃ h1 o1 blk1,
      SharedPtr.ctor_ptr true (some 0) Heap.empty.newObject.2 = some (⟨some 0, some 0⟩, h1) ∧
      h1.object 0 = some o1 ∧ o1.weak_this_ = ⟨some 0, some 0⟩ ∧
      h1.block 0 = some blk1 ∧ blk1.use_count_ = 1 ∧ blk1.weak_count_ = 1 :=
  ⟨rfl, (C10_weak_this_populated_once_per_object Heap.empty.newObject.2 0
    ⟨WeakPtr.empty, false⟩ rfl rfl).1⟩

/-! ### What a call changes in the stored counters of any heap -/

theorem Heap.useCount_setBlock {h : Heap} {b : Nat} (x : ControlBlock) (b' : Nat)
    (hbl : b < h.blocks.length) :
    (h.setBlock b x).useCount b' = if b' = b then x.use_count_ else h.useCount b' := by
  unfold Heap.useCount
  by_cases hb : b' = b
  · subst hb; simp [hbl]
  · have : b ≠ b' := fun e => hb e.symm
    simp [hb, List.getElem?_set_ne this]

theorem Heap.weakCount_setBlock {h : Heap} {b : Nat} (x : ControlBlock) (b' : Nat)
    (hbl : b < h.blocks.length) :
    (h.setBlock b x).weakCount b' = if b' = b then x.weak_count_ else h.weakCount b' := by
  unfold Heap.weakCount
  by_cases hb : b' = b
  · subst hb; simp [hbl]
  · have : b ≠ b' := fun e => hb e.symm
    simp [hb, List.getElem?_set_ne this]

theorem Heap.useCount_of_block {h : Heap} {b : Nat} {blk : ControlBlock}
    (hb : h.block b = some blk) : h.useCount b = blk.use_count_ := by
  simp [Heap.useCount, (get_of_block hb).1]

theorem Heap.weakCount_of_block {h : Heap} {b : Nat} {blk : ControlBlock}
    (hb : h.block b = some blk) : h.weakCount b = blk.weak_count_ := by
  simp [Heap.weakCount, (get_of_block hb).1]

/-- Writing a block back with the same counters changes no stored counter. -/
theorem Heap.counts_setBlock_same {h : Heap} {b : Nat} {blk : ControlBlock} (x : ControlBlock)
    (hb : h.block b = some blk) (hu : x.use_count_ = blk.use_count_)
    (hw : x.weak_count_ = blk.weak_count_) (b' : Nat) :
    (h.setBlock b x).useCount b' = h.useCount b' ∧
      (h.setBlock b x).weakCount b' = h.weakCount b' := by
  have hbl := lt_of_getElem? (get_of_block hb).1
  rw [Heap.useCount_setBlock x b' hbl, Heap.weakCount_setBlock x b' hbl]
  by_cases e : b' = b
  · subst e
    simp [hu, hw, Heap.useCount_of_block hb, Heap.weakCount_of_block hb]
  · simp [e]

theorem deleteThis_counts {h h1 : Heap} {b : Nat} (e : deleteThis h b = some h1) (b' : Nat) :
    h1.useCount b' = h.useCount b' ∧ h1.weakCount b' = h.weakCount b' ∧
      h1.objects = h.objects := by
  unfold deleteThis at e
  cases hb : h.block b with
  | none => rw [hb] at e; cases e
  | some blk =>
    rw [hb] at e
    cases e
    have := Heap.counts_setBlock_same { blk with deleted := true } hb rfl rfl b'
    exact ⟨this.1, this.2, rfl⟩

theorem ControlBlock.IncreaseUsage_counts {h h1 : Heap} {b : Nat}
    (e : ControlBlock.IncreaseUsage h b = some h1) (b' : Nat) :
    h1.useCount b' = (if b' = b then preInc (h.useCount b) else h.useCount b') ∧
      h1.weakCount b' = h.weakCount b' ∧ h1.objects = h.objects := by
  cases hb : h.block b with
  | none => simp [ControlBlock.IncreaseUsage, hb] at e
  | some blk =>
    rw [ControlBlock.IncreaseUsage_eq hb] at e
    cases e
    have hbl := lt_of_getElem? (get_of_block hb).1
    rw [Heap.useCount_setBlock _ b' hbl, Heap.weakCount_setBlock _ b' hbl]
    refine ⟨?_, ?_, rfl⟩
    · simp [Heap.useCount_of_block hb]
    · by_cases e : b' = b
      · subst e; simp [Heap.weakCount_of_block hb]
      · simp [e]

theorem ControlBlock.IncreaseWeakUsage_counts {h h1 : Heap} {b : Nat}
    (e : ControlBlock.IncreaseWeakUsage h b = some h1) (b' : Nat) :
    h1.useCount b' = h.useCount b' ∧
      h1.weakCount b' = (if b' = b then preInc (h.weakCount b) else h.weakCount b') ∧
      h1.objects = h.objects := by
  cases hb : h.block b with
  | none => simp [ControlBlock.IncreaseWeakUsage, hb] at e
  | some blk =>
    rw [ControlBlock.IncreaseWeakUsage_eq hb] at e
    cases e
    have hbl := lt_of_getElem? (get_of_block hb).1
    rw [Heap.useCount_setBlock _ b' hbl, Heap.weakCount_setBlock _ b' hbl]
    refine ⟨?_, ?_, rfl⟩
    · by_cases e : b' = b
      · subst e; simp [Heap.useCount_of_block hb]
      · simp [e]
    · simp [Heap.weakCount_of_block hb]

theorem ControlBlock.DecreaseWeakUsage_counts {h h1 : Heap} {b : Nat}
    (e : ControlBlock.DecreaseWeakUsage h b = some h1) (b' : Nat) :
    h1.useCount b' = h.useCount b' ∧
      h1.weakCount b' = (if b' = b then preDec (h.weakCount b) else h.weakCount b') ∧
      h1.objects = h.objects := by
  cases hb : h.block b with
  | none => simp [ControlBlock.DecreaseWeakUsage, hb] at e
  | some blk =>
    rw [ControlBlock.DecreaseWeakUsage_eq hb] at e
    have hbl := lt_of_getElem? (get_of_block hb).1
    have key : (h.setBlock b { blk with weak_count_ := preDec blk.weak_count_ }).useCount b'
          = h.useCount b' ∧
        (h.setBlock b { blk with weak_count_ := preDec blk.weak_count_ }).weakCount b'
          = (if b' = b then preDec (h.weakCount b) else h.weakCount b') := by
      rw [Heap.useCount_setBlock _ b' hbl, Heap.weakCount_setBlock _ b' hbl]
      refine ⟨?_, ?_⟩
      · by_cases e : b' = b
        · subst e; simp [Heap.useCount_of_block hb]
        · simp [e]
      · simp [Heap.weakCount_of_block hb]
    split at e
    · obtain ⟨d1, d2, d3⟩ := deleteThis_counts e b'
      exact ⟨d1.trans key.1, d2.trans key.2, d3⟩
    · cases e
      exact ⟨key.1, key.2, rfl⟩

theorem WeakPtr.SafeWeakDecrease_counts {x r : WeakPtr} {h h1 : Heap}
    (e : x.SafeWeakDecrease h = some (r, h1)) (b' : Nat) :
    r = ⟨none, none⟩ ∧ h1.useCount b' = h.useCount b' ∧
      h1.weakCount b' =
        (if x.block_ = some b' then preDec (h.weakCount b') else h.weakCount b') ∧
      h1.objects = h.objects := by
  unfold WeakPtr.SafeWeakDecrease at e
  cases hb : x.block_ with
  | none => rw [hb] at e; cases e; simp
  | some b =>
    rw [hb] at e
    dsimp only at e
    cases hd : ControlBlock.DecreaseWeakUsage h b with
    | none => rw [hd] at e; cases e
    | some h2 =>
      rw [hd] at e
      cases e
      obtain ⟨d1, d2, d3⟩ := ControlBlock.DecreaseWeakUsage_counts hd b'
      refine ⟨rfl, d1, ?_, d3⟩
      rw [d2]
      by_cases hbb : b' = b
      · subst hbb; simp
      · have : ¬ (b = b') := fun e => hbb e.symm
        simp [hbb, this]

theorem WeakPtr.SafeWeakIncrease_counts {x : WeakPtr} {h h1 : Heap}
    (e : x.SafeWeakIncrease h = some h1) (b' : Nat) :
    h1.useCount b' = h.useCount b' ∧
      h1.weakCount b' =
        (if x.block_ = some b' then preInc (h.weakCount b') else h.weakCount b') ∧
      h1.objects = h.objects := by
  unfold WeakPtr.SafeWeakIncrease at e
  cases hb : x.block_ with
  | none => rw [hb] at e; cases e; simp
  | some b =>
    rw [hb] at e
    dsimp only at e
    obtain ⟨d1, d2, d3⟩ := ControlBlock.IncreaseWeakUsage_counts e b'
    refine ⟨d1, ?_, d3⟩
    rw [d2]
    by_cases hbb : b' = b
    · subst hbb; simp
    · have : ¬ (b = b') := fun e => hbb e.symm
      simp [hbb, this]

/-- What `WeakPtr::operator=(const SharedPtr<T>&)` returns and does to the counters. -/
theorem WeakPtr.assign_shared_counts {x r : WeakPtr} {y : SharedPtr} {h h1 : Heap}
    (e : x.assign_shared y h = some (r, h1)) :
    (y.ptr_ = x.ptr_ ∧ r = x ∧ h1 = h) ∨
    (y.ptr_ ≠ x.ptr_ ∧ r = ⟨y.ptr_, y.block_⟩ ∧ h1.objects = h.objects ∧
      ∃ hm : Heap, (∀ b', hm.useCount b' = h.useCount b' ∧
          hm.weakCount b' =
            (if x.block_ = some b' then preDec (h.weakCount b') else h.weakCount b')) ∧
        ∀ b', h1.useCount b' = hm.useCount b' ∧
          h1.weakCount b' =
            (if y.block_ = some b' then preInc (hm.weakCount b') else hm.weakCount b')) := by
  unfold WeakPtr.assign_shared at e
  split at e
  · rename_i hp
    cases e
    exact Or.inl ⟨hp, rfl, rfl⟩
  · rename_i hp
    right
    cases hd : x.SafeWeakDecrease h with
    | none => rw [hd] at e; cases e
    | some r1 =>
      obtain ⟨r0, hm⟩ := r1
      rw [hd] at e
      dsimp only at e
      cases hi : WeakPtr.SafeWeakIncrease ⟨y.ptr_, y.block_⟩ hm with
      | none => rw [hi] at e; cases e
      | some h2 =>
        rw [hi] at e
        cases e
        refine ⟨hp, rfl, ?_, hm, ?_, ?_⟩
        · exact ((WeakPtr.SafeWeakIncrease_counts hi 0).2.2).trans
            ((WeakPtr.SafeWeakDecrease_counts hd 0).2.2.2)
        · intro b'
          obtain ⟨-, d1, d2, -⟩ := WeakPtr.SafeWeakDecrease_counts hd b'
          exact ⟨d1, d2⟩
        · intro b'
          obtain ⟨d1, d2, -⟩ := WeakPtr.SafeWeakIncrease_counts hi b'
          exact ⟨d1, d2⟩

/-- The base-class destructor changes no strong count. -/
theorem EnableSharedFromThis.dtor_useCount {h h1 : Heap} {p : Nat}
    (e : EnableSharedFromThis.dtor h p = some h1) (b' : Nat) :
    h1.useCount b' = h.useCount b' := by
  unfold EnableSharedFromThis.dtor at e
  cases ho : h.object p with
  | none => rw [ho] at e; cases e
  | some o =>
    rw [ho] at e
    dsimp only at e
    cases ha : o.weak_this_.assign_shared SharedPtr.empty h with
    | none => rw [ha] at e; cases e
    | some r1 =>
      obtain ⟨w1, hm⟩ := r1
      rw [ha] at e
      dsimp only at e
      cases hd : w1.dtor hm with
      | none => rw [hd] at e; cases e
      | some r2 =>
        obtain ⟨w2, h2⟩ := r2
        rw [hd] at e
        cases e
        have s2 := (WeakPtr.SafeWeakDecrease_counts hd b').2.1
        have s1 : hm.useCount b' = h.useCount b' := by
          rcases WeakPtr.assign_shared_counts ha with ⟨-, -, rfl⟩ | ⟨-, -, -, hx, hx1, hx2⟩
          · rfl
          · exact (hx2 b').1.trans (hx1 b').1
        exact s2.trans s1

/-- The pointee's destructor changes no strong count; for a type that is not self-aware it
changes no block at all. -/
theorem destroyT_counts {esft : Bool} {h h1 : Heap} {p : Nat}
    (e : destroyT esft h p = some h1) (b' : Nat) :
    h1.useCount b' = h.useCount b' ∧ (esft = false → h1.blocks = h.blocks) := by
  unfold destroyT at e
  cases esft
  · simp only [Bool.false_eq_true, if_false] at e
    cases ho : h.object p with
    | none => rw [ho] at e; cases e
    | some o =>
      rw [ho] at e
      cases e
      exact ⟨rfl, fun _ => rfl⟩
  · simp only [if_true] at e
    cases hd : EnableSharedFromThis.dtor h p with
    | none => rw [hd] at e; cases e
    | some h2 =>
      rw [hd] at e
      dsimp only at e
      cases ho : h2.object p with
      | none => rw [ho] at e; cases e
      | some o =>
        rw [ho] at e
        cases e
        exact ⟨EnableSharedFromThis.dtor_useCount hd b', fun hf => Bool.noConfusion hf⟩

theorem resetWeakThis_blocks {h h1 : Heap} {q : Option Nat}
    (e : resetWeakThis h q = some h1) : h1.blocks = h.blocks := by
  unfold resetWeakThis at e
  cases q with
  | none => cases e
  | some p =>
    dsimp only at e
    cases ho : h.object p with
    | none => rw [ho] at e; cases e
    | some o => rw [ho] at e; cases e; rfl

theorem Heap.useCount_congr {h h1 : Heap} (e : h1.blocks = h.blocks) (b : Nat) :
    h1.useCount b = h.useCount b ∧ h1.weakCount b = h.weakCount b := by
  simp [Heap.useCount, Heap.weakCount, e]

theorem deleteObject_counts {esft : Bool} {h h1 : Heap} {q : Option Nat}
    (e : deleteObject esft h q = some h1) (b' : Nat) :
    h1.useCount b' = h.useCount b' ∧ (esft = false → h1.blocks = h.blocks) := by
  unfold deleteObject at e
  cases q with
  | none => cases e; exact ⟨rfl, fun _ => rfl⟩
  | some p => exact destroyT_counts e b'

/-- The stored counters after the first statement of `DecreaseUsage`. -/
theorem Heap.counts_after_preDec {h : Heap} {b : Nat} {blk : ControlBlock}
    (hb : h.block b = some blk) (b' : Nat) :
    (h.setBlock b { blk with use_count_ := preDec blk.use_count_ }).useCount b' =
        (if b' = b then preDec (h.useCount b) else h.useCount b') ∧
      (h.setBlock b { blk with use_count_ := preDec blk.use_count_ }).weakCount b' =
        h.weakCount b' := by
  have hbl := lt_of_getElem? (get_of_block hb).1
  rw [Heap.useCount_setBlock _ b' hbl, Heap.weakCount_setBlock _ b' hbl]
  refine ⟨?_, ?_⟩
  · simp [Heap.useCount_of_block hb]
  · by_cases e : b' = b
    · subst e; simp [Heap.weakCount_of_block hb]
    · simp [e]

theorem BlockWithPointer.DecreaseUsage_counts_ptr {esft : Bool} {h h1 : Heap} {b : Nat}
    (e : BlockWithPointer.DecreaseUsage esft h b = some h1) (b' : Nat) :
    h1.useCount b' = (if b' = b then preDec (h.useCount b) else h.useCount b') ∧
      (esft = false → h1.weakCount b' = h.weakCount b') := by
  unfold BlockWithPointer.DecreaseUsage at e
  cases hb : h.block b with
  | none => rw [hb] at e; cases e
  | some blk =>
    rw [hb] at e
    dsimp only at e
    obtain ⟨k1, k2⟩ := Heap.counts_after_preDec hb b'
    split at e
    · split at e
      · rename_i hbr
        cases hr : resetWeakThis
            (h.setBlock b { blk with use_count_ := preDec blk.use_count_ }) blk.object_ with
        | none => rw [hr] at e; cases e
        | some h2 =>
          rw [hr] at e
          dsimp only at e
          cases hd : deleteObject esft h2 blk.object_ with
          | none => rw [hd] at e; cases e
          | some h3 =>
            rw [hd] at e
            dsimp only at e
            obtain ⟨d1, -, -⟩ := deleteThis_counts e b'
            have d2 := (deleteObject_counts hd b').1
            have d3 := (Heap.useCount_congr (resetWeakThis_blocks hr) b').1
            refine ⟨d1.trans (d2.trans (d3.trans k1)), ?_⟩
            intro hf
            rw [hf] at hbr
            exact absurd hbr.1 (by decide)
      · cases hd : deleteObject esft
            (h.setBlock b { blk with use_count_ := preDec blk.use_count_ }) blk.object_ with
        | none => rw [hd] at e; cases e
        | some h2 =>
          rw [hd] at e
          dsimp only at e
          obtain ⟨d2, d2'⟩ := deleteObject_counts hd b'
          have hw2 : esft = false → h2.weakCount b' = h.weakCount b' := fun hf =>
            ((Heap.useCount_congr (d2' hf) b').2).trans k2
          cases hb2 : h2.block b with
          | none => rw [hb2] at e; cases e
          | some blk2 =>
            rw [hb2] at e
            dsimp only at e
            split at e
            · obtain ⟨d1, d1', -⟩ := deleteThis_counts e b'
              exact ⟨d1.trans (d2.trans k1), fun hf => d1'.trans (hw2 hf)⟩
            · cases e
              exact ⟨d2.trans k1, hw2⟩
    · split at e
      · obtain ⟨d1, d1', -⟩ := deleteThis_counts e b'
        exact ⟨d1.trans k1, fun _ => d1'.trans k2⟩
      · cases e
        exact ⟨k1, fun _ => k2⟩

theorem BlockWithObject.DecreaseUsage_counts_obj {esft : Bool} {h h1 : Heap} {b : Nat}
    (e : BlockWithObject.DecreaseUsage esft h b = some h1) (b' : Nat) :
    h1.useCount b' = (if b' = b then preDec (h.useCount b) else h.useCount b') ∧
      (esft = false → h1.weakCount b' = h.weakCount b') := by
  cases hb : h.block b with
  | none => simp [BlockWithObject.DecreaseUsage, hb] at e
  | some blk =>
    cases ho : blk.object_ with
    | some p =>
      rw [BlockWithObject.DecreaseUsage_same_body hb ho] at e
      exact BlockWithPointer.DecreaseUsage_counts_ptr e b'
    | none =>
      unfold BlockWithObject.DecreaseUsage at e
      rw [hb] at e
      dsimp only at e
      obtain ⟨k1, k2⟩ := Heap.counts_after_preDec hb b'
      split at e
      · split at e
        · cases hr : resetWeakThis
              (h.setBlock b { blk with use_count_ := preDec blk.use_count_ }) blk.object_ with
          | none => rw [hr] at e; cases e
          | some h2 =>
            rw [hr] at e
            dsimp only at e
            rw [ho] at e
            cases e
        · rw [ho] at e
          cases e
      · split at e
        · obtain ⟨d1, d1', -⟩ := deleteThis_counts e b'
          exact ⟨d1.trans k1, fun _ => d1'.trans k2⟩
        · cases e
          exact ⟨k1, fun _ => k2⟩

/-- `DecreaseUsage` lowers the stored strong count of its block by one and changes no other
strong count; for a type that is not self-aware it changes no weak count. -/
theorem ControlBlock.DecreaseUsage_counts {esft : Bool} {h h1 : Heap} {b : Nat}
    (e : ControlBlock.DecreaseUsage esft h b = some h1) (b' : Nat) :
    h1.useCount b' = (if b' = b then preDec (h.useCount b) else h.useCount b') ∧
      (esft = false → h1.weakCount b' = h.weakCount b') := by
  unfold ControlBlock.DecreaseUsage at e
  cases hb : h.block b with
  | none => rw [hb] at e; cases e
  | some blk =>
    rw [hb] at e
    dsimp only at e
    split at e
    · exact BlockWithPointer.DecreaseUsage_counts_ptr e b'
    · exact BlockWithObject.DecreaseUsage_counts_obj e b'

/-- Writing back the block that is already there changes nothing. -/
theorem Heap.setBlock_self {h : Heap} {b : Nat} {blk : ControlBlock}
    (hb : h.blocks[b]? = some blk) : h.setBlock b blk = h := by
  cases h with
  | mk bs os lg =>
    simp only [Heap.setBlock]
    congr 1
    exact set_same hb

/-- Releasing a strong unit that is not the last one only lowers `use_count_`. -/
theorem ControlBlock.DecreaseUsage_not_last {esft : Bool} {h : Heap} {b : Nat}
    {blk : ControlBlock} (hb : h.block b = some blk) (h2 : 2 ≤ blk.use_count_)
    (hfit : blk.use_count_ + blk.weak_count_ < SIZE_MOD) :
    ControlBlock.DecreaseUsage esft h b =
      some (h.setBlock b { blk with use_count_ := blk.use_count_ - 1 }) := by
  have hM : blk.use_count_ < SIZE_MOD := by omega
  have hp : preDec blk.use_count_ = blk.use_count_ - 1 := preDec_eq (by omega) hM
  have hne : ¬ (blk.use_count_ - 1 = 0) := by omega
  have hadd : ¬ (addSize (blk.use_count_ - 1) blk.weak_count_ = 0) := by
    rw [addSize_eq (by omega)]; omega
  unfold ControlBlock.DecreaseUsage BlockWithPointer.DecreaseUsage BlockWithObject.DecreaseUsage
  rw [hb]
  dsimp only
  split <;> (rw [hp, if_neg hne, if_neg hadd])

/-- C11, the code at a failing input, for a self-aware `T` and a fresh object at address 0:
`SharedPtr<T> sp; sp.Reset(p);`. The new block has strong count 1 but weak count 0, the
object's `weak_this_` is still default-constructed, `p->WeakFromThis()` is an empty handle
that reports `Expired()`, and `p->SharedFromThis()` returns the empty `SharedPtr` while
`sp.UseCount()` stays 1. -/
theorem C11_Reset_ptr_leaves_weak_this_empty :
    ∃ (sp : SharedPtr) (h1 : Heap),
      SharedPtr.Reset_ptr true SharedPtr.empty (some 0) Heap.empty.newObject.2 =
        some (sp, h1) ∧
      sp = ⟨some 0, some 0⟩ ∧ h1.useCount 0 = 1 ∧ h1.weakCount 0 = 0 ∧
      h1.object 0 = some ⟨WeakPtr.empty, false⟩ ∧
      EnableSharedFromThis.WeakFromThis h1 0 = some (WeakPtr.empty, h1) ∧
      WeakPtr.empty.Expired h1 = some true ∧
      EnableSharedFromThis.SharedFromThis h1 0 = some (SharedPtr.empty, h1) ∧
      SharedPtr.empty.toBool = false ∧ SharedPtr.empty.UseCount h1 = some 0 ∧
      sp.UseCount h1 = some 1 :=
  ⟨_, _, rfl, rfl, rfl, rfl, rfl, rfl, rfl, rfl, rfl, rfl, rfl⟩

/-- C12. The aliasing constructor `SharedPtr<T>(other, p)` for a handle `other` that holds
a live block with `use_count_ == n`, `n >= 1`, and any raw pointer `p` (null or not), with
no `size_t` overflow: the new handle `s` has `Get() == p` and the block of `other`; the
heap changes only in that block's `use_count_`, which becomes `n + 1`, so
`s.UseCount() == other.UseCount() == n + 1` and the weak count is unchanged; destroying `s`
gives back exactly the heap from before the construction, so the count is `n` again and
nothing is destroyed. -/
theorem C12_aliasing_constructor_shares_count (esft : Bool) (h : Heap) (other : SharedPtr)
    (p : Option Nat) (b n : Nat) (blk : ControlBlock) (hb : other.block_ = some b)
    (hblk : h.block b = some blk) (hn : blk.use_count_ = n) (h1 : 1 ≤ n)
    (hfit : n + blk.weak_count_ + 1 < SIZE_MOD) :
    other.UseCount h = some n ∧
    SharedPtr.ctor_alias other p h =
      some (⟨p, some b⟩, h.setBlock b { blk with use_count_ := n + 1 }) ∧
    SharedPtr.Get ⟨p, some b⟩ = p ∧
    SharedPtr.UseCount ⟨p, some b⟩ (h.setBlock b { blk with use_count_ := n + 1 }) =
      some (n + 1) ∧
    other.UseCount (h.setBlock b { blk with use_count_ := n + 1 }) = some (n + 1) ∧
    (h.setBlock b { blk with use_count_ := n + 1 }).weakCount b = h.weakCount b ∧
    (h.setBlock b { blk with use_count_ := n + 1 }).log = h.log ∧
    SharedPtr.dtor esft ⟨p, some b⟩ (h.setBlock b { blk with use_count_ := n + 1 }) =
      some (SharedPtr.empty, h) := by
  obtain ⟨hget, hd⟩ := get_of_block hblk
  have hbl := lt_of_getElem? hget
  have hblk1 := Heap.block_setBlock_live { blk with use_count_ := n + 1 } hblk hd
  have hg1 := ControlBlock.GetUseCount_eq hblk1
  have hinc : preInc blk.use_count_ = n + 1 := by rw [hn]; exact preInc_eq (by omega)
  refine ⟨?_, ?_, rfl, ?_, ?_, ?_, rfl, ?_⟩
  · simp [SharedPtr.UseCount, hb, ControlBlock.GetUseCount_eq hblk, hn]
  · simp [SharedPtr.ctor_alias, SharedPtr.SafeIncrease, hb,
      ControlBlock.IncreaseUsage_eq hblk, hinc]
  · simpa [SharedPtr.UseCount] using hg1
  · simpa [SharedPtr.UseCount, hb] using hg1
  · rw [Heap.weakCount_setBlock _ _ hbl]; simp [Heap.weakCount_of_block hblk]
  · have hdec := @ControlBlock.DecreaseUsage_not_last esft _ _ _ hblk1
      (by dsimp only; omega) (by dsimp only; omega)
    have hback : (h.setBlock b { blk with use_count_ := n + 1 }).setBlock b
        { ({ blk with use_count_ := n + 1 } : ControlBlock) with use_count_ := n + 1 - 1 }
          = h := by
      rw [Heap.setBlock_setBlock]
      have : ({ ({ blk with use_count_ := n + 1 } : ControlBlock) with
          use_count_ := n + 1 - 1 } : ControlBlock) = blk := by
        cases blk; simp at hn ⊢; omega
      rw [this]
      exact Heap.setBlock_self hget
    simp only [SharedPtr.dtor, SharedPtr.SafeDecrease, hdec]
    rw [hback]
    rfl

/-- C12 at a concrete heap: an alias with a null pointer on a block with two strong
units. -/
theorem C12_aliasing_constructor_shares_count_witness :
    Heap.block ⟨[⟨BlockKind.BlockWithPointer, 2, 1, some 0, false⟩],
        [⟨⟨none, none⟩, false⟩], []⟩ 0 =
      some ⟨BlockKind.BlockWithPointer, 2, 1, some 0, false⟩ ∧
    (1 ≤ 2 ∧ 2 + 1 + 1 < SIZE_MOD) ∧
    SharedPtr.ctor_alias ⟨some 0, some 0⟩ none
        ⟨[⟨BlockKind.BlockWithPointer, 2, 1, some 0, false⟩], [⟨⟨none, none⟩, false⟩], []⟩ =
      some (⟨none, some 0⟩,
        ⟨[⟨BlockKind.BlockWithPointer, 3, 1, some 0, false⟩], [⟨⟨none, none⟩, false⟩], []⟩) :=
  ⟨rfl, ⟨by decide, by decide⟩,
    (C12_aliasing_constructor_shares_count false
      ⟨[⟨BlockKind.BlockWithPointer, 2, 1, some 0, false⟩], [⟨⟨none, none⟩, false⟩], []⟩
      ⟨some 0, some 0⟩ none 0 2 ⟨BlockKind.BlockWithPointer, 2, 1, some 0, false⟩ rfl rfl rfl
      (by decide) (by decide)).2.1⟩

/-- C13. Copy construction from a handle on a live block returns a handle with the same
raw pointer and block, and the heap changes only in that block's `use_count_`, which is
incremented (by exactly one unless `size_t` overflows); the source is a `const` argument.
Move construction returns a handle with the source's raw pointer and block and leaves the
source empty; it does not touch the heap. The moved-from source has a null pointer and a null
block, `UseCount() == 0` and converts to `false`, and destroying it changes nothing. Copying
or moving an empty source gives an empty handle and leaves the heap unchanged. -/
theorem C13_copy_and_move_construction (esft : Bool) (h : Heap) (x : SharedPtr) :
    (∀ b blk, x.block_ = some b → h.block b = some blk →
      SharedPtr.ctor_copy x h =
        some (⟨x.ptr_, x.block_⟩,
          h.setBlock b { blk with use_count_ := preInc blk.use_count_ }) ∧
      (h.setBlock b { blk with use_count_ := preInc blk.use_count_ }).useCount b =
        preInc (h.useCount b) ∧
      (blk.use_count_ + 1 < SIZE_MOD → preInc (h.useCount b) = h.useCount b + 1) ∧
      (∀ b', b' ≠ b →
        (h.setBlock b { blk with use_count_ := preInc blk.use_count_ }).useCount b' =
          h.useCount b') ∧
      ∀ b', (h.setBlock b { blk with use_count_ := preInc blk.use_count_ }).weakCount b' =
        h.weakCount b') ∧
    SharedPtr.ctor_move x = (⟨x.ptr_, x.block_⟩, SharedPtr.empty) ∧
    (SharedPtr.empty.Get = none ∧ SharedPtr.empty.block_ = none ∧
      SharedPtr.empty.UseCount h = some 0 ∧ SharedPtr.empty.toBool = false ∧
      SharedPtr.dtor esft SharedPtr.empty h = some (SharedPtr.empty, h)) ∧
    SharedPtr.ctor_copy SharedPtr.empty h = some (SharedPtr.empty, h) ∧
    SharedPtr.ctor_move SharedPtr.empty = (SharedPtr.empty, SharedPtr.empty) := by
  refine ⟨?_, rfl, ⟨rfl, rfl, rfl, rfl, rfl⟩, rfl, rfl⟩
  intro b blk hb hblk
  have hbl := lt_of_getElem? (get_of_block hblk).1
  have hu := Heap.useCount_of_block hblk
  refine ⟨?_, ?_, ?_, ?_, ?_⟩
  · simp [SharedPtr.ctor_copy, SharedPtr.SafeIncrease, hb, ControlBlock.IncreaseUsage_eq hblk]
  · rw [Heap.useCount_setBlock _ _ hbl]; simp [hu]
  · intro hlt; rw [hu]; exact preInc_eq hlt
  · intro b' hne
    rw [Heap.useCount_setBlock _ _ hbl]; simp [hne]
  · intro b'
    rw [Heap.weakCount_setBlock _ _ hbl]
    by_cases e : b' = b
    · subst e; simp [Heap.weakCount_of_block hblk]
    · simp [e]

/-- C13 at a concrete heap: copying a handle on a block with one strong unit. -/
theorem C13_copy_and_move_construction_witness :
    SharedPtr.ctor_copy ⟨some 0, some 0⟩
        ⟨[⟨BlockKind.BlockWithPointer, 1, 0, some 0, false⟩], [⟨⟨none, none⟩, false⟩], []⟩ =
      some (⟨some 0, some 0⟩,
        ⟨[⟨BlockKind.BlockWithPointer, 2, 0, some 0, false⟩], [⟨⟨none, none⟩, false⟩], []⟩) :=
  ((C13_copy_and_move_construction false
      ⟨[⟨BlockKind.BlockWithPointer, 1, 0, some 0, false⟩], [⟨⟨none, none⟩, false⟩], []⟩
      ⟨some 0, some 0⟩).1 0 ⟨BlockKind.BlockWithPointer, 1, 0, some 0, false⟩ rfl rfl).1

/-- C16, the claim as stated fails for the aliasing constructor, on a heap with one object
at address 0. `SharedPtr<T> e; SharedPtr<T> s(e, p);` gives a handle with a non-null
pointer and a null block: it converts to `true` while `UseCount() == 0`.
`SharedPtr<T> x(p); SharedPtr<T> t(x, nullptr);` gives a handle with a null pointer and a
block: it converts to `false` while `UseCount() == 2`. -/
theorem C16_aliasing_breaks_pairing_counterexample :
    ∃ (s x t : SharedPtr) (h1 h2 : Heap),
      SharedPtr.ctor_alias SharedPtr.empty (some 0) Heap.empty.newObject.2 =
        some (s, Heap.empty.newObject.2) ∧
      s.ptr_ ≠ none ∧ s.block_ = none ∧ s.toBool = true ∧
      s.UseCount Heap.empty.newObject.2 = some 0 ∧
      SharedPtr.ctor_ptr false (some 0) Heap.empty.newObject.2 = some (x, h1) ∧
      SharedPtr.ctor_alias x none h1 = some (t, h2) ∧
      t.ptr_ = none ∧ t.block_ ≠ none ∧ t.toBool = false ∧ t.UseCount h2 = some 2 ∧
      ¬ (s.ptr_ = none ↔ s.block_ = none) ∧ ¬ (t.ptr_ = none ↔ t.block_ = none) :=
  ⟨_, _, _, _, _, rfl, by decide, rfl, rfl, rfl, rfl, rfl, rfl, by decide, rfl, rfl,
    by decide, by decide⟩

theorem SharedPtr.SafeDecrease_result {esft : Bool} {x r : SharedPtr} {h h1 : Heap}
    (e : x.SafeDecrease esft h = some (r, h1)) : r = ⟨none, none⟩ := by
  unfold SharedPtr.SafeDecrease at e
  split at e
  · split at e
    · cases e
    · cases e; rfl
  · cases e; rfl

theorem WeakPtr.SafeWeakDecrease_result {x r : WeakPtr} {h h1 : Heap}
    (e : x.SafeWeakDecrease h = some (r, h1)) : r = ⟨none, none⟩ :=
  (WeakPtr.SafeWeakDecrease_counts e 0).1

theorem SharedPtr.ctor_ptr_result {esft : Bool} {q : Option Nat} {x : SharedPtr}
    {h h1 : Heap} (e : SharedPtr.ctor_ptr esft q h = some (x, h1)) :
    x = ⟨q, some h.blocks.length⟩ := by
  unfold SharedPtr.ctor_ptr at e
  dsimp only at e
  split at e
  · split at e
    · cases e
    · cases e; rfl
  · cases e; rfl

theorem MakeShared_result {esft : Bool} {x : SharedPtr} {h h1 : Heap}
    (e : MakeShared esft h = some (x, h1)) :
    x = ⟨some h.objects.length, some h.blocks.length⟩ := by
  unfold MakeShared at e
  dsimp only at e
  split at e
  · split at e
    · cases e
    · cases e; rfl
  · cases e; rfl

theorem SharedPtr.ctor_copy_result {x c : SharedPtr} {h h1 : Heap}
    (e : SharedPtr.ctor_copy x h = some (c, h1)) : c = x := by
  unfold SharedPtr.ctor_copy at e
  dsimp only at e
  split at e
  · cases e
  · cases e; rfl

theorem SharedPtr.ctor_alias_result {x c : SharedPtr} {q : Option Nat} {h h1 : Heap}
    (e : SharedPtr.ctor_alias x q h = some (c, h1)) : c = ⟨q, x.block_⟩ := by
  unfold SharedPtr.ctor_alias at e
  dsimp only at e
  split at e
  · cases e
  · cases e; rfl

theorem SharedPtr.ctor_weak_result {w : WeakPtr} {c : SharedPtr} {h h1 : Heap}
    (e : SharedPtr.ctor_weak w h = some (Except.ok c, h1)) : c = ⟨w.ptr_, w.block_⟩ := by
  unfold SharedPtr.ctor_weak at e
  dsimp only at e
  split at e
  · cases e
  · cases e
  · split at e
    · cases e
    · cases e; rfl

theorem SharedPtr.assign_copy_result {esft : Bool} {a b a1 : SharedPtr} {h h1 : Heap}
    (e : SharedPtr.assign_copy esft a b h = some (a1, h1)) :
    a1 = a ∨ a1 = ⟨b.ptr_, b.block_⟩ := by
  unfold SharedPtr.assign_copy at e
  split at e
  · cases e; exact Or.inl rfl
  · split at e
    · cases e
    · dsimp only at e
      split at e
      · cases e
      · cases e; exact Or.inr rfl

theorem SharedPtr.assign_move_result {esft : Bool} {a b a1 b1 : SharedPtr} {h h1 : Heap}
    (e : SharedPtr.assign_move esft a b h = some (a1, b1, h1)) :
    (a1 = a ∧ b1 = b) ∨ (a1 = ⟨b.ptr_, b.block_⟩ ∧ b1 = ⟨none, none⟩) := by
  unfold SharedPtr.assign_move at e
  split at e
  · cases e; exact Or.inl ⟨rfl, rfl⟩
  · cases hd : a.SafeDecrease esft h with
    | none => rw [hd] at e; cases e
    | some r =>
      obtain ⟨r0, hm⟩ := r
      rw [hd] at e
      have := SharedPtr.SafeDecrease_result hd
      subst this
      cases e
      exact Or.inr ⟨rfl, rfl⟩

theorem SharedPtr.Reset_result {esft : Bool} {a a1 : SharedPtr} {h h1 : Heap}
    (e : SharedPtr.Reset esft a h = some (a1, h1)) : a1 = ⟨none, none⟩ := by
  unfold SharedPtr.Reset at e
  split at e
  · cases e
  · cases e; rfl

theorem SharedPtr.Reset_ptr_result {esft : Bool} {a a1 : SharedPtr} {q : Option Nat}
    {h h1 : Heap} (e : SharedPtr.Reset_ptr esft a q h = some (a1, h1)) :
    a1 = a ∨ (q = none ∧ a1 = ⟨none, none⟩) ∨
      ∃ p b, q = some p ∧ a1 = ⟨some p, some b⟩ := by
  unfold SharedPtr.Reset_ptr at e
  split at e
  · cases e; exact Or.inl rfl
  · split at e
    · cases e
    · split at e
      · rename_i hq
        cases e
        exact Or.inr (Or.inl ⟨hq, by rw [hq]⟩)
      · rename_i hq
        cases e
        cases q with
        | none => exact absurd rfl hq
        | some p => exact Or.inr (Or.inr ⟨p, _, rfl, rfl⟩)

theorem WeakPtr.Lock_result {w : WeakPtr} {c : SharedPtr} {h h1 : Heap}
    (e : w.Lock h = some (c, h1)) : c = SharedPtr.empty ∨ c = ⟨w.ptr_, w.block_⟩ := by
  unfold WeakPtr.Lock at e
  split at e
  · cases e
  · cases e; exact Or.inl rfl
  · split at e
    · cases e
    · split at e
      · cases e
      · cases e; exact Or.inr rfl


theorem WeakPtr.weak_ctor_copy_result {w c : WeakPtr} {h h1 : Heap}
    (e : WeakPtr.ctor_copy w h = some (c, h1)) : c = w := by
  unfold WeakPtr.ctor_copy at e
  dsimp only at e
  split at e
  · cases e
  · cases e; rfl

theorem WeakPtr.ctor_shared_result {x : SharedPtr} {c : WeakPtr} {h h1 : Heap}
    (e : WeakPtr.ctor_shared x h = some (c, h1)) : c = ⟨x.ptr_, x.block_⟩ := by
  unfold WeakPtr.ctor_shared at e
  dsimp only at e
  split at e
  · cases e
  · cases e; rfl

theorem WeakPtr.weak_assign_copy_result {a b a1 : WeakPtr} {h h1 : Heap}
    (e : WeakPtr.assign_copy a b h = some (a1, h1)) :
    a1 = a ∨ a1 = ⟨b.ptr_, b.block_⟩ := by
  unfold WeakPtr.assign_copy at e
  split at e
  · cases e; exact Or.inl rfl
  · split at e
    · cases e
    · dsimp only at e
      split at e
      · cases e
      · cases e; exact Or.inr rfl

theorem WeakPtr.assign_shared_result {a a1 : WeakPtr} {b : SharedPtr} {h h1 : Heap}
    (e : WeakPtr.assign_shared a b h = some (a1, h1)) :
    a1 = a ∨ a1 = ⟨b.ptr_, b.block_⟩ := by
  unfold WeakPtr.assign_shared at e
  split at e
  · cases e; exact Or.inl rfl
  · split at e
    · cases e
    · dsimp only at e
      split at e
      · cases e
      · cases e; exact Or.inr rfl

theorem WeakPtr.weak_assign_move_result {a b a1 b1 : WeakPtr} {h h1 : Heap}
    (e : WeakPtr.assign_move a b h = some (a1, b1, h1)) :
    (a1 = a ∧ b1 = b) ∨ (a1 = ⟨b.ptr_, b.block_⟩ ∧ b1 = ⟨none, none⟩) := by
  unfold WeakPtr.assign_move at e
  split at e
  · cases e; exact Or.inl ⟨rfl, rfl⟩
  · cases hd : a.SafeWeakDecrease h with
    | none => rw [hd] at e; cases e
    | some r =>
      obtain ⟨r0, hm⟩ := r
      rw [hd] at e
      have := WeakPtr.SafeWeakDecrease_result hd
      subst this
      cases e
      exact Or.inr ⟨rfl, rfl⟩

/-- C16, amended. The pairing "raw pointer null exactly when block pointer null" holds for
default and `nullptr` construction, construction from a non-null raw pointer and
`MakeShared`, and it is kept by copy, move, construction from a `WeakPtr`, `Lock`,
assignment, `Reset()`, `Reset(p)` and `Swap` on handles that have it (weak handles made
from such handles have it too). The aliasing constructor `SharedPtr(other, p)` gives a
paired handle exactly when `p` is null if and only if `other` is empty. For a paired handle
whose block, if any, is live with a positive strong count, the boolean conversion is true
exactly when `UseCount() > 0`. -/
theorem C16_pairing_kept_without_aliasing :
    SharedPtr.empty.Paired ∧
    (∀ esft p h x h1, SharedPtr.ctor_ptr esft (some p) h = some (x, h1) → x.Paired) ∧
    (∀ esft h x h1, MakeShared esft h = some (x, h1) → x.Paired) ∧
    (∀ x h c h1, SharedPtr.Paired x → SharedPtr.ctor_copy x h = some (c, h1) → c.Paired) ∧
    (∀ x, SharedPtr.Paired x →
      (SharedPtr.ctor_move x).1.Paired ∧ (SharedPtr.ctor_move x).2.Paired) ∧
    (∀ x q h c h1, SharedPtr.ctor_alias x q h = some (c, h1) →
      (c.Paired ↔ (q = none ↔ x.block_ = none))) ∧
    (∀ w h c h1, WeakPtr.Paired w → SharedPtr.ctor_weak w h = some (Except.ok c, h1) →
      c.Paired) ∧
    (∀ w h c h1, WeakPtr.Paired w → WeakPtr.Lock w h = some (c, h1) → c.Paired) ∧
    (∀ esft a b h a1 h1, SharedPtr.Paired a → SharedPtr.Paired b →
      SharedPtr.assign_copy esft a b h = some (a1, h1) → a1.Paired) ∧
    (∀ esft a b h a1 b1 h1, SharedPtr.Paired a → SharedPtr.Paired b →
      SharedPtr.assign_move esft a b h = some (a1, b1, h1) → a1.Paired ∧ b1.Paired) ∧
    (∀ esft a h a1 h1, SharedPtr.Reset esft a h = some (a1, h1) → a1.Paired) ∧
    (∀ esft a q h a1 h1, SharedPtr.Paired a →
      SharedPtr.Reset_ptr esft a q h = some (a1, h1) → a1.Paired) ∧
    (∀ a b, SharedPtr.Paired a → SharedPtr.Paired b →
      (SharedPtr.Swap a b).1.Paired ∧ (SharedPtr.Swap a b).2.Paired) ∧
    (WeakPtr.empty.Paired ∧
      (∀ x h w h1, SharedPtr.Paired x → WeakPtr.ctor_shared x h = some (w, h1) → w.Paired) ∧
      (∀ w h c h1, WeakPtr.Paired w → WeakPtr.ctor_copy w h = some (c, h1) → c.Paired) ∧
      (∀ w, WeakPtr.Paired w →
        (WeakPtr.ctor_move w).1.Paired ∧ (WeakPtr.ctor_move w).2.Paired) ∧
      (∀ a b h a1 h1, WeakPtr.Paired a → WeakPtr.Paired b →
        WeakPtr.assign_copy a b h = some (a1, h1) → a1.Paired) ∧
      (∀ a b h a1 b1 h1, WeakPtr.Paired a → WeakPtr.Paired b →
        WeakPtr.assign_move a b h = some (a1, b1, h1) → a1.Paired ∧ b1.Paired) ∧
      (∀ a x h a1 h1, WeakPtr.Paired a → SharedPtr.Paired x →
        WeakPtr.assign_shared a x h = some (a1, h1) → a1.Paired) ∧
      (∀ a h a1 h1, WeakPtr.Reset a h = some (a1, h1) → a1.Paired) ∧
      (∀ a b, WeakPtr.Paired a → WeakPtr.Paired b →
        (WeakPtr.Swap a b).1.Paired ∧ (WeakPtr.Swap a b).2.Paired)) ∧
    (∀ x h, SharedPtr.Paired x →
      (∀ b, x.block_ = some b → ∃ blk, h.block b = some blk ∧ 0 < blk.use_count_) →
      ∃ n, x.UseCount h = some n ∧ (x.toBool = true ↔ 0 < n)) := by
  have hE : SharedPtr.Paired ⟨none, none⟩ := Iff.rfl
  have hW : WeakPtr.Paired ⟨none, none⟩ := Iff.rfl
  have hS : ∀ x : SharedPtr, x.Paired → SharedPtr.Paired ⟨x.ptr_, x.block_⟩ := fun _ hx => hx
  have hS2 : ∀ x : WeakPtr, x.Paired → SharedPtr.Paired ⟨x.ptr_, x.block_⟩ := fun _ hx => hx
  have hW2 : ∀ x : WeakPtr, x.Paired → WeakPtr.Paired ⟨x.ptr_, x.block_⟩ := fun _ hx => hx
  have hW3 : ∀ x : SharedPtr, x.Paired → WeakPtr.Paired ⟨x.ptr_, x.block_⟩ := fun _ hx => hx
  refine ⟨hE, ?_, ?_, ?_, ?_, ?_, ?_, ?_, ?_, ?_, ?_, ?_, ?_,
    ⟨hW, ?_, ?_, ?_, ?_, ?_, ?_, ?_, ?_⟩, ?_⟩
  · intro esft p h x h1 e
    rw [SharedPtr.ctor_ptr_result e]
    simp [SharedPtr.Paired]
  · intro esft h x h1 e
    rw [MakeShared_result e]
    simp [SharedPtr.Paired]
  · intro x h c h1 hx e
    rw [SharedPtr.ctor_copy_result e]; exact hx
  · intro x hx
    exact ⟨hx, hE⟩
  · intro x q h c h1 e
    rw [SharedPtr.ctor_alias_result e]
    exact Iff.rfl
  · intro w h c h1 hw e
    rw [SharedPtr.ctor_weak_result e]; exact hw
  · intro w h c h1 hw e
    rcases WeakPtr.Lock_result e with r | r
    · rw [r]; exact hE
    · rw [r]; exact hw
  · intro esft a b h a1 h1 ha hb e
    rcases SharedPtr.assign_copy_result e with r | r
    · rw [r]; exact ha
    · rw [r]; exact hb
  · intro esft a b h a1 b1 h1 ha hb e
    rcases SharedPtr.assign_move_result e with ⟨r, r2⟩ | ⟨r, r2⟩
    · rw [r, r2]; exact ⟨ha, hb⟩
    · rw [r, r2]; exact ⟨hb, hE⟩
  · intro esft a h a1 h1 e
    rw [SharedPtr.Reset_result e]; exact hE
  · intro esft a q h a1 h1 ha e
    rcases SharedPtr.Reset_ptr_result e with r | ⟨_, r⟩ | ⟨p, b, _, r⟩
    · rw [r]; exact ha
    · rw [r]; exact hE
    · rw [r]; simp [SharedPtr.Paired]
  · intro a b ha hb
    exact ⟨hb, ha⟩
  · intro x h w h1 hx e
    rw [WeakPtr.ctor_shared_result e]; exact hx
  · intro w h c h1 hw e
    rw [WeakPtr.weak_ctor_copy_result e]; exact hw
  · intro w hw
    exact ⟨hw, hW⟩
  · intro a b h a1 h1 ha hb e
    rcases WeakPtr.weak_assign_copy_result e with r | r
    · rw [r]; exact ha
    · rw [r]; exact hb
  · intro a b h a1 b1 h1 ha hb e
    rcases WeakPtr.weak_assign_move_result e with ⟨r, r2⟩ | ⟨r, r2⟩
    · rw [r, r2]; exact ⟨ha, hb⟩
    · rw [r, r2]; exact ⟨hb, hW⟩
  · intro a x h a1 h1 ha hx e
    rcases WeakPtr.assign_shared_result e with r | r
    · rw [r]; exact ha
    · rw [r]; exact hx
  · intro a h a1 h1 e
    rw [WeakPtr.SafeWeakDecrease_result e]; exact hW
  · intro a b ha hb
    exact ⟨hb, ha⟩
  · intro x h hx hlive
    obtain ⟨p, b⟩ := x
    cases b with
    | none =>
      have hp : p = none := hx.2 rfl
      subst hp
      exact ⟨0, rfl, by simp [SharedPtr.toBool]⟩
    | some b =>
      obtain ⟨blk, hb, hpos⟩ := hlive b rfl
      have hp : p ≠ none := fun e => by
        have := hx.1 e
        cases this
      refine ⟨blk.use_count_, ?_, ?_⟩
      · simp only [SharedPtr.UseCount]
        exact ControlBlock.GetUseCount_eq hb
      · simp [SharedPtr.toBool, hp, hpos]

/-- C16, amended, on a heap with one object at address 0: `SharedPtr<T> x(p);` is paired,
its copy is paired, and `SharedPtr<T> t(x, q)` is paired only for a non-null `q`. -/
theorem C16_pairing_kept_without_aliasing_witness :
    SharedPtr.Paired ⟨some 0, some 0⟩ ∧
      (SharedPtr.Paired ⟨some 0, some 0⟩ → SharedPtr.Paired ⟨some 0, some 0⟩) ∧
      (SharedPtr.Paired ⟨none, some 0⟩ ↔
        ((none : Option Nat) = none ↔ (some 0 : Option Nat) = none)) :=
  ⟨C16_pairing_kept_without_aliasing.2.1 false 0 Heap.empty.newObject.2 _ _ rfl,
    fun hx => C16_pairing_kept_without_aliasing.2.2.2.1 ⟨some 0, some 0⟩
      { blocks := [BlockWithPointer.new (some 0)], objects := [⟨⟨none, none⟩, false⟩],
        log := [] } _ _ hx rfl,
    C16_pairing_kept_without_aliasing.2.2.2.2.2.1 ⟨some 0, some 0⟩ none
      { blocks := [BlockWithPointer.new (some 0)], objects := [⟨⟨none, none⟩, false⟩],
        log := [] } _ _ rfl⟩

/-! ## Accounting over several blocks -/

theorem SharedPtr.unitAt_le_one (x : SharedPtr) (b : Nat) : x.unitAt b ≤ 1 := by
  unfold SharedPtr.unitAt; split <;> omega

theorem WeakPtr.weak_unitAt_le_one (x : WeakPtr) (b : Nat) : x.unitAt b ≤ 1 := by
  unfold WeakPtr.unitAt; split <;> omega

theorem strongHolders_append (l : List SharedPtr) (c : SharedPtr) (b : Nat) :
    strongHolders (l ++ [c]) b = strongHolders l b + c.unitAt b := by
  simp [strongHolders, SharedPtr.unitAt, List.countP_cons]

theorem strongHolders_set {l : List SharedPtr} {i : Nat} {x : SharedPtr} (y : SharedPtr)
    (h : l[i]? = some x) (b : Nat) :
    strongHolders (l.set i y) b + x.unitAt b = strongHolders l b + y.unitAt b := by
  have := countP_set_add (fun x : SharedPtr => decide (x.block_ = some b)) y h
  simpa [strongHolders, SharedPtr.unitAt] using this

theorem strongHolders_eraseIdx {l : List SharedPtr} {i : Nat} {x : SharedPtr}
    (h : l[i]? = some x) (b : Nat) :
    strongHolders (l.eraseIdx i) b + x.unitAt b = strongHolders l b := by
  have := countP_eraseIdx_add (fun x : SharedPtr => decide (x.block_ = some b)) h
  simpa [strongHolders, SharedPtr.unitAt] using this

theorem unitAt_le_strongHolders {l : List SharedPtr} {i : Nat} {x : SharedPtr}
    (h : l[i]? = some x) (b : Nat) : x.unitAt b ≤ strongHolders l b := by
  have := strongHolders_eraseIdx h b
  omega

theorem strongHolders_le_length (l : List SharedPtr) (b : Nat) :
    strongHolders l b ≤ l.length :=
  List.countP_le_length _

theorem weakHolders_append (l : List WeakPtr) (c : WeakPtr) (b : Nat) :
    weakHolders (l ++ [c]) b = weakHolders l b + c.unitAt b := by
  simp [weakHolders, WeakPtr.unitAt, List.countP_cons]

theorem weakHolders_set {l : List WeakPtr} {i : Nat} {x : WeakPtr} (y : WeakPtr)
    (h : l[i]? = some x) (b : Nat) :
    weakHolders (l.set i y) b + x.unitAt b = weakHolders l b + y.unitAt b := by
  have := countP_set_add (fun x : WeakPtr => decide (x.block_ = some b)) y h
  simpa [weakHolders, WeakPtr.unitAt] using this

theorem weakHolders_eraseIdx {l : List WeakPtr} {i : Nat} {x : WeakPtr}
    (h : l[i]? = some x) (b : Nat) :
    weakHolders (l.eraseIdx i) b + x.unitAt b = weakHolders l b := by
  have := countP_eraseIdx_add (fun x : WeakPtr => decide (x.block_ = some b)) h
  simpa [weakHolders, WeakPtr.unitAt] using this

theorem unitAt_le_weakHolders {l : List WeakPtr} {i : Nat} {x : WeakPtr}
    (h : l[i]? = some x) (b : Nat) : x.unitAt b ≤ weakHolders l b := by
  have := weakHolders_eraseIdx h b
  omega

theorem weakHolders_le_length (l : List WeakPtr) (b : Nat) :
    weakHolders l b ≤ l.length :=
  List.countP_le_length _

/-- An index past the end of the block list reads as counters zero. -/
theorem Heap.counts_past_end (h : Heap) {b : Nat} (hb : h.blocks.length ≤ b) :
    h.useCount b = 0 ∧ h.weakCount b = 0 := by
  unfold Heap.useCount Heap.weakCount
  rw [List.getElem?_eq_none hb]
  exact ⟨rfl, rfl⟩

/-- The counters after a block is allocated at the end of the block list. -/
theorem Heap.counts_alloc_add (h : Heap) (x : ControlBlock) (os : List Object) (b : Nat) :
    Heap.useCount { h with blocks := h.blocks ++ [x], objects := os } b =
        h.useCount b + (if b = h.blocks.length then x.use_count_ else 0) ∧
      Heap.weakCount { h with blocks := h.blocks ++ [x], objects := os } b =
        h.weakCount b + (if b = h.blocks.length then x.weak_count_ else 0) := by
  by_cases hb : b = h.blocks.length
  · have h0 := h.counts_past_end (Nat.le_of_eq hb.symm)
    subst hb
    simp [Heap.useCount, Heap.weakCount] at h0 ⊢
  · rcases Nat.lt_or_gt_of_ne hb with hlt | hgt
    · simp [Heap.useCount, Heap.weakCount, List.getElem?_append_left hlt, hb]
    · have h0 := h.counts_past_end (Nat.le_of_lt hgt)
      have : (h.blocks ++ [x])[b]? = none := by
        apply List.getElem?_eq_none
        simp; omega
      simp [Heap.useCount, Heap.weakCount, this, hb] at h0 ⊢
      exact ⟨h0.1.symm, h0.2.symm⟩

theorem deleteThis_len {h h1 : Heap} {b : Nat} (e : deleteThis h b = some h1) :
    h1.blocks.length = h.blocks.length := by
  unfold deleteThis at e
  split at e
  · cases e
  · cases e; simp

theorem ControlBlock.IncreaseUsage_len {h h1 : Heap} {b : Nat}
    (e : ControlBlock.IncreaseUsage h b = some h1) :
    h1.blocks.length = h.blocks.length := by
  cases hb : h.block b with
  | none => simp [ControlBlock.IncreaseUsage, hb] at e
  | some blk =>
    rw [ControlBlock.IncreaseUsage_eq hb] at e
    cases e; simp

theorem ControlBlock.IncreaseWeakUsage_len {h h1 : Heap} {b : Nat}
    (e : ControlBlock.IncreaseWeakUsage h b = some h1) :
    h1.blocks.length = h.blocks.length := by
  cases hb : h.block b with
  | none => simp [ControlBlock.IncreaseWeakUsage, hb] at e
  | some blk =>
    rw [ControlBlock.IncreaseWeakUsage_eq hb] at e
    cases e; simp

theorem ControlBlock.DecreaseWeakUsage_len {h h1 : Heap} {b : Nat}
    (e : ControlBlock.DecreaseWeakUsage h b = some h1) :
    h1.blocks.length = h.blocks.length := by
  cases hb : h.block b with
  | none => simp [ControlBlock.DecreaseWeakUsage, hb] at e
  | some blk =>
    rw [ControlBlock.DecreaseWeakUsage_eq hb] at e
    split at e
    · rw [deleteThis_len e]; simp
    · cases e; simp

theorem WeakPtr.SafeWeakDecrease_len {x r : WeakPtr} {h h1 : Heap}
    (e : x.SafeWeakDecrease h = some (r, h1)) : h1.blocks.length = h.blocks.length := by
  unfold WeakPtr.SafeWeakDecrease at e
  split at e
  · rename_i b hb
    cases hd : ControlBlock.DecreaseWeakUsage h b with
    | none => rw [hd] at e; cases e
    | some h2 =>
      rw [hd] at e
      cases e
      exact ControlBlock.DecreaseWeakUsage_len hd
  · cases e; rfl

theorem WeakPtr.SafeWeakIncrease_len {x : WeakPtr} {h h1 : Heap}
    (e : x.SafeWeakIncrease h = some h1) : h1.blocks.length = h.blocks.length := by
  unfold WeakPtr.SafeWeakIncrease at e
  split at e
  · exact ControlBlock.IncreaseWeakUsage_len e
  · cases e; rfl

theorem WeakPtr.assign_shared_len {x r : WeakPtr} {y : SharedPtr} {h h1 : Heap}
    (e : x.assign_shared y h = some (r, h1)) : h1.blocks.length = h.blocks.length := by
  unfold WeakPtr.assign_shared at e
  split at e
  · cases e; rfl
  · cases hd : x.SafeWeakDecrease h with
    | none => rw [hd] at e; cases e
    | some r1 =>
      obtain ⟨r0, hm⟩ := r1
      rw [hd] at e
      dsimp only at e
      cases hi : WeakPtr.SafeWeakIncrease ⟨y.ptr_, y.block_⟩ hm with
      | none => rw [hi] at e; cases e
      | some h2 =>
        rw [hi] at e
        cases e
        rw [WeakPtr.SafeWeakIncrease_len hi, WeakPtr.SafeWeakDecrease_len hd]

theorem EnableSharedFromThis.dtor_len {h h1 : Heap} {p : Nat}
    (e : EnableSharedFromThis.dtor h p = some h1) : h1.blocks.length = h.blocks.length := by
  unfold EnableSharedFromThis.dtor at e
  cases ho : h.object p with
  | none => rw [ho] at e; cases e
  | some o =>
    rw [ho] at e
    dsimp only at e
    cases ha : o.weak_this_.assign_shared SharedPtr.empty h with
    | none => rw [ha] at e; cases e
    | some r1 =>
      obtain ⟨w1, hm⟩ := r1
      rw [ha] at e
      dsimp only at e
      cases hd : w1.dtor hm with
      | none => rw [hd] at e; cases e
      | some r2 =>
        obtain ⟨w2, h2⟩ := r2
        rw [hd] at e
        cases e
        have s2 := WeakPtr.SafeWeakDecrease_len hd
        have s1 := WeakPtr.assign_shared_len ha
        simp only [Heap.setObject_blocks]
        rw [s2, s1]

theorem destroyT_len {esft : Bool} {h h1 : Heap} {p : Nat}
    (e : destroyT esft h p = some h1) : h1.blocks.length = h.blocks.length := by
  unfold destroyT at e
  cases esft
  · simp only [Bool.false_eq_true, if_false] at e
    cases ho : h.object p with
    | none => rw [ho] at e; cases e
    | some o =>
      rw [ho] at e
      cases e
      rfl
  · simp only [if_true] at e
    cases hd : EnableSharedFromThis.dtor h p with
    | none => rw [hd] at e; cases e
    | some h2 =>
      rw [hd] at e
      dsimp only at e
      cases ho : h2.object p with
      | none => rw [ho] at e; cases e
      | some o =>
        rw [ho] at e
        cases e
        simp only [Heap.logEvent_blocks, Heap.setObject_blocks]
        exact EnableSharedFromThis.dtor_len hd

theorem deleteObject_len {esft : Bool} {h h1 : Heap} {q : Option Nat}
    (e : deleteObject esft h q = some h1) : h1.blocks.length = h.blocks.length := by
  unfold deleteObject at e
  cases q with
  | none => cases e; rfl
  | some p => exact destroyT_len e

theorem BlockWithPointer.DecreaseUsage_len_ptr {esft : Bool} {h h1 : Heap} {b : Nat}
    (e : BlockWithPointer.DecreaseUsage esft h b = some h1) :
    h1.blocks.length = h.blocks.length := by
  unfold BlockWithPointer.DecreaseUsage at e
  cases hb : h.block b with
  | none => rw [hb] at e; cases e
  | some blk =>
    rw [hb] at e
    dsimp only at e
    have k : (h.setBlock b { blk with use_count_ := preDec blk.use_count_ }).blocks.length =
        h.blocks.length := by simp
    split at e
    · split at e
      · cases hr : resetWeakThis
            (h.setBlock b { blk with use_count_ := preDec blk.use_count_ }) blk.object_ with
        | none => rw [hr] at e; cases e
        | some h2 =>
          rw [hr] at e
          dsimp only at e
          cases hd : deleteObject esft h2 blk.object_ with
          | none => rw [hd] at e; cases e
          | some h3 =>
            rw [hd] at e
            dsimp only at e
            rw [deleteThis_len e, deleteObject_len hd, resetWeakThis_blocks hr, k]
      · cases hd : deleteObject esft
            (h.setBlock b { blk with use_count_ := preDec blk.use_count_ }) blk.object_ with
        | none => rw [hd] at e; cases e
        | some h2 =>
          rw [hd] at e
          dsimp only at e
          cases hb2 : h2.block b with
          | none => rw [hb2] at e; cases e
          | some blk2 =>
            rw [hb2] at e
            dsimp only at e
            split at e
            · rw [deleteThis_len e, deleteObject_len hd, k]
            · cases e
              rw [deleteObject_len hd, k]
    · split at e
      · rw [deleteThis_len e, k]
      · cases e
        exact k

theorem BlockWithObject.DecreaseUsage_len_obj {esft : Bool} {h h1 : Heap} {b : Nat}
    (e : BlockWithObject.DecreaseUsage esft h b = some h1) :
    h1.blocks.length = h.blocks.length := by
  cases hb : h.block b with
  | none => simp [BlockWithObject.DecreaseUsage, hb] at e
  | some blk =>
    cases ho : blk.object_ with
    | some p =>
      rw [BlockWithObject.DecreaseUsage_same_body hb ho] at e
      exact BlockWithPointer.DecreaseUsage_len_ptr e
    | none =>
      unfold BlockWithObject.DecreaseUsage at e
      rw [hb] at e
      dsimp only at e
      have k : (h.setBlock b { blk with use_count_ := preDec blk.use_count_ }).blocks.length =
          h.blocks.length := by simp
      split at e
      · split at e
        · cases hr : resetWeakThis
              (h.setBlock b { blk with use_count_ := preDec blk.use_count_ }) blk.object_ with
          | none => rw [hr] at e; cases e
          | some h2 =>
            rw [hr] at e
            dsimp only at e
            rw [ho] at e
            cases e
        · rw [ho] at e
          cases e
      · split at e
        · rw [deleteThis_len e, k]
        · cases e
          exact k

/-- `DecreaseUsage` allocates no block and frees no slot of the block list. -/
theorem ControlBlock.DecreaseUsage_len {esft : Bool} {h h1 : Heap} {b : Nat}
    (e : ControlBlock.DecreaseUsage esft h b = some h1) :
    h1.blocks.length = h.blocks.length := by
  unfold ControlBlock.DecreaseUsage at e
  cases hb : h.block b with
  | none => rw [hb] at e; cases e
  | some blk =>
    rw [hb] at e
    dsimp only at e
    split at e
    · exact BlockWithPointer.DecreaseUsage_len_ptr e
    · exact BlockWithObject.DecreaseUsage_len_obj e

/-! ## What each member function does to the counters of every block -/

theorem SharedPtr.SafeIncrease_delta {x : SharedPtr} {h h1 : Heap}
    (e : x.SafeIncrease h = some h1) (b : Nat) :
    (h.useCount b + 1 < SIZE_MOD → h1.useCount b = h.useCount b + x.unitAt b) ∧
      h1.weakCount b = h.weakCount b ∧ h1.blocks.length = h.blocks.length := by
  unfold SharedPtr.SafeIncrease at e
  cases hb : x.block_ with
  | none => rw [hb] at e; cases e; simp [SharedPtr.unitAt, hb]
  | some b0 =>
    rw [hb] at e
    dsimp only at e
    obtain ⟨d1, d2, -⟩ := ControlBlock.IncreaseUsage_counts e b
    refine ⟨?_, d2, ControlBlock.IncreaseUsage_len e⟩
    intro hfit
    rw [d1]
    by_cases hbb : b = b0
    · subst hbb; simp [SharedPtr.unitAt, hb, preInc_eq hfit]
    · have : ¬ (b0 = b) := fun e => hbb e.symm
      simp [SharedPtr.unitAt, hb, hbb, this]

theorem SharedPtr.SafeDecrease_delta {esft : Bool} {x r : SharedPtr} {h h1 : Heap}
    (e : x.SafeDecrease esft h = some (r, h1)) (b : Nat) :
    (x.unitAt b ≤ h.useCount b → h.useCount b < SIZE_MOD →
        h1.useCount b + x.unitAt b = h.useCount b) ∧
      (esft = false → h1.weakCount b = h.weakCount b) ∧
      h1.blocks.length = h.blocks.length := by
  unfold SharedPtr.SafeDecrease at e
  cases hb : x.block_ with
  | none => rw [hb] at e; cases e; simp [SharedPtr.unitAt, hb]
  | some b0 =>
    rw [hb] at e
    dsimp only at e
    cases hd : ControlBlock.DecreaseUsage esft h b0 with
    | none => rw [hd] at e; cases e
    | some h2 =>
      rw [hd] at e
      cases e
      obtain ⟨d1, d2⟩ := ControlBlock.DecreaseUsage_counts hd b
      refine ⟨?_, d2, ControlBlock.DecreaseUsage_len hd⟩
      intro hle hfit
      rw [d1]
      by_cases hbb : b = b0
      · subst hbb
        simp only [SharedPtr.unitAt, hb, if_true] at hle ⊢
        rw [preDec_eq (by omega) hfit]
        omega
      · have : ¬ (b0 = b) := fun e => hbb e.symm
        simp [SharedPtr.unitAt, hb, hbb, this]

theorem WeakPtr.SafeWeakIncrease_delta {x : WeakPtr} {h h1 : Heap}
    (e : x.SafeWeakIncrease h = some h1) (b : Nat) :
    h1.useCount b = h.useCount b ∧
      (h.weakCount b + 1 < SIZE_MOD → h1.weakCount b = h.weakCount b + x.unitAt b) ∧
      h1.blocks.length = h.blocks.length := by
  obtain ⟨d1, d2, -⟩ := WeakPtr.SafeWeakIncrease_counts e b
  refine ⟨d1, ?_, WeakPtr.SafeWeakIncrease_len e⟩
  intro hfit
  rw [d2]
  by_cases hb : x.block_ = some b
  · simp [WeakPtr.unitAt, hb, preInc_eq hfit]
  · simp [WeakPtr.unitAt, hb]

theorem WeakPtr.SafeWeakDecrease_delta {x r : WeakPtr} {h h1 : Heap}
    (e : x.SafeWeakDecrease h = some (r, h1)) (b : Nat) :
    h1.useCount b = h.useCount b ∧
      (x.unitAt b ≤ h.weakCount b → h.weakCount b < SIZE_MOD →
        h1.weakCount b + x.unitAt b = h.weakCount b) ∧
      h1.blocks.length = h.blocks.length := by
  obtain ⟨-, d1, d2, -⟩ := WeakPtr.SafeWeakDecrease_counts e b
  refine ⟨d1, ?_, WeakPtr.SafeWeakDecrease_len e⟩
  intro hle hfit
  rw [d2]
  by_cases hb : x.block_ = some b
  · simp only [WeakPtr.unitAt, hb, if_true] at hle ⊢
    rw [preDec_eq (by omega) hfit]
    omega
  · simp [WeakPtr.unitAt, hb]

theorem SharedPtr.unitAt_mk (x : SharedPtr) (b : Nat) :
    SharedPtr.unitAt ⟨x.ptr_, x.block_⟩ b = x.unitAt b := rfl

theorem SharedPtr.unitAt_none (q : Option Nat) (b : Nat) :
    SharedPtr.unitAt ⟨q, none⟩ b = 0 := rfl

theorem WeakPtr.weak_unitAt_none (q : Option Nat) (b : Nat) :
    WeakPtr.unitAt ⟨q, none⟩ b = 0 := rfl

/-- Copy and aliasing construction: one more unit on the block of the source. -/
theorem SharedPtr.ctor_alias_delta {x c : SharedPtr} {q : Option Nat} {h h1 : Heap}
    (e : SharedPtr.ctor_alias x q h = some (c, h1)) (b : Nat) :
    c = ⟨q, x.block_⟩ ∧ c.unitAt b = x.unitAt b ∧
      (h.useCount b + 1 < SIZE_MOD → h1.useCount b = h.useCount b + c.unitAt b) ∧
      h1.weakCount b = h.weakCount b ∧ h1.blocks.length = h.blocks.length := by
  have hc := SharedPtr.ctor_alias_result e
  unfold SharedPtr.ctor_alias at e
  dsimp only at e
  cases hi : SharedPtr.SafeIncrease ⟨q, x.block_⟩ h with
  | none => rw [hi] at e; cases e
  | some h2 =>
    rw [hi] at e
    cases e
    obtain ⟨d1, d2, d3⟩ := SharedPtr.SafeIncrease_delta hi b
    exact ⟨rfl, rfl, d1, d2, d3⟩

theorem SharedPtr.ctor_copy_delta {x c : SharedPtr} {h h1 : Heap}
    (e : SharedPtr.ctor_copy x h = some (c, h1)) (b : Nat) :
    c = x ∧
      (h.useCount b + 1 < SIZE_MOD → h1.useCount b = h.useCount b + c.unitAt b) ∧
      h1.weakCount b = h.weakCount b ∧ h1.blocks.length = h.blocks.length := by
  have e2 : SharedPtr.ctor_alias x x.ptr_ h = some (c, h1) := e
  obtain ⟨d0, -, d1, d2, d3⟩ := SharedPtr.ctor_alias_delta e2 b
  exact ⟨d0, d1, d2, d3⟩

/-- A handle made from a weak handle: empty with the heap untouched, or one more unit on a
block whose strong count was not zero. -/
theorem WeakPtr.Lock_delta {w : WeakPtr} {c : SharedPtr} {h h1 : Heap}
    (e : w.Lock h = some (c, h1)) (b : Nat) :
    (h.useCount b = 0 → c.unitAt b = 0) ∧
      (h.useCount b + 1 < SIZE_MOD → h1.useCount b = h.useCount b + c.unitAt b) ∧
      h1.weakCount b = h.weakCount b ∧ h1.blocks.length = h.blocks.length := by
  unfold WeakPtr.Lock at e
  cases he : w.Expired h with
  | none => rw [he] at e; cases e
  | some ex =>
    rw [he] at e
    cases ex with
    | true =>
      cases e
      exact ⟨fun _ => rfl, fun _ => rfl, rfl, rfl⟩
    | false =>
      dsimp only at e
      obtain ⟨b0, blk, hb, hblk, hne⟩ := WeakPtr.Expired_false he
      rw [hb] at e
      dsimp only at e
      cases hi : ControlBlock.IncreaseUsage h b0 with
      | none => rw [hi] at e; cases e
      | some h2 =>
        have hi2 : SharedPtr.SafeIncrease ⟨w.ptr_, some b0⟩ h = some h2 := hi
        rw [hi] at e
        cases e
        obtain ⟨d1, d2, d3⟩ := SharedPtr.SafeIncrease_delta hi2 b
        refine ⟨?_, d1, d2, d3⟩
        intro h0
        by_cases hbb : b0 = b
        · subst hbb
          rw [Heap.useCount_of_block hblk] at h0
          exact absurd h0 hne
        · simp [SharedPtr.unitAt, hbb]

theorem SharedPtr.ctor_weak_delta {w : WeakPtr} {r : Except BadWeakPtr SharedPtr}
    {h h1 : Heap} (e : SharedPtr.ctor_weak w h = some (r, h1)) (b : Nat) :
    (∀ c, r = Except.ok c →
      (h.useCount b = 0 → c.unitAt b = 0) ∧
      (h.useCount b + 1 < SIZE_MOD → h1.useCount b = h.useCount b + c.unitAt b)) ∧
      ((∃ x, r = Except.error x) → h1 = h) ∧
      h1.weakCount b = h.weakCount b ∧ h1.blocks.length = h.blocks.length := by
  unfold SharedPtr.ctor_weak at e
  dsimp only at e
  cases he : w.Expired h with
  | none => rw [he] at e; cases e
  | some ex =>
    rw [he] at e
    cases ex with
    | true =>
      cases e
      exact ⟨fun c hc => (by cases hc), fun _ => rfl, rfl, rfl⟩
    | false =>
      dsimp only at e
      obtain ⟨b0, blk, hb, hblk, hne⟩ := WeakPtr.Expired_false he
      cases hi : SharedPtr.SafeIncrease ⟨w.ptr_, w.block_⟩ h with
      | none => rw [hi] at e; cases e
      | some h2 =>
        rw [hi] at e
        cases e
        obtain ⟨d1, d2, d3⟩ := SharedPtr.SafeIncrease_delta hi b
        refine ⟨?_, ?_, d2, d3⟩
        · intro c hc
          cases hc
          refine ⟨?_, d1⟩
          intro h0
          by_cases hbb : b0 = b
          · subst hbb
            rw [Heap.useCount_of_block hblk] at h0
            exact absurd h0 hne
          · simp [SharedPtr.unitAt, hb, hbb]
        · rintro ⟨x, hx⟩
          cases hx

/-- Copy assignment: nothing happens, or the target releases its unit and takes one on the
block of the source. -/
theorem SharedPtr.assign_copy_delta {esft : Bool} {x y x1 : SharedPtr} {h h1 : Heap}
    (e : SharedPtr.assign_copy esft x y h = some (x1, h1)) (b : Nat) :
    (x1.unitAt b = x.unitAt b ∨ x1.unitAt b = y.unitAt b) ∧
      (x.unitAt b ≤ h.useCount b → h.useCount b + 1 < SIZE_MOD →
        h1.useCount b + x.unitAt b = h.useCount b + x1.unitAt b) ∧
      (esft = false → h1.weakCount b = h.weakCount b) ∧
      h1.blocks.length = h.blocks.length := by
  unfold SharedPtr.assign_copy at e
  split at e
  · cases e
    exact ⟨Or.inl rfl, fun _ _ => rfl, fun _ => rfl, rfl⟩
  · cases hd : x.SafeDecrease esft h with
    | none => rw [hd] at e; cases e
    | some r1 =>
      obtain ⟨r0, hm⟩ := r1
      rw [hd] at e
      dsimp only at e
      cases hi : SharedPtr.SafeIncrease ⟨y.ptr_, y.block_⟩ hm with
      | none => rw [hi] at e; cases e
      | some h2 =>
        rw [hi] at e
        cases e
        obtain ⟨d1, d2, d3⟩ := SharedPtr.SafeDecrease_delta hd b
        obtain ⟨i1, i2, i3⟩ := SharedPtr.SafeIncrease_delta hi b
        refine ⟨Or.inr rfl, ?_, fun hf => i2.trans (d2 hf), i3.trans d3⟩
        intro hle hfit
        have a1 := d1 hle (by omega)
        have a2 := i1 (by omega)
        rw [SharedPtr.unitAt_mk] at a2 ⊢
        omega

/-- Move assignment: nothing happens, or the target releases its unit and takes over the
unit of the source, which is left empty. -/
theorem SharedPtr.assign_move_delta {esft : Bool} {x y x1 y1 : SharedPtr} {h h1 : Heap}
    (e : SharedPtr.assign_move esft x y h = some (x1, y1, h1)) (b : Nat) :
    ((y.ptr_ = x.ptr_ ∧ x1 = x ∧ y1 = y ∧ h1 = h) ∨
      (y.ptr_ ≠ x.ptr_ ∧ x1.unitAt b = y.unitAt b ∧ y1 = ⟨none, none⟩ ∧
        (x.unitAt b ≤ h.useCount b → h.useCount b < SIZE_MOD →
          h1.useCount b + x.unitAt b = h.useCount b))) ∧
      (esft = false → h1.weakCount b = h.weakCount b) ∧
      h1.blocks.length = h.blocks.length := by
  unfold SharedPtr.assign_move at e
  split at e
  · rename_i heq
    cases e
    exact ⟨Or.inl ⟨heq, rfl, rfl, rfl⟩, fun _ => rfl, rfl⟩
  · rename_i hne
    cases hd : x.SafeDecrease esft h with
    | none => rw [hd] at e; cases e
    | some r1 =>
      obtain ⟨r0, hm⟩ := r1
      rw [hd] at e
      have hr := SharedPtr.SafeDecrease_result hd
      subst hr
      cases e
      obtain ⟨d1, d2, d3⟩ := SharedPtr.SafeDecrease_delta hd b
      exact ⟨Or.inr ⟨hne, rfl, rfl, d1⟩, d2, d3⟩

theorem SharedPtr.Reset_delta {esft : Bool} {x x1 : SharedPtr} {h h1 : Heap}
    (e : SharedPtr.Reset esft x h = some (x1, h1)) (b : Nat) :
    x1 = ⟨none, none⟩ ∧
      (x.unitAt b ≤ h.useCount b → h.useCount b < SIZE_MOD →
        h1.useCount b + x.unitAt b = h.useCount b) ∧
      (esft = false → h1.weakCount b = h.weakCount b) ∧
      h1.blocks.length = h.blocks.length := by
  have hr := SharedPtr.Reset_result e
  unfold SharedPtr.Reset at e
  cases hd : x.SafeDecrease esft h with
  | none => rw [hd] at e; cases e
  | some r1 =>
    obtain ⟨r0, hm⟩ := r1
    rw [hd] at e
    cases e
    obtain ⟨d1, d2, d3⟩ := SharedPtr.SafeDecrease_delta hd b
    exact ⟨rfl, d1, d2, d3⟩

/-- `Reset(p)`: nothing happens, or the handle releases its unit and, for a non-null `p`,
owns a block allocated at the end of the block list. -/
theorem SharedPtr.Reset_ptr_delta {esft : Bool} {x x1 : SharedPtr} {q : Option Nat}
    {h h1 : Heap} (e : SharedPtr.Reset_ptr esft x q h = some (x1, h1)) (b : Nat) :
    (b < h.blocks.length → x1.unitAt b ≤ x.unitAt b) ∧
      (x.unitAt b ≤ h.useCount b → h.useCount b < SIZE_MOD →
        h1.useCount b + x.unitAt b = h.useCount b + x1.unitAt b) ∧
      (esft = false → h1.weakCount b = h.weakCount b) ∧
      h.blocks.length ≤ h1.blocks.length := by
  unfold SharedPtr.Reset_ptr at e
  split at e
  · cases e
    exact ⟨fun _ => Nat.le_refl _, fun _ _ => rfl, fun _ => rfl, Nat.le_refl _⟩
  · cases hd : x.SafeDecrease esft h with
    | none => rw [hd] at e; cases e
    | some r1 =>
      obtain ⟨r0, hm⟩ := r1
      rw [hd] at e
      dsimp only at e
      obtain ⟨d1, d2, d3⟩ := SharedPtr.SafeDecrease_delta hd b
      split at e
      · cases e
        refine ⟨fun _ => Nat.zero_le _, ?_, d2, Nat.le_of_eq d3.symm⟩
        intro hle hfit
        have := d1 hle hfit
        rw [SharedPtr.unitAt_none]
        omega
      · cases e
        obtain ⟨a1, a2⟩ := Heap.counts_alloc_add hm (BlockWithPointer.new q) hm.objects b
        have hu : SharedPtr.unitAt ⟨q, some hm.blocks.length⟩ b =
            if b = hm.blocks.length then 1 else 0 := by
          unfold SharedPtr.unitAt
          by_cases hbb : b = hm.blocks.length
          · subst hbb; simp
          · have : ¬ (hm.blocks.length = b) := fun e => hbb e.symm
            simp [hbb, this]
        have hnew : (BlockWithPointer.new q).use_count_ = 1 ∧
            (BlockWithPointer.new q).weak_count_ = 0 := ⟨rfl, rfl⟩
        rw [hnew.1] at a1
        rw [hnew.2] at a2
        refine ⟨?_, ?_, ?_, ?_⟩
        · intro hlt
          rw [hu, if_neg (by omega)]
          exact Nat.zero_le _
        · intro hle hfit
          have := d1 hle hfit
          rw [hu]
          have a1' : Heap.useCount
              { hm with blocks := hm.blocks ++ [BlockWithPointer.new q] } b =
              hm.useCount b + (if b = hm.blocks.length then 1 else 0) := a1
          omega
        · intro hf
          have a2' : Heap.weakCount
              { hm with blocks := hm.blocks ++ [BlockWithPointer.new q] } b =
              hm.weakCount b + (if b = hm.blocks.length then 0 else 0) := a2
          have := d2 hf
          simp only [ite_self, Nat.add_zero] at a2'
          omega
        · simp only [List.length_append, List.length_cons, List.length_nil]
          omega

theorem SharedPtr.InitWeakThis_delta {x : SharedPtr} {q : Option Nat} {h h1 : Heap}
    (e : x.InitWeakThis h q = some h1) (b : Nat) :
    h1.useCount b = h.useCount b ∧ h1.blocks.length = h.blocks.length := by
  unfold SharedPtr.InitWeakThis at e
  cases q with
  | none => cases e
  | some p =>
    dsimp only at e
    cases ho : h.object p with
    | none => rw [ho] at e; cases e
    | some o =>
      rw [ho] at e
      dsimp only at e
      cases ha : o.weak_this_.assign_shared x h with
      | none => rw [ha] at e; cases e
      | some r1 =>
        obtain ⟨w1, hm⟩ := r1
        rw [ha] at e
        cases e
        have hl := WeakPtr.assign_shared_len ha
        have hu : hm.useCount b = h.useCount b := by
          rcases WeakPtr.assign_shared_counts ha with ⟨-, -, rfl⟩ | ⟨-, -, -, hx, hx1, hx2⟩
          · rfl
          · exact (hx2 b).1.trans (hx1 b).1
        exact ⟨hu, hl⟩

theorem SharedPtr.unitAt_at (q : Option Nat) (n b : Nat) :
    SharedPtr.unitAt ⟨q, some n⟩ b = if b = n then 1 else 0 := by
  unfold SharedPtr.unitAt
  by_cases hbb : b = n
  · subst hbb; simp
  · have : ¬ (n = b) := fun e => hbb e.symm
    simp [hbb, this]

/-- `SharedPtr(T*)`: a block with one strong unit at the end of the block list. -/
theorem SharedPtr.ctor_ptr_delta {esft : Bool} {q : Option Nat} {c : SharedPtr}
    {h h1 : Heap} (e : SharedPtr.ctor_ptr esft q h = some (c, h1)) (b : Nat) :
    c = ⟨q, some h.blocks.length⟩ ∧
      h1.useCount b = h.useCount b + c.unitAt b ∧
      (esft = false → h1.weakCount b = h.weakCount b) ∧
      h1.blocks.length = h.blocks.length + 1 := by
  have hc := SharedPtr.ctor_ptr_result e
  subst hc
  obtain ⟨a1, a2⟩ := Heap.counts_alloc_add h (BlockWithPointer.new q) h.objects b
  have a1' : Heap.useCount { h with blocks := h.blocks ++ [BlockWithPointer.new q] } b =
      h.useCount b + (if b = h.blocks.length then 1 else 0) := a1
  have a2' : Heap.weakCount { h with blocks := h.blocks ++ [BlockWithPointer.new q] } b =
      h.weakCount b + (if b = h.blocks.length then 0 else 0) := a2
  simp only [ite_self, Nat.add_zero] at a2'
  rw [SharedPtr.unitAt_at]
  cases esft with
  | false =>
    rw [SharedPtr.ctor_ptr_plain] at e
    cases e
    exact ⟨rfl, a1', fun _ => a2', by simp⟩
  | true =>
    unfold SharedPtr.ctor_ptr at e
    simp only [if_true] at e
    cases hi : SharedPtr.InitWeakThis ⟨q, some h.blocks.length⟩
        { h with blocks := h.blocks ++ [BlockWithPointer.new q] } q with
    | none => rw [hi] at e; cases e
    | some h2 =>
      rw [hi] at e
      cases e
      obtain ⟨i1, i2⟩ := SharedPtr.InitWeakThis_delta hi b
      refine ⟨rfl, i1.trans a1', fun hf => Bool.noConfusion hf, ?_⟩
      rw [i2]; simp

/-- `MakeShared`: a block with one strong unit at the end of the block list. -/
theorem MakeShared_delta {esft : Bool} {c : SharedPtr} {h h1 : Heap}
    (e : MakeShared esft h = some (c, h1)) (b : Nat) :
    c = ⟨some h.objects.length, some h.blocks.length⟩ ∧
      h1.useCount b = h.useCount b + c.unitAt b ∧
      (esft = false → h1.weakCount b = h.weakCount b) ∧
      h1.blocks.length = h.blocks.length + 1 := by
  have hc := MakeShared_result e
  subst hc
  obtain ⟨a1, a2⟩ := Heap.counts_alloc_add h (BlockWithObject.new h.objects.length)
    (h.objects ++ [⟨WeakPtr.empty, false⟩]) b
  have a1' : Heap.useCount { h with
        blocks := h.blocks ++ [BlockWithObject.new h.objects.length],
        objects := h.objects ++ [⟨WeakPtr.empty, false⟩] } b =
      h.useCount b + (if b = h.blocks.length then 1 else 0) := a1
  have a2' : Heap.weakCount { h with
        blocks := h.blocks ++ [BlockWithObject.new h.objects.length],
        objects := h.objects ++ [⟨WeakPtr.empty, false⟩] } b =
      h.weakCount b + (if b = h.blocks.length then 0 else 0) := a2
  simp only [ite_self, Nat.add_zero] at a2'
  rw [SharedPtr.unitAt_at]
  cases esft with
  | false =>
    rw [MakeShared_plain] at e
    cases e
    exact ⟨rfl, a1', fun _ => a2', by simp⟩
  | true =>
    unfold MakeShared at e
    simp only [if_true] at e
    cases hi : SharedPtr.InitWeakThis ⟨some h.objects.length, some h.blocks.length⟩
        { h with blocks := h.blocks ++ [BlockWithObject.new h.objects.length],
                 objects := h.objects ++ [⟨WeakPtr.empty, false⟩] }
        (SharedPtr.Get ⟨some h.objects.length, some h.blocks.length⟩) with
    | none => rw [hi] at e; cases e
    | some h2 =>
      rw [hi] at e
      cases e
      obtain ⟨i1, i2⟩ := SharedPtr.InitWeakThis_delta hi b
      refine ⟨rfl, i1.trans a1', fun hf => Bool.noConfusion hf, ?_⟩
      rw [i2]; simp

theorem EnableSharedFromThis.SharedFromThis_delta {p : Nat} {c : SharedPtr} {h h1 : Heap}
    (e : EnableSharedFromThis.SharedFromThis h p = some (c, h1)) (b : Nat) :
    (h.useCount b = 0 → c.unitAt b = 0) ∧
      (h.useCount b + 1 < SIZE_MOD → h1.useCount b = h.useCount b + c.unitAt b) ∧
      h1.weakCount b = h.weakCount b ∧ h1.blocks.length = h.blocks.length := by
  unfold EnableSharedFromThis.SharedFromThis at e
  cases ho : h.object p with
  | none => rw [ho] at e; cases e
  | some o =>
    rw [ho] at e
    exact WeakPtr.Lock_delta e b

/-- Construction of a weak handle from a handle: one more weak unit on its block. -/
theorem WeakPtr.ctor_shared_delta {x : SharedPtr} {c : WeakPtr} {h h1 : Heap}
    (e : WeakPtr.ctor_shared x h = some (c, h1)) (b : Nat) :
    c = ⟨x.ptr_, x.block_⟩ ∧ h1.useCount b = h.useCount b ∧
      (h.weakCount b + 1 < SIZE_MOD → h1.weakCount b = h.weakCount b + c.unitAt b) ∧
      h1.blocks.length = h.blocks.length := by
  unfold WeakPtr.ctor_shared at e
  dsimp only at e
  cases hi : WeakPtr.SafeWeakIncrease ⟨x.ptr_, x.block_⟩ h with
  | none => rw [hi] at e; cases e
  | some h2 =>
    rw [hi] at e
    cases e
    obtain ⟨d1, d2, d3⟩ := WeakPtr.SafeWeakIncrease_delta hi b
    exact ⟨rfl, d1, d2, d3⟩

theorem WeakPtr.weak_ctor_copy_delta {w c : WeakPtr} {h h1 : Heap}
    (e : WeakPtr.ctor_copy w h = some (c, h1)) (b : Nat) :
    c = w ∧ h1.useCount b = h.useCount b ∧
      (h.weakCount b + 1 < SIZE_MOD → h1.weakCount b = h.weakCount b + c.unitAt b) ∧
      h1.blocks.length = h.blocks.length := by
  have e2 : WeakPtr.ctor_shared ⟨w.ptr_, w.block_⟩ h = some (c, h1) := e
  exact WeakPtr.ctor_shared_delta e2 b

theorem EnableSharedFromThis.WeakFromThis_delta {p : Nat} {c : WeakPtr} {h h1 : Heap}
    (e : EnableSharedFromThis.WeakFromThis h p = some (c, h1)) (b : Nat) :
    h1.useCount b = h.useCount b ∧ h1.blocks.length = h.blocks.length := by
  unfold EnableSharedFromThis.WeakFromThis at e
  cases ho : h.object p with
  | none => rw [ho] at e; cases e
  | some o =>
    rw [ho] at e
    obtain ⟨-, d1, -, d3⟩ := WeakPtr.weak_ctor_copy_delta e b
    exact ⟨d1, d3⟩

/-- Assignment to a weak handle from a handle: nothing happens, or the target releases its
weak unit and takes one on the block of the source. -/
theorem WeakPtr.assign_shared_delta {x x1 : WeakPtr} {y : SharedPtr} {h h1 : Heap}
    (e : WeakPtr.assign_shared x y h = some (x1, h1)) (b : Nat) :
    h1.useCount b = h.useCount b ∧
      (x.unitAt b ≤ h.weakCount b → h.weakCount b + 1 < SIZE_MOD →
        h1.weakCount b + x.unitAt b = h.weakCount b + x1.unitAt b) ∧
      h1.blocks.length = h.blocks.length := by
  unfold WeakPtr.assign_shared at e
  split at e
  · cases e
    exact ⟨rfl, fun _ _ => rfl, rfl⟩
  · cases hd : x.SafeWeakDecrease h with
    | none => rw [hd] at e; cases e
    | some r1 =>
      obtain ⟨r0, hm⟩ := r1
      rw [hd] at e
      dsimp only at e
      cases hi : WeakPtr.SafeWeakIncrease ⟨y.ptr_, y.block_⟩ hm with
      | none => rw [hi] at e; cases e
      | some h2 =>
        rw [hi] at e
        cases e
        obtain ⟨d1, d2, d3⟩ := WeakPtr.SafeWeakDecrease_delta hd b
        obtain ⟨i1, i2, i3⟩ := WeakPtr.SafeWeakIncrease_delta hi b
        refine ⟨i1.trans d1, ?_, i3.trans d3⟩
        intro hle hfit
        have a1 := d2 hle (by omega)
        have a2 := i2 (by omega)
        omega

theorem WeakPtr.weak_assign_copy_delta {x y x1 : WeakPtr} {h h1 : Heap}
    (e : WeakPtr.assign_copy x y h = some (x1, h1)) (b : Nat) :
    h1.useCount b = h.useCount b ∧
      (x.unitAt b ≤ h.weakCount b → h.weakCount b + 1 < SIZE_MOD →
        h1.weakCount b + x.unitAt b = h.weakCount b + x1.unitAt b) ∧
      h1.blocks.length = h.blocks.length := by
  have e2 : WeakPtr.assign_shared x ⟨y.ptr_, y.block_⟩ h = some (x1, h1) := e
  exact WeakPtr.assign_shared_delta e2 b

theorem WeakPtr.weak_assign_move_delta {x y x1 y1 : WeakPtr} {h h1 : Heap}
    (e : WeakPtr.assign_move x y h = some (x1, y1, h1)) (b : Nat) :
    ((y.ptr_ = x.ptr_ ∧ x1 = x ∧ y1 = y ∧ h1 = h) ∨
      (y.ptr_ ≠ x.ptr_ ∧ x1.unitAt b = y.unitAt b ∧ y1 = ⟨none, none⟩ ∧
        (x.unitAt b ≤ h.weakCount b → h.weakCount b < SIZE_MOD →
          h1.weakCount b + x.unitAt b = h.weakCount b))) ∧
      h1.useCount b = h.useCount b ∧
      h1.blocks.length = h.blocks.length := by
  unfold WeakPtr.assign_move at e
  split at e
  · rename_i heq
    cases e
    exact ⟨Or.inl ⟨heq, rfl, rfl, rfl⟩, rfl, rfl⟩
  · rename_i hne
    cases hd : x.SafeWeakDecrease h with
    | none => rw [hd] at e; cases e
    | some r1 =>
      obtain ⟨r0, hm⟩ := r1
      rw [hd] at e
      have hr := WeakPtr.SafeWeakDecrease_result hd
      subst hr
      cases e
      obtain ⟨d1, d2, d3⟩ := WeakPtr.SafeWeakDecrease_delta hd b
      exact ⟨Or.inr ⟨hne, rfl, rfl, d2⟩, d1, d3⟩

/-! ## Accounting is kept by every statement -/

theorem Sys.AcctStep.skip {esft : Bool} {s : Sys} (HS : s.StrongAcct) :
    Sys.AcctStep esft s s :=
  ⟨HS, fun _ HW => HW, by omega, Nat.le_refl _, fun _ _ h0 => h0⟩

/-- A statement that declares a `SharedPtr` variable. -/
theorem Sys.AcctStep.append_shared {esft : Bool} {s : Sys} {c : SharedPtr} {h1 : Heap}
    (HS : s.StrongAcct) (hfit : s.shared.length + s.weak.length + 1 < SIZE_MOD)
    (hu : ∀ b, s.heap.useCount b + 1 < SIZE_MOD →
      h1.useCount b = s.heap.useCount b + c.unitAt b)
    (hw : esft = false → ∀ b, h1.weakCount b = s.heap.weakCount b)
    (hl : s.heap.blocks.length ≤ h1.blocks.length)
    (hz : ∀ b, b < s.heap.blocks.length → s.heap.useCount b = 0 → c.unitAt b = 0) :
    Sys.AcctStep esft s ⟨h1, s.shared ++ [c], s.weak⟩ := by
  refine ⟨fun b => ?_, fun hf HW b => ?_, ?_, hl, fun b hb h0 => ?_⟩
  · have := HS b
    have := strongHolders_append s.shared c b
    have := strongHolders_le_length s.shared b
    have := hu b (by omega)
    show h1.useCount b = strongHolders (s.shared ++ [c]) b
    omega
  · show h1.weakCount b = weakHolders s.weak b
    rw [hw hf b]; exact HW b
  · simp only [List.length_append, List.length_cons, List.length_nil]; omega
  · show strongHolders (s.shared ++ [c]) b = 0
    rw [strongHolders_append, h0, hz b hb (by rw [HS b]; exact h0)]

/-- A statement that changes one `SharedPtr` variable. -/
theorem Sys.AcctStep.set_shared {esft : Bool} {s : Sys} {i : Nat} {x x1 : SharedPtr}
    {h1 : Heap} (HS : s.StrongAcct) (hfit : s.shared.length + s.weak.length + 1 < SIZE_MOD)
    (hx : s.shared[i]? = some x)
    (hu : ∀ b, x.unitAt b ≤ s.heap.useCount b → s.heap.useCount b + 1 < SIZE_MOD →
      h1.useCount b + x.unitAt b = s.heap.useCount b + x1.unitAt b)
    (hw : esft = false → ∀ b, h1.weakCount b = s.heap.weakCount b)
    (hl : s.heap.blocks.length ≤ h1.blocks.length)
    (hz : ∀ b, b < s.heap.blocks.length → strongHolders s.shared b = 0 → x1.unitAt b = 0) :
    Sys.AcctStep esft s ⟨h1, s.shared.set i x1, s.weak⟩ := by
  refine ⟨fun b => ?_, fun hf HW b => ?_, ?_, hl, fun b hb h0 => ?_⟩
  · have := HS b
    have := strongHolders_set x1 hx b
    have := unitAt_le_strongHolders hx b
    have := strongHolders_le_length s.shared b
    have := hu b (by omega) (by omega)
    show h1.useCount b = strongHolders (s.shared.set i x1) b
    omega
  · show h1.weakCount b = weakHolders s.weak b
    rw [hw hf b]; exact HW b
  · simp only [List.length_set]; omega
  · have := strongHolders_set x1 hx b
    have := hz b hb h0
    show strongHolders (s.shared.set i x1) b = 0
    omega

/-- A statement that ends the lifetime of a `SharedPtr` variable. -/
theorem Sys.AcctStep.erase_shared {esft : Bool} {s : Sys} {i : Nat} {x : SharedPtr}
    {h1 : Heap} (HS : s.StrongAcct) (hfit : s.shared.length + s.weak.length + 1 < SIZE_MOD)
    (hx : s.shared[i]? = some x)
    (hu : ∀ b, x.unitAt b ≤ s.heap.useCount b → s.heap.useCount b < SIZE_MOD →
      h1.useCount b + x.unitAt b = s.heap.useCount b)
    (hw : esft = false → ∀ b, h1.weakCount b = s.heap.weakCount b)
    (hl : s.heap.blocks.length ≤ h1.blocks.length) :
    Sys.AcctStep esft s ⟨h1, s.shared.eraseIdx i, s.weak⟩ := by
  have hlen : (s.shared.eraseIdx i).length ≤ s.shared.length := by
    rw [List.length_eraseIdx]; split <;> omega
  refine ⟨fun b => ?_, fun hf HW b => ?_, ?_, hl, fun b hb h0 => ?_⟩
  · have := HS b
    have := strongHolders_eraseIdx hx b
    have := unitAt_le_strongHolders hx b
    have := strongHolders_le_length s.shared b
    have := hu b (by omega) (by omega)
    show h1.useCount b = strongHolders (s.shared.eraseIdx i) b
    omega
  · show h1.weakCount b = weakHolders s.weak b
    rw [hw hf b]; exact HW b
  · show (s.shared.eraseIdx i).length + s.weak.length ≤ _
    omega
  · have := strongHolders_eraseIdx hx b
    show strongHolders (s.shared.eraseIdx i) b = 0
    omega

/-- A statement that declares a `WeakPtr` variable. -/
theorem Sys.AcctStep.append_weak {esft : Bool} {s : Sys} {c : WeakPtr} {h1 : Heap}
    (HS : s.StrongAcct) (hfit : s.shared.length + s.weak.length + 1 < SIZE_MOD)
    (hu : ∀ b, h1.useCount b = s.heap.useCount b)
    (hw : esft = false → ∀ b, s.heap.weakCount b + 1 < SIZE_MOD →
      h1.weakCount b = s.heap.weakCount b + c.unitAt b)
    (hl : s.heap.blocks.length ≤ h1.blocks.length) :
    Sys.AcctStep esft s ⟨h1, s.shared, s.weak ++ [c]⟩ := by
  refine ⟨fun b => ?_, fun hf HW b => ?_, ?_, hl, fun b _ h0 => h0⟩
  · show h1.useCount b = strongHolders s.shared b
    rw [hu b]; exact HS b
  · have := HW b
    have := weakHolders_append s.weak c b
    have := weakHolders_le_length s.weak b
    have := hw hf b (by omega)
    show h1.weakCount b = weakHolders (s.weak ++ [c]) b
    omega
  · simp only [List.length_append, List.length_cons, List.length_nil]; omega

/-- A statement that changes one `WeakPtr` variable. -/
theorem Sys.AcctStep.set_weak {esft : Bool} {s : Sys} {j : Nat} {x x1 : WeakPtr}
    {h1 : Heap} (HS : s.StrongAcct) (hfit : s.shared.length + s.weak.length + 1 < SIZE_MOD)
    (hx : s.weak[j]? = some x)
    (hu : ∀ b, h1.useCount b = s.heap.useCount b)
    (hw : ∀ b, x.unitAt b ≤ s.heap.weakCount b → s.heap.weakCount b + 1 < SIZE_MOD →
      h1.weakCount b + x.unitAt b = s.heap.weakCount b + x1.unitAt b)
    (hl : s.heap.blocks.length ≤ h1.blocks.length) :
    Sys.AcctStep esft s ⟨h1, s.shared, s.weak.set j x1⟩ := by
  refine ⟨fun b => ?_, fun hf HW b => ?_, ?_, hl, fun b _ h0 => h0⟩
  · show h1.useCount b = strongHolders s.shared b
    rw [hu b]; exact HS b
  · have := HW b
    have := weakHolders_set x1 hx b
    have := unitAt_le_weakHolders hx b
    have := weakHolders_le_length s.weak b
    have := hw b (by omega) (by omega)
    show h1.weakCount b = weakHolders (s.weak.set j x1) b
    omega
  · simp only [List.length_set]; omega

/-- A statement that ends the lifetime of a `WeakPtr` variable. -/
theorem Sys.AcctStep.erase_weak {esft : Bool} {s : Sys} {j : Nat} {x : WeakPtr}
    {h1 : Heap} (HS : s.StrongAcct) (hfit : s.shared.length + s.weak.length + 1 < SIZE_MOD)
    (hx : s.weak[j]? = some x)
    (hu : ∀ b, h1.useCount b = s.heap.useCount b)
    (hw : ∀ b, x.unitAt b ≤ s.heap.weakCount b → s.heap.weakCount b < SIZE_MOD →
      h1.weakCount b + x.unitAt b = s.heap.weakCount b)
    (hl : s.heap.blocks.length ≤ h1.blocks.length) :
    Sys.AcctStep esft s ⟨h1, s.shared, s.weak.eraseIdx j⟩ := by
  have hlen : (s.weak.eraseIdx j).length ≤ s.weak.length := by
    rw [List.length_eraseIdx]; split <;> omega
  refine ⟨fun b => ?_, fun hf HW b => ?_, ?_, hl, fun b _ h0 => h0⟩
  · show h1.useCount b = strongHolders s.shared b
    rw [hu b]; exact HS b
  · have := HW b
    have := weakHolders_eraseIdx hx b
    have := unitAt_le_weakHolders hx b
    have := weakHolders_le_length s.weak b
    have := hw b (by omega) (by omega)
    show h1.weakCount b = weakHolders (s.weak.eraseIdx j) b
    omega
  · show s.shared.length + (s.weak.eraseIdx j).length ≤ _
    omega

/-- A statement that only rearranges the `SharedPtr` variables. -/
theorem Sys.AcctStep.permute_shared {esft : Bool} {s : Sys} {l : List SharedPtr}
    (HS : s.StrongAcct) (hlen : l.length ≤ s.shared.length + 1)
    (hh : ∀ b, strongHolders l b = strongHolders s.shared b) :
    Sys.AcctStep esft s ⟨s.heap, l, s.weak⟩ := by
  refine ⟨fun b => ?_, fun _ HW => HW, ?_, Nat.le_refl _, fun b _ h0 => ?_⟩
  · show s.heap.useCount b = strongHolders l b
    rw [hh b]; exact HS b
  · show l.length + s.weak.length ≤ _
    omega
  · show strongHolders l b = 0
    rw [hh b]; exact h0

/-- A statement that only rearranges the `WeakPtr` variables. -/
theorem Sys.AcctStep.permute_weak {esft : Bool} {s : Sys} {l : List WeakPtr}
    (HS : s.StrongAcct) (hlen : l.length ≤ s.weak.length + 1)
    (hh : ∀ b, weakHolders l b = weakHolders s.weak b) :
    Sys.AcctStep esft s ⟨s.heap, s.shared, l⟩ := by
  refine ⟨HS, fun _ HW b => ?_, ?_, Nat.le_refl _, fun b _ h0 => h0⟩
  · show s.heap.weakCount b = weakHolders l b
    rw [hh b]; exact HW b
  · show s.shared.length + l.length ≤ _
    omega

theorem getElem?_set_other {α : Type} {l : List α} {i j : Nat} {x y : α}
    (h : l[i]? = some x) (hij : j ≠ i) : (l.set j y)[i]? = some x := by
  rw [List.getElem?_set_ne hij]; exact h

/-- Every statement of `Op` keeps the accounting. -/
theorem Sys.step_acct {esft : Bool} {s s1 : Sys} {op : Op}
    (e : s.step esft op = some s1) (HS : s.StrongAcct)
    (hfit : s.shared.length + s.weak.length + 1 < SIZE_MOD) :
    Sys.AcctStep esft s s1 := by
  have hskip : ∀ {t : Sys}, some s = some t → Sys.AcctStep esft s t := by
    intro t ht
    cases ht
    exact Sys.AcctStep.skip HS
  cases op with
  | sharedCopy i =>
    simp only [Sys.step] at e
    cases hx : s.shared[i]? with
    | none => rw [hx] at e; exact hskip e
    | some x =>
      rw [hx] at e
      dsimp only at e
      cases hc : SharedPtr.ctor_copy x s.heap with
      | none => rw [hc] at e; cases e
      | some r =>
        obtain ⟨c, h1⟩ := r
        rw [hc] at e
        cases e
        have D := fun b => SharedPtr.ctor_copy_delta hc b
        have hcx : c = x := (D 0).1
        subst hcx
        refine Sys.AcctStep.append_shared HS hfit (fun b => (D b).2.1)
          (fun _ b => (D b).2.2.1) (Nat.le_of_eq (D 0).2.2.2.symm) (fun b _ h0 => ?_)
        have := unitAt_le_strongHolders hx b
        have := HS b
        omega
  | sharedMove i =>
    simp only [Sys.step] at e
    cases hx : s.shared[i]? with
    | none => rw [hx] at e; exact hskip e
    | some x =>
      rw [hx] at e
      cases e
      refine Sys.AcctStep.permute_shared HS ?_ (fun b => ?_)
      · simp only [SharedPtr.ctor_move, List.length_append, List.length_set,
          List.length_cons, List.length_nil]; omega
      · have := strongHolders_set ⟨none, none⟩ hx b
        have := strongHolders_append (s.shared.set i ⟨none, none⟩) ⟨x.ptr_, x.block_⟩ b
        have h0 : SharedPtr.unitAt ⟨none, none⟩ b = 0 := rfl
        have h1 : SharedPtr.unitAt ⟨x.ptr_, x.block_⟩ b = x.unitAt b := rfl
        show strongHolders (s.shared.set i ⟨none, none⟩ ++ [⟨x.ptr_, x.block_⟩]) b = _
        omega
  | sharedAssign i j =>
    simp only [Sys.step] at e
    cases hx : s.shared[i]? with
    | none => rw [hx] at e; exact hskip e
    | some x =>
      cases hy : s.shared[j]? with
      | none => rw [hx, hy] at e; exact hskip e
      | some y =>
        rw [hx, hy] at e
        dsimp only at e
        cases hc : SharedPtr.assign_copy esft x y s.heap with
        | none => rw [hc] at e; cases e
        | some r =>
          obtain ⟨x1, h1⟩ := r
          rw [hc] at e
          cases e
          have D := fun b => SharedPtr.assign_copy_delta hc b
          refine Sys.AcctStep.set_shared HS hfit hx (fun b => (D b).2.1)
            (fun hf b => (D b).2.2.1 hf) (Nat.le_of_eq (D 0).2.2.2.symm) (fun b _ h0 => ?_)
          have := unitAt_le_strongHolders hx b
          have := unitAt_le_strongHolders hy b
          rcases (D b).1 with h | h <;> omega
  | sharedMoveAssign i j =>
    simp only [Sys.step] at e
    cases hx : s.shared[i]? with
    | none => rw [hx] at e; exact hskip e
    | some x =>
      cases hy : s.shared[j]? with
      | none => rw [hx, hy] at e; exact hskip e
      | some y =>
        rw [hx, hy] at e
        dsimp only at e
        cases hc : SharedPtr.assign_move esft x y s.heap with
        | none => rw [hc] at e; cases e
        | some r =>
          obtain ⟨x1, y1, h1⟩ := r
          rw [hc] at e
          cases e
          have D := fun b => SharedPtr.assign_move_delta hc b
          rcases (D 0).1 with ⟨-, rfl, rfl, rfl⟩ | ⟨hne, -, hy1, -⟩
          · rw [set_same hy, set_same hx]
            exact Sys.AcctStep.skip HS
          · subst hy1
            have hij : j ≠ i := by
              rintro rfl
              rw [hx] at hy
              cases hy
              exact hne rfl
            have hx2 := getElem?_set_other (y := (⟨none, none⟩ : SharedPtr)) hx hij
            have hmove : ∀ b, x1.unitAt b = y.unitAt b ∧
                (x.unitAt b ≤ s.heap.useCount b → s.heap.useCount b < SIZE_MOD →
                  h1.useCount b + x.unitAt b = s.heap.useCount b) := by
              intro b
              rcases (D b).1 with ⟨heq, -, -, -⟩ | ⟨-, h1', -, h2'⟩
              · exact absurd heq hne
              · exact ⟨h1', h2'⟩
            have hlen : s.heap.blocks.length ≤ h1.blocks.length :=
              Nat.le_of_eq (D 0).2.2.symm
            refine ⟨fun b => ?_, fun hf HW b => ?_, ?_, hlen, fun b hb h0 => ?_⟩
            · have := HS b
              have := strongHolders_set ⟨none, none⟩ hy b
              have := strongHolders_set x1 hx2 b
              have := unitAt_le_strongHolders hx2 b
              have := strongHolders_le_length s.shared b
              have h00 : SharedPtr.unitAt ⟨none, none⟩ b = 0 := rfl
              obtain ⟨m1, m2⟩ := hmove b
              have := m2 (by omega) (by omega)
              show h1.useCount b = strongHolders ((s.shared.set j ⟨none, none⟩).set i x1) b
              omega
            · show h1.weakCount b = weakHolders s.weak b
              rw [(D b).2.1 hf]; exact HW b
            · simp only [List.length_set]; omega
            · have := strongHolders_set ⟨none, none⟩ hy b
              have := strongHolders_set x1 hx2 b
              have h00 : SharedPtr.unitAt ⟨none, none⟩ b = 0 := rfl
              obtain ⟨m1, -⟩ := hmove b
              show strongHolders ((s.shared.set j ⟨none, none⟩).set i x1) b = 0
              omega
  | sharedReset i =>
    simp only [Sys.step] at e
    cases hx : s.shared[i]? with
    | none => rw [hx] at e; exact hskip e
    | some x =>
      rw [hx] at e
      dsimp only at e
      cases hc : SharedPtr.Reset esft x s.heap with
      | none => rw [hc] at e; cases e
      | some r =>
        obtain ⟨x1, h1⟩ := r
        rw [hc] at e
        cases e
        have D := fun b => SharedPtr.Reset_delta hc b
        have hx1 : x1 = ⟨none, none⟩ := (D 0).1
        subst hx1
        refine Sys.AcctStep.set_shared HS hfit hx (fun b hle hf => ?_)
          (fun hf b => (D b).2.2.1 hf) (Nat.le_of_eq (D 0).2.2.2.symm) (fun b _ _ => rfl)
        have := (D b).2.1 hle (by omega)
        have h00 : SharedPtr.unitAt ⟨none, none⟩ b = 0 := rfl
        omega
  | sharedDestroy i =>
    simp only [Sys.step] at e
    cases hx : s.shared[i]? with
    | none => rw [hx] at e; exact hskip e
    | some x =>
      rw [hx] at e
      dsimp only at e
      cases hc : SharedPtr.dtor esft x s.heap with
      | none => rw [hc] at e; cases e
      | some r =>
        obtain ⟨x1, h1⟩ := r
        rw [hc] at e
        cases e
        have D := fun b => SharedPtr.SafeDecrease_delta hc b
        exact Sys.AcctStep.erase_shared HS hfit hx (fun b => (D b).1)
          (fun hf b => (D b).2.1 hf) (Nat.le_of_eq (D 0).2.2.symm)
  | sharedFromWeak j =>
    simp only [Sys.step] at e
    cases hx : s.weak[j]? with
    | none => rw [hx] at e; exact hskip e
    | some w =>
      rw [hx] at e
      dsimp only at e
      cases hc : SharedPtr.ctor_weak w s.heap with
      | none => rw [hc] at e; cases e
      | some r =>
        obtain ⟨c, h1⟩ := r
        rw [hc] at e
        have D := fun b => SharedPtr.ctor_weak_delta hc b
        cases c with
        | error x =>
          cases e
          have hh : h1 = s.heap := (D 0).2.1 ⟨x, rfl⟩
          subst hh
          exact Sys.AcctStep.skip HS
        | ok c =>
          cases e
          exact Sys.AcctStep.append_shared HS hfit (fun b => ((D b).1 c rfl).2)
            (fun _ b => (D b).2.2.1) (Nat.le_of_eq (D 0).2.2.2.symm)
            (fun b _ h0 => ((D b).1 c rfl).1 h0)
  | lock j =>
    simp only [Sys.step] at e
    cases hx : s.weak[j]? with
    | none => rw [hx] at e; exact hskip e
    | some w =>
      rw [hx] at e
      dsimp only at e
      cases hc : w.Lock s.heap with
      | none => rw [hc] at e; cases e
      | some r =>
        obtain ⟨c, h1⟩ := r
        rw [hc] at e
        cases e
        have D := fun b => WeakPtr.Lock_delta hc b
        exact Sys.AcctStep.append_shared HS hfit (fun b => (D b).2.1)
          (fun _ b => (D b).2.2.1) (Nat.le_of_eq (D 0).2.2.2.symm)
          (fun b _ h0 => (D b).1 h0)
  | weakFromShared i =>
    simp only [Sys.step] at e
    cases hx : s.shared[i]? with
    | none => rw [hx] at e; exact hskip e
    | some x =>
      rw [hx] at e
      dsimp only at e
      cases hc : WeakPtr.ctor_shared x s.heap with
      | none => rw [hc] at e; cases e
      | some r =>
        obtain ⟨c, h1⟩ := r
        rw [hc] at e
        cases e
        have D := fun b => WeakPtr.ctor_shared_delta hc b
        exact Sys.AcctStep.append_weak HS hfit (fun b => (D b).2.1)
          (fun _ b => (D b).2.2.1) (Nat.le_of_eq (D 0).2.2.2.symm)
  | weakCopy j =>
    simp only [Sys.step] at e
    cases hx : s.weak[j]? with
    | none => rw [hx] at e; exact hskip e
    | some w =>
      rw [hx] at e
      dsimp only at e
      cases hc : WeakPtr.ctor_copy w s.heap with
      | none => rw [hc] at e; cases e
      | some r =>
        obtain ⟨c, h1⟩ := r
        rw [hc] at e
        cases e
        have D := fun b => WeakPtr.weak_ctor_copy_delta hc b
        exact Sys.AcctStep.append_weak HS hfit (fun b => (D b).2.1)
          (fun _ b => (D b).2.2.1) (Nat.le_of_eq (D 0).2.2.2.symm)
  | weakMove j =>
    simp only [Sys.step] at e
    cases hx : s.weak[j]? with
    | none => rw [hx] at e; exact hskip e
    | some w =>
      rw [hx] at e
      cases e
      refine Sys.AcctStep.permute_weak HS ?_ (fun b => ?_)
      · simp only [WeakPtr.ctor_move, List.length_append, List.length_set,
          List.length_cons, List.length_nil]; omega
      · have := weakHolders_set ⟨none, none⟩ hx b
        have := weakHolders_append (s.weak.set j ⟨none, none⟩) ⟨w.ptr_, w.block_⟩ b
        have h0 : WeakPtr.unitAt ⟨none, none⟩ b = 0 := rfl
        have h1 : WeakPtr.unitAt ⟨w.ptr_, w.block_⟩ b = w.unitAt b := rfl
        show weakHolders (s.weak.set j ⟨none, none⟩ ++ [⟨w.ptr_, w.block_⟩]) b = _
        omega
  | weakAssign j k =>
    simp only [Sys.step] at e
    cases hx : s.weak[j]? with
    | none => rw [hx] at e; exact hskip e
    | some x =>
      cases hy : s.weak[k]? with
      | none => rw [hx, hy] at e; exact hskip e
      | some y =>
        rw [hx, hy] at e
        dsimp only at e
        cases hc : WeakPtr.assign_copy x y s.heap with
        | none => rw [hc] at e; cases e
        | some r =>
          obtain ⟨x1, h1⟩ := r
          rw [hc] at e
          cases e
          have D := fun b => WeakPtr.weak_assign_copy_delta hc b
          exact Sys.AcctStep.set_weak HS hfit hx (fun b => (D b).1) (fun b => (D b).2.1)
            (Nat.le_of_eq (D 0).2.2.symm)
  | weakMoveAssign j k =>
    simp only [Sys.step] at e
    cases hx : s.weak[j]? with
    | none => rw [hx] at e; exact hskip e
    | some x =>
      cases hy : s.weak[k]? with
      | none => rw [hx, hy] at e; exact hskip e
      | some y =>
        rw [hx, hy] at e
        dsimp only at e
        cases hc : WeakPtr.assign_move x y s.heap with
        | none => rw [hc] at e; cases e
        | some r =>
          obtain ⟨x1, y1, h1⟩ := r
          rw [hc] at e
          cases e
          have D := fun b => WeakPtr.weak_assign_move_delta hc b
          rcases (D 0).1 with ⟨-, rfl, rfl, rfl⟩ | ⟨hne, -, hy1, -⟩
          · rw [set_same hy, set_same hx]
            exact Sys.AcctStep.skip HS
          · subst hy1
            have hjk : k ≠ j := by
              rintro rfl
              rw [hx] at hy
              cases hy
              exact hne rfl
            have hx2 := getElem?_set_other (y := (⟨none, none⟩ : WeakPtr)) hx hjk
            have hlen : s.heap.blocks.length ≤ h1.blocks.length :=
              Nat.le_of_eq (D 0).2.2.symm
            refine ⟨fun b => ?_, fun hf HW b => ?_, ?_, hlen, fun b _ h0 => h0⟩
            · show h1.useCount b = strongHolders s.shared b
              rw [(D b).2.1]; exact HS b
            · have := HW b
              have := weakHolders_set ⟨none, none⟩ hy b
              have := weakHolders_set x1 hx2 b
              have := unitAt_le_weakHolders hx2 b
              have := weakHolders_le_length s.weak b
              have h00 : WeakPtr.unitAt ⟨none, none⟩ b = 0 := rfl
              show h1.weakCount b = weakHolders ((s.weak.set k ⟨none, none⟩).set j x1) b
              rcases (D b).1 with ⟨heq, -, -, -⟩ | ⟨-, m1, -, m2⟩
              · exact absurd heq hne
              · have := m2 (by omega) (by omega)
                omega
            · simp only [List.length_set]; omega
  | weakAssignShared j i =>
    simp only [Sys.step] at e
    cases hx : s.weak[j]? with
    | none => rw [hx] at e; exact hskip e
    | some x =>
      cases hy : s.shared[i]? with
      | none => rw [hx, hy] at e; exact hskip e
      | some y =>
        rw [hx, hy] at e
        dsimp only at e
        cases hc : WeakPtr.assign_shared x y s.heap with
        | none => rw [hc] at e; cases e
        | some r =>
          obtain ⟨x1, h1⟩ := r
          rw [hc] at e
          cases e
          have D := fun b => WeakPtr.assign_shared_delta hc b
          exact Sys.AcctStep.set_weak HS hfit hx (fun b => (D b).1) (fun b => (D b).2.1)
            (Nat.le_of_eq (D 0).2.2.symm)
  | weakReset j =>
    simp only [Sys.step] at e
    cases hx : s.weak[j]? with
    | none => rw [hx] at e; exact hskip e
    | some x =>
      rw [hx] at e
      dsimp only at e
      cases hc : WeakPtr.Reset x s.heap with
      | none => rw [hc] at e; cases e
      | some r =>
        obtain ⟨x1, h1⟩ := r
        rw [hc] at e
        cases e
        have D := fun b => WeakPtr.SafeWeakDecrease_delta hc b
        have hx1 : x1 = ⟨none, none⟩ := WeakPtr.SafeWeakDecrease_result hc
        subst hx1
        refine Sys.AcctStep.set_weak HS hfit hx (fun b => (D b).1) (fun b hle hf => ?_)
          (Nat.le_of_eq (D 0).2.2.symm)
        have := (D b).2.1 hle (by omega)
        have h00 : WeakPtr.unitAt ⟨none, none⟩ b = 0 := rfl
        omega
  | weakDestroy j =>
    simp only [Sys.step] at e
    cases hx : s.weak[j]? with
    | none => rw [hx] at e; exact hskip e
    | some x =>
      rw [hx] at e
      dsimp only at e
      cases hc : WeakPtr.dtor x s.heap with
      | none => rw [hc] at e; cases e
      | some r =>
        obtain ⟨x1, h1⟩ := r
        rw [hc] at e
        cases e
        have D := fun b => WeakPtr.SafeWeakDecrease_delta hc b
        exact Sys.AcctStep.erase_weak HS hfit hx (fun b => (D b).1) (fun b => (D b).2.1)
          (Nat.le_of_eq (D 0).2.2.symm)

/-- Every public statement keeps the accounting. -/
theorem Sys.stepPub_acct {esft : Bool} {s s1 : Sys} {op : PubOp}
    (e : s.stepPub esft op = some s1) (HS : s.StrongAcct)
    (hfit : s.shared.length + s.weak.length + 1 < SIZE_MOD) :
    Sys.AcctStep esft s s1 := by
  have hskip : ∀ {t : Sys}, some s = some t → Sys.AcctStep esft s t := by
    intro t ht
    cases ht
    exact Sys.AcctStep.skip HS
  cases op with
  | handle op => exact Sys.step_acct e HS hfit
  | newT =>
    simp only [Sys.stepPub] at e
    cases e
    have hb : s.heap.newObject.2.blocks = s.heap.blocks := rfl
    refine ⟨fun b => ?_, fun _ HW b => ?_, Nat.le_succ _, Nat.le_refl _, fun _ _ h0 => h0⟩
    · show s.heap.newObject.2.useCount b = strongHolders s.shared b
      rw [(Heap.useCount_congr hb b).1]; exact HS b
    · show s.heap.newObject.2.weakCount b = weakHolders s.weak b
      rw [(Heap.useCount_congr hb b).2]; exact HW b
  | sharedDefault =>
    simp only [Sys.stepPub] at e
    cases e
    exact Sys.AcctStep.append_shared HS hfit (fun _ _ => rfl) (fun _ _ => rfl)
      (Nat.le_refl _) (fun _ _ _ => rfl)
  | sharedFromPtr p =>
    simp only [Sys.stepPub] at e
    cases hc : SharedPtr.ctor_ptr esft p s.heap with
    | none => rw [hc] at e; cases e
    | some r =>
      obtain ⟨c, h1⟩ := r
      rw [hc] at e
      cases e
      have D := fun b => SharedPtr.ctor_ptr_delta hc b
      refine Sys.AcctStep.append_shared HS hfit (fun b _ => (D b).2.1)
        (fun hf b => (D b).2.2.1 hf) (by rw [(D 0).2.2.2]; omega) (fun b hb _ => ?_)
      rw [(D 0).1, SharedPtr.unitAt_at, if_neg (by omega)]
  | makeShared =>
    simp only [Sys.stepPub] at e
    cases hc : MakeShared esft s.heap with
    | none => rw [hc] at e; cases e
    | some r =>
      obtain ⟨c, h1⟩ := r
      rw [hc] at e
      cases e
      have D := fun b => MakeShared_delta hc b
      refine Sys.AcctStep.append_shared HS hfit (fun b _ => (D b).2.1)
        (fun hf b => (D b).2.2.1 hf) (by rw [(D 0).2.2.2]; omega) (fun b hb _ => ?_)
      rw [(D 0).1, SharedPtr.unitAt_at, if_neg (by omega)]
  | sharedAlias i p =>
    simp only [Sys.stepPub] at e
    cases hx : s.shared[i]? with
    | none => rw [hx] at e; exact hskip e
    | some x =>
      rw [hx] at e
      dsimp only at e
      cases hc : SharedPtr.ctor_alias x p s.heap with
      | none => rw [hc] at e; cases e
      | some r =>
        obtain ⟨c, h1⟩ := r
        rw [hc] at e
        cases e
        have D := fun b => SharedPtr.ctor_alias_delta hc b
        refine Sys.AcctStep.append_shared HS hfit (fun b => (D b).2.2.1)
          (fun _ b => (D b).2.2.2.1) (Nat.le_of_eq (D 0).2.2.2.2.symm) (fun b _ h0 => ?_)
        have := unitAt_le_strongHolders hx b
        have := HS b
        have := (D b).2.1
        omega
  | sharedResetPtr i p =>
    simp only [Sys.stepPub] at e
    cases hx : s.shared[i]? with
    | none => rw [hx] at e; exact hskip e
    | some x =>
      rw [hx] at e
      dsimp only at e
      cases hc : SharedPtr.Reset_ptr esft x p s.heap with
      | none => rw [hc] at e; cases e
      | some r =>
        obtain ⟨x1, h1⟩ := r
        rw [hc] at e
        cases e
        have D := fun b => SharedPtr.Reset_ptr_delta hc b
        refine Sys.AcctStep.set_shared HS hfit hx (fun b hle hf => (D b).2.1 hle (by omega))
          (fun hf b => (D b).2.2.1 hf) (D 0).2.2.2 (fun b hb h0 => ?_)
        have := unitAt_le_strongHolders hx b
        have := (D b).1 hb
        omega
  | sharedSwap i j =>
    simp only [Sys.stepPub] at e
    cases hx : s.shared[i]? with
    | none => rw [hx] at e; exact hskip e
    | some x =>
      cases hy : s.shared[j]? with
      | none => rw [hx, hy] at e; exact hskip e
      | some y =>
        rw [hx, hy] at e
        cases e
        have hz : ∃ z : SharedPtr, (s.shared.set j ⟨x.ptr_, x.block_⟩)[i]? = some z ∧
            ∀ b, z.unitAt b = x.unitAt b := by
          by_cases hij : j = i
          · subst hij
            exact ⟨_, getElem?_set_same hy, fun _ => rfl⟩
          · exact ⟨x, getElem?_set_other hx hij, fun _ => rfl⟩
        obtain ⟨z, hz1, hz2⟩ := hz
        refine Sys.AcctStep.permute_shared HS ?_ (fun b => ?_)
        · simp only [SharedPtr.Swap, List.length_set]; omega
        · have := strongHolders_set ⟨x.ptr_, x.block_⟩ hy b
          have := strongHolders_set ⟨y.ptr_, y.block_⟩ hz1 b
          have := hz2 b
          have h1 : SharedPtr.unitAt ⟨x.ptr_, x.block_⟩ b = x.unitAt b := rfl
          have h2 : SharedPtr.unitAt ⟨y.ptr_, y.block_⟩ b = y.unitAt b := rfl
          show strongHolders ((s.shared.set j ⟨x.ptr_, x.block_⟩).set i
            ⟨y.ptr_, y.block_⟩) b = _
          omega
  | weakDefault =>
    simp only [Sys.stepPub] at e
    cases e
    exact Sys.AcctStep.append_weak HS hfit (fun _ => rfl) (fun _ _ _ => rfl) (Nat.le_refl _)
  | weakSwap j k =>
    simp only [Sys.stepPub] at e
    cases hx : s.weak[j]? with
    | none => rw [hx] at e; exact hskip e
    | some x =>
      cases hy : s.weak[k]? with
      | none => rw [hx, hy] at e; exact hskip e
      | some y =>
        rw [hx, hy] at e
        cases e
        have hz : ∃ z : WeakPtr, (s.weak.set k ⟨x.ptr_, x.block_⟩)[j]? = some z ∧
            ∀ b, z.unitAt b = x.unitAt b := by
          by_cases hjk : k = j
          · subst hjk
            exact ⟨_, getElem?_set_same hy, fun _ => rfl⟩
          · exact ⟨x, getElem?_set_other hx hjk, fun _ => rfl⟩
        obtain ⟨z, hz1, hz2⟩ := hz
        refine Sys.AcctStep.permute_weak HS ?_ (fun b => ?_)
        · simp only [WeakPtr.Swap, List.length_set]; omega
        · have := weakHolders_set ⟨x.ptr_, x.block_⟩ hy b
          have := weakHolders_set ⟨y.ptr_, y.block_⟩ hz1 b
          have := hz2 b
          have h1 : WeakPtr.unitAt ⟨x.ptr_, x.block_⟩ b = x.unitAt b := rfl
          have h2 : WeakPtr.unitAt ⟨y.ptr_, y.block_⟩ b = y.unitAt b := rfl
          show weakHolders ((s.weak.set k ⟨x.ptr_, x.block_⟩).set j
            ⟨y.ptr_, y.block_⟩) b = _
          omega
  | sharedFromThis p =>
    simp only [Sys.stepPub] at e
    split at e
    · cases hc : EnableSharedFromThis.SharedFromThis s.heap p with
      | none => rw [hc] at e; cases e
      | some r =>
        obtain ⟨c, h1⟩ := r
        rw [hc] at e
        cases e
        have D := fun b => EnableSharedFromThis.SharedFromThis_delta hc b
        exact Sys.AcctStep.append_shared HS hfit (fun b => (D b).2.1)
          (fun _ b => (D b).2.2.1) (Nat.le_of_eq (D 0).2.2.2.symm)
          (fun b _ h0 => (D b).1 h0)
    · exact hskip e
  | weakFromThis p =>
    simp only [Sys.stepPub] at e
    split at e
    · rename_i hes
      cases hc : EnableSharedFromThis.WeakFromThis s.heap p with
      | none => rw [hc] at e; cases e
      | some r =>
        obtain ⟨c, h1⟩ := r
        rw [hc] at e
        cases e
        have D := fun b => EnableSharedFromThis.WeakFromThis_delta hc b
        refine Sys.AcctStep.append_weak HS hfit (fun b => (D b).1) (fun hf => ?_)
          (Nat.le_of_eq (D 0).2.symm)
        rw [hf] at hes
        cases hes
    · exact hskip e

theorem Sys.init_acct : Sys.init.StrongAcct ∧ Sys.init.WeakAcct :=
  ⟨fun _ => rfl, fun _ => rfl⟩

/-- A successful run keeps the accounting; a block in the heap whose strong count is zero
keeps a zero strong count. -/
theorem Sys.runPub_acct {esft : Bool} (ops : List PubOp) :
    ∀ (s s1 : Sys), s.runPub esft ops = some s1 → s.StrongAcct →
      s.shared.length + s.weak.length + ops.length < SIZE_MOD →
      s1.StrongAcct ∧ (esft = false → s.WeakAcct → s1.WeakAcct) ∧
      s1.shared.length + s1.weak.length ≤ s.shared.length + s.weak.length + ops.length ∧
      s.heap.blocks.length ≤ s1.heap.blocks.length ∧
      ∀ b, b < s.heap.blocks.length → s.heap.useCount b = 0 → s1.heap.useCount b = 0 := by
  induction ops with
  | nil =>
    intro s s1 e HS _
    simp only [Sys.runPub] at e
    cases e
    exact ⟨HS, fun _ HW => HW, by simp, Nat.le_refl _, fun _ _ h0 => h0⟩
  | cons op ops ih =>
    intro s s1 e HS hfit
    simp only [Sys.runPub] at e
    simp only [List.length_cons] at hfit ⊢
    cases hs : s.stepPub esft op with
    | none => rw [hs] at e; cases e
    | some s2 =>
      rw [hs] at e
      dsimp only at e
      obtain ⟨A1, A2, A3, A4, A5⟩ := Sys.stepPub_acct hs HS (by omega)
      obtain ⟨B1, B2, B3, B4, B5⟩ := ih s2 s1 e A1 (by omega)
      refine ⟨B1, fun hf HW => B2 hf (A2 hf HW), by omega, by omega, fun b hb h0 => ?_⟩
      apply B5 b (by omega)
      rw [A1 b]
      exact A5 b hb (by rw [← HS b]; exact h0)

/-- The two outcomes of `Lock`. -/
theorem WeakPtr.Lock_cases {w : WeakPtr} {c : SharedPtr} {h h1 : Heap}
    (e : w.Lock h = some (c, h1)) :
    (w.Expired h = some true ∧ c = SharedPtr.empty ∧ h1 = h) ∨
    (w.Expired h = some false ∧ c = ⟨w.ptr_, w.block_⟩ ∧
      ∃ b, w.block_ = some b ∧ h.useCount b ≠ 0) := by
  unfold WeakPtr.Lock at e
  cases he : w.Expired h with
  | none => rw [he] at e; cases e
  | some ex =>
    rw [he] at e
    cases ex with
    | true =>
      cases e
      exact Or.inl ⟨rfl, rfl, rfl⟩
    | false =>
      dsimp only at e
      obtain ⟨b0, blk, hb, hblk, hne⟩ := WeakPtr.Expired_false he
      rw [hb] at e
      dsimp only at e
      cases hi : ControlBlock.IncreaseUsage h b0 with
      | none => rw [hi] at e; cases e
      | some h2 =>
        rw [hi] at e
        cases e
        refine Or.inr ⟨rfl, by rw [hb], b0, hb, ?_⟩
        rw [Heap.useCount_of_block hblk]
        exact hne

/-- The two outcomes of `SharedPtr(const WeakPtr&)`. -/
theorem SharedPtr.ctor_weak_cases {w : WeakPtr} {r : Except BadWeakPtr SharedPtr}
    {h h1 : Heap} (e : SharedPtr.ctor_weak w h = some (r, h1)) :
    (w.Expired h = some true ∧ r = Except.error BadWeakPtr.thrown ∧ h1 = h) ∨
    (w.Expired h = some false ∧ r = Except.ok ⟨w.ptr_, w.block_⟩ ∧
      ∃ b, w.block_ = some b ∧ h.useCount b ≠ 0) := by
  unfold SharedPtr.ctor_weak at e
  dsimp only at e
  cases he : w.Expired h with
  | none => rw [he] at e; cases e
  | some ex =>
    rw [he] at e
    cases ex with
    | true =>
      cases e
      exact Or.inl ⟨rfl, rfl, rfl⟩
    | false =>
      dsimp only at e
      obtain ⟨b0, blk, hb, hblk, hne⟩ := WeakPtr.Expired_false he
      cases hi : SharedPtr.SafeIncrease ⟨w.ptr_, w.block_⟩ h with
      | none => rw [hi] at e; cases e
      | some h2 =>
        rw [hi] at e
        cases e
        refine Or.inr ⟨rfl, rfl, b0, hb, ?_⟩
        rw [Heap.useCount_of_block hblk]
        exact hne

/-- No `IncreaseUsage` from a weak handle on a block whose strong count is zero. -/
theorem WeakPtr.Lock_zero {w : WeakPtr} {h : Heap} {b : Nat} (hb : w.block_ = some b)
    (h0 : h.useCount b = 0) :
    (w.Lock h = none ∨ w.Lock h = some (SharedPtr.empty, h)) ∧
    (SharedPtr.ctor_weak w h = none ∨
      SharedPtr.ctor_weak w h = some (Except.error BadWeakPtr.thrown, h)) := by
  constructor
  · cases e : w.Lock h with
    | none => exact Or.inl rfl
    | some r =>
      obtain ⟨c, h1⟩ := r
      rcases WeakPtr.Lock_cases e with ⟨-, rfl, rfl⟩ | ⟨-, -, b', hb', hne⟩
      · exact Or.inr rfl
      · rw [hb] at hb'
        cases hb'
        exact absurd h0 hne
  · cases e : SharedPtr.ctor_weak w h with
    | none => exact Or.inl rfl
    | some r =>
      obtain ⟨c, h1⟩ := r
      rcases SharedPtr.ctor_weak_cases e with ⟨-, rfl, rfl⟩ | ⟨-, -, b', hb', hne⟩
      · exact Or.inr rfl
      · rw [hb] at hb'
        cases hb'
        exact absurd h0 hne

/-- A statement on `WeakPtr` variables leaves the `SharedPtr` variables as they are. -/
theorem Sys.stepPub_weak_shared {esft : Bool} {s s1 : Sys} {op : PubOp}
    (hw : op.isWeakOp = true) (e : s.stepPub esft op = some s1) : s1.shared = s.shared := by
  cases op with
  | handle op =>
    cases op <;> simp only [PubOp.isWeakOp] at hw <;> try (exact absurd hw (by decide))
    all_goals
      simp only [Sys.stepPub, Sys.step] at e
      repeat' split at e
      all_goals first
        | (cases e; rfl)
        | cases e
  | weakDefault => simp only [Sys.stepPub] at e; cases e; rfl
  | weakSwap j k =>
    simp only [Sys.stepPub] at e
    repeat' split at e
    all_goals cases e; rfl
  | weakFromThis p =>
    simp only [Sys.stepPub] at e
    repeat' split at e
    all_goals first
      | (cases e; rfl)
      | cases e
  | newT => simp [PubOp.isWeakOp] at hw
  | sharedDefault => simp [PubOp.isWeakOp] at hw
  | sharedFromPtr p => simp [PubOp.isWeakOp] at hw
  | makeShared => simp [PubOp.isWeakOp] at hw
  | sharedAlias i p => simp [PubOp.isWeakOp] at hw
  | sharedResetPtr i p => simp [PubOp.isWeakOp] at hw
  | sharedSwap i j => simp [PubOp.isWeakOp] at hw
  | sharedFromThis p => simp [PubOp.isWeakOp] at hw

/-- Under strong accounting a handle's block has a positive strong count. -/
theorem Sys.StrongAcct.holder_pos {s : Sys} (HS : s.StrongAcct) {x : SharedPtr}
    (hx : x ∈ s.shared) {b : Nat} (hb : x.block_ = some b) : 0 < s.heap.useCount b := by
  obtain ⟨i, hi⟩ := List.getElem?_of_mem hx
  have := unitAt_le_strongHolders hi b
  have h1 : x.unitAt b = 1 := by simp [SharedPtr.unitAt, hb]
  have := HS b
  omega

/-- C17. Unit accounting for a `T` that is not self-aware. In every frame `s` reached from
the empty program by public `SharedPtr`, `WeakPtr` and `MakeShared` statements without
undefined behaviour (fewer than `2^64 - 1` statements, so no `size_t` overflow), for every
block the stored `use_count_` is the number of `SharedPtr` variables whose `block_` is that
block and the stored `weak_count_` the number of such `WeakPtr` variables; this holds in
particular for every live block. A statement that constructs, copies, moves, assigns,
resets, swaps or destroys a `WeakPtr` leaves the `SharedPtr` variables and every strong
count unchanged. `Lock` and `SharedPtr(const WeakPtr&)` on a variable of the frame either
find the handle expired and leave the heap unchanged, or return a handle on the block of
the weak handle, whose strong count was positive and grows by one, with every other strong
count and every weak count unchanged. -/
theorem C17_unit_accounting (ops : List PubOp) (s : Sys)
    (hlen : ops.length + 1 < SIZE_MOD)
    (hrun : Sys.init.runPub false ops = some s) :
    (∀ b, s.heap.useCount b = strongHolders s.shared b ∧
      s.heap.weakCount b = weakHolders s.weak b) ∧
    (∀ b blk, s.heap.block b = some blk →
      blk.use_count_ = strongHolders s.shared b ∧
      blk.weak_count_ = weakHolders s.weak b) ∧
    (∀ op s1, PubOp.isWeakOp op = true → s.stepPub false op = some s1 →
      s1.shared = s.shared ∧ ∀ b, s1.heap.useCount b = s.heap.useCount b) ∧
    (∀ (j : Nat) (w : WeakPtr) (c : SharedPtr) (h1 : Heap), s.weak[j]? = some w →
      w.Lock s.heap = some (c, h1) →
      (c = SharedPtr.empty ∧ h1 = s.heap) ∨
      (c = ⟨w.ptr_, w.block_⟩ ∧ (∃ b, w.block_ = some b ∧ 0 < s.heap.useCount b) ∧
        ∀ b, h1.useCount b = s.heap.useCount b + c.unitAt b ∧
          h1.weakCount b = s.heap.weakCount b)) ∧
    (∀ (j : Nat) (w : WeakPtr) (r : Except BadWeakPtr SharedPtr) (h1 : Heap),
      s.weak[j]? = some w → SharedPtr.ctor_weak w s.heap = some (r, h1) →
      (r = Except.error BadWeakPtr.thrown ∧ h1 = s.heap) ∨
      (r = Except.ok ⟨w.ptr_, w.block_⟩ ∧
        (∃ b, w.block_ = some b ∧ 0 < s.heap.useCount b) ∧
        ∀ b, h1.useCount b = s.heap.useCount b + SharedPtr.unitAt ⟨w.ptr_, w.block_⟩ b ∧
          h1.weakCount b = s.heap.weakCount b)) := by
  have hinit : Sys.init.shared.length + Sys.init.weak.length = 0 := rfl
  obtain ⟨HS, HW, hl, -, -⟩ := Sys.runPub_acct ops Sys.init s hrun Sys.init_acct.1
    (by rw [hinit]; omega)
  have HW := HW rfl Sys.init_acct.2
  rw [hinit] at hl
  have hfit : ∀ b, s.heap.useCount b + 1 < SIZE_MOD := by
    intro b
    have := HS b
    have := strongHolders_le_length s.shared b
    omega
  refine ⟨fun b => ⟨HS b, HW b⟩, ?_, ?_, ?_, ?_⟩
  · intro b blk hblk
    rw [← Heap.useCount_of_block hblk, ← Heap.weakCount_of_block hblk]
    exact ⟨HS b, HW b⟩
  · intro op s1 hw e
    have hsh := Sys.stepPub_weak_shared hw e
    refine ⟨hsh, fun b => ?_⟩
    obtain ⟨A1, -⟩ := Sys.stepPub_acct e HS (by omega)
    rw [A1 b, hsh, HS b]
  · intro j w c h1 _ e
    rcases WeakPtr.Lock_cases e with ⟨-, hc, hh⟩ | ⟨-, hc, b0, hb0, hne⟩
    · exact Or.inl ⟨hc, hh⟩
    · refine Or.inr ⟨hc, ⟨b0, hb0, Nat.pos_of_ne_zero hne⟩, fun b => ?_⟩
      obtain ⟨-, d1, d2, -⟩ := WeakPtr.Lock_delta e b
      exact ⟨d1 (hfit b), d2⟩
  · intro j w r h1 _ e
    rcases SharedPtr.ctor_weak_cases e with ⟨-, hc, hh⟩ | ⟨-, hc, b0, hb0, hne⟩
    · exact Or.inl ⟨hc, hh⟩
    · refine Or.inr ⟨hc, ⟨b0, hb0, Nat.pos_of_ne_zero hne⟩, fun b => ?_⟩
      obtain ⟨d1, -, d2, -⟩ := SharedPtr.ctor_weak_delta e b
      exact ⟨(d1 _ hc).2 (hfit b), d2⟩

/-- C17 on the program `T* p = new T; SharedPtr<T> a(p); WeakPtr<T> w(a);
SharedPtr<T> c(a); SharedPtr<T> l = w.Lock(); SharedPtr<T> n; n.Reset(p2)` (`p2` a second
object), then `a` is destroyed: block 0 ends with two strong holders and one weak holder,
block 1 with one strong holder. -/
theorem C17_unit_accounting_witness :
    ∃ s, Sys.init.runPub false
        [PubOp.newT, PubOp.newT, PubOp.sharedFromPtr (some 0),
          PubOp.handle (Op.weakFromShared 0), PubOp.handle (Op.sharedCopy 0),
          PubOp.handle (Op.lock 0), PubOp.sharedDefault, PubOp.sharedResetPtr 3 (some 1),
          PubOp.handle (Op.sharedDestroy 0)] = some s ∧
      s.heap.useCount 0 = 2 ∧ s.heap.weakCount 0 = 1 ∧ s.heap.useCount 1 = 1 ∧
      ∀ b, s.heap.useCount b = strongHolders s.shared b ∧
        s.heap.weakCount b = weakHolders s.weak b :=
  ⟨_, rfl, rfl, rfl, rfl,
    (C17_unit_accounting
      [PubOp.newT, PubOp.newT, PubOp.sharedFromPtr (some 0),
        PubOp.handle (Op.weakFromShared 0), PubOp.handle (Op.sharedCopy 0),
        PubOp.handle (Op.lock 0), PubOp.sharedDefault, PubOp.sharedResetPtr 3 (some 1),
        PubOp.handle (Op.sharedDestroy 0)] _ (by decide) rfl).1⟩

/-- C18. `BlockWithPointer` and `BlockWithObject` are constructed with `use_count_ == 1`
and `weak_count_ == 0`, and the block that `SharedPtr(T*)` or `MakeShared` puts in the heap
has strong count 1 (and weak count 0 when `T` is not self-aware, before any `weak_this_`
is bound). Along every sequence of public statements without undefined behaviour (fewer
than `2^64 - 1` statements), for a self-aware `T` or not: a block in the heap whose strong
count is zero in some frame has strong count zero in every later frame. The calls of
`IncreaseUsage` are on blocks with a positive strong count: every `SharedPtr` variable with
a block (the source of a copy) has a block with a positive count, and `Lock`,
`SharedPtr(const WeakPtr&)` and `SharedFromThis` on a handle whose block has strong count
zero return the empty handle or throw and leave the heap as it is (or are undefined because
the block was freed). -/
theorem C18_strong_count_never_revives (esft : Bool) (pre post : List PubOp) (s1 s2 : Sys)
    (hlen : pre.length + post.length + 1 < SIZE_MOD)
    (hpre : Sys.init.runPub esft pre = some s1)
    (hpost : s1.runPub esft post = some s2) :
    (∀ q, (BlockWithPointer.new q).use_count_ = 1 ∧
      (BlockWithPointer.new q).weak_count_ = 0) ∧
    (∀ p, (BlockWithObject.new p).use_count_ = 1 ∧
      (BlockWithObject.new p).weak_count_ = 0) ∧
    (∀ (q : Option Nat) (c : SharedPtr) (h : Heap),
      SharedPtr.ctor_ptr esft q s1.heap = some (c, h) →
      c.block_ = some s1.heap.blocks.length ∧ h.useCount s1.heap.blocks.length = 1 ∧
      (esft = false → h.weakCount s1.heap.blocks.length = 0)) ∧
    (∀ (c : SharedPtr) (h : Heap), MakeShared esft s1.heap = some (c, h) →
      c.block_ = some s1.heap.blocks.length ∧ h.useCount s1.heap.blocks.length = 1 ∧
      (esft = false → h.weakCount s1.heap.blocks.length = 0)) ∧
    (∀ b, b < s1.heap.blocks.length → s1.heap.useCount b = 0 → s2.heap.useCount b = 0) ∧
    (∀ x ∈ s1.shared, ∀ b, x.block_ = some b → 0 < s1.heap.useCount b) ∧
    (∀ (w : WeakPtr) (b : Nat), w.block_ = some b → s1.heap.useCount b = 0 →
      (w.Lock s1.heap = none ∨ w.Lock s1.heap = some (SharedPtr.empty, s1.heap)) ∧
      (SharedPtr.ctor_weak w s1.heap = none ∨
        SharedPtr.ctor_weak w s1.heap = some (Except.error BadWeakPtr.thrown, s1.heap))) ∧
    (∀ (p : Nat) (o : Object) (b : Nat), s1.heap.object p = some o →
      o.weak_this_.block_ = some b → s1.heap.useCount b = 0 →
      EnableSharedFromThis.SharedFromThis s1.heap p = none ∨
      EnableSharedFromThis.SharedFromThis s1.heap p = some (SharedPtr.empty, s1.heap)) := by
  have hinit : Sys.init.shared.length + Sys.init.weak.length = 0 := rfl
  obtain ⟨HS, -, hl, -, -⟩ := Sys.runPub_acct pre Sys.init s1 hpre Sys.init_acct.1
    (by rw [hinit]; omega)
  rw [hinit] at hl
  obtain ⟨-, -, -, -, hz⟩ := Sys.runPub_acct post s1 s2 hpost HS (by omega)
  have hend := (s1.heap.counts_past_end (Nat.le_refl _))
  refine ⟨fun _ => ⟨rfl, rfl⟩, fun _ => ⟨rfl, rfl⟩, ?_, ?_, hz, ?_, ?_, ?_⟩
  · intro q c h e
    obtain ⟨d0, d1, d2, -⟩ := SharedPtr.ctor_ptr_delta e s1.heap.blocks.length
    rw [d0, SharedPtr.unitAt_at, if_pos rfl, hend.1] at d1
    refine ⟨by rw [d0], d1, fun hf => ?_⟩
    rw [d2 hf, hend.2]
  · intro c h e
    obtain ⟨d0, d1, d2, -⟩ := MakeShared_delta e s1.heap.blocks.length
    rw [d0, SharedPtr.unitAt_at, if_pos rfl, hend.1] at d1
    refine ⟨by rw [d0], d1, fun hf => ?_⟩
    rw [d2 hf, hend.2]
  · intro x hx b hb
    exact HS.holder_pos hx hb
  · intro w b hb h0
    exact WeakPtr.Lock_zero hb h0
  · intro p o b ho hb h0
    unfold EnableSharedFromThis.SharedFromThis
    rw [ho]
    exact (WeakPtr.Lock_zero hb h0).1

/-- C18 on the program `SharedPtr<T> a = MakeShared<T>(); WeakPtr<T> w(a);`, then `a` is
destroyed, for a self-aware `T`: block 0 is left with strong count zero and one weak unit;
after `SharedPtr<T> l = w.Lock(); SharedPtr<T> c(l);` the strong count is still zero. -/
theorem C18_strong_count_never_revives_witness :
    ∃ s1 s2,
      Sys.init.runPub true
        [PubOp.makeShared, PubOp.handle (Op.weakFromShared 0),
          PubOp.handle (Op.sharedDestroy 0)] = some s1 ∧
      s1.runPub true [PubOp.handle (Op.lock 0), PubOp.handle (Op.sharedCopy 0)] = some s2 ∧
      s1.heap.useCount 0 = 0 ∧ s1.heap.weakCount 0 = 1 ∧ s2.heap.useCount 0 = 0 :=
  ⟨_, _, rfl, rfl, rfl, rfl,
    (C18_strong_count_never_revives true
      [PubOp.makeShared, PubOp.handle (Op.weakFromShared 0),
        PubOp.handle (Op.sharedDestroy 0)]
      [PubOp.handle (Op.lock 0), PubOp.handle (Op.sharedCopy 0)] _ _ (by decide) rfl
      rfl).2.2.2.2.1 0 (by decide) rfl⟩

/-! ## The two block variants -/

theorem Heap.block_retag (k : BlockKind) (h : Heap) (b : Nat) :
    (h.retag k).block b = (h.block b).map (ControlBlock.retag k) := by
  unfold Heap.block Heap.retag
  simp only [List.getElem?_map]
  cases h.blocks[b]? with
  | none => rfl
  | some blk =>
    simp only [Option.map_some']
    by_cases hd : blk.deleted = true
    · simp [hd, ControlBlock.retag]
    · simp [hd, ControlBlock.retag]

theorem Heap.setBlock_retag (k : BlockKind) (h : Heap) (b : Nat) (x : ControlBlock) :
    (h.setBlock b x).retag k = (h.retag k).setBlock b (x.retag k) := by
  simp [Heap.retag, Heap.setBlock, List.map_set]

theorem Heap.setObject_retag (k : BlockKind) (h : Heap) (p : Nat) (o : Object) :
    (h.setObject p o).retag k = (h.retag k).setObject p o := rfl

theorem Heap.logEvent_retag (k : BlockKind) (h : Heap) (e : Event) :
    (h.logEvent e).retag k = (h.retag k).logEvent e := rfl

theorem Heap.object_retag (k : BlockKind) (h : Heap) (p : Nat) :
    (h.retag k).object p = h.object p := rfl

theorem deleteThis_retag (k : BlockKind) (h : Heap) (b : Nat) :
    deleteThis (h.retag k) b = (deleteThis h b).map (Heap.retag k) := by
  unfold deleteThis
  rw [Heap.block_retag]
  cases h.block b with
  | none => rfl
  | some blk =>
    simp only [Option.map_some']
    rw [Heap.logEvent_retag, Heap.setBlock_retag]
    rfl

theorem BlockWithPointer.IncreaseUsage_retag (k : BlockKind) (h : Heap) (b : Nat) :
    BlockWithPointer.IncreaseUsage (h.retag k) b =
      (BlockWithPointer.IncreaseUsage h b).map (Heap.retag k) := by
  unfold BlockWithPointer.IncreaseUsage
  rw [Heap.block_retag]
  cases h.block b with
  | none => rfl
  | some blk =>
    simp only [Option.map_some']
    rw [Heap.setBlock_retag]
    rfl

theorem BlockWithPointer.IncreaseWeakUsage_retag (k : BlockKind) (h : Heap) (b : Nat) :
    BlockWithPointer.IncreaseWeakUsage (h.retag k) b =
      (BlockWithPointer.IncreaseWeakUsage h b).map (Heap.retag k) := by
  unfold BlockWithPointer.IncreaseWeakUsage
  rw [Heap.block_retag]
  cases h.block b with
  | none => rfl
  | some blk =>
    simp only [Option.map_some']
    rw [Heap.setBlock_retag]
    rfl

theorem BlockWithPointer.DecreaseWeakUsage_retag (k : BlockKind) (h : Heap) (b : Nat) :
    BlockWithPointer.DecreaseWeakUsage (h.retag k) b =
      (BlockWithPointer.DecreaseWeakUsage h b).map (Heap.retag k) := by
  unfold BlockWithPointer.DecreaseWeakUsage
  rw [Heap.block_retag]
  cases h.block b with
  | none => rfl
  | some blk =>
    simp only [Option.map_some']
    have e1 : (h.retag k).setBlock b
        { blk.retag k with weak_count_ := preDec (blk.retag k).weak_count_ } =
        (h.setBlock b { blk with weak_count_ := preDec blk.weak_count_ }).retag k := by
      rw [Heap.setBlock_retag]; rfl
    rw [e1, deleteThis_retag]
    have e2 : (blk.retag k).use_count_ = blk.use_count_ := rfl
    have e3 : (blk.retag k).weak_count_ = blk.weak_count_ := rfl
    rw [e2, e3]
    split <;> rfl

/-- The virtual calls do the same whatever the dynamic type of the block. -/
theorem ControlBlock.virtual_eq (h : Heap) (b : Nat) :
    ControlBlock.IncreaseUsage h b = BlockWithPointer.IncreaseUsage h b ∧
    ControlBlock.IncreaseWeakUsage h b = BlockWithPointer.IncreaseWeakUsage h b ∧
    ControlBlock.DecreaseWeakUsage h b = BlockWithPointer.DecreaseWeakUsage h b ∧
    ControlBlock.GetUseCount h b = BlockWithPointer.GetUseCount h b := by
  unfold ControlBlock.IncreaseUsage ControlBlock.IncreaseWeakUsage
    ControlBlock.DecreaseWeakUsage ControlBlock.GetUseCount
  cases hb : h.block b with
  | none =>
    simp [BlockWithPointer.IncreaseUsage, BlockWithPointer.IncreaseWeakUsage,
      BlockWithPointer.DecreaseWeakUsage, BlockWithPointer.GetUseCount, hb]
  | some blk =>
    dsimp only
    refine ⟨?_, ?_, ?_, ?_⟩ <;> split <;> rfl

theorem WeakPtr.SafeWeakDecrease_retag (k : BlockKind) (x : WeakPtr) (h : Heap) :
    x.SafeWeakDecrease (h.retag k) =
      (x.SafeWeakDecrease h).map (Prod.map id (Heap.retag k)) := by
  unfold WeakPtr.SafeWeakDecrease
  cases x.block_ with
  | none => rfl
  | some b =>
    dsimp only
    rw [(ControlBlock.virtual_eq (h.retag k) b).2.2.1, (ControlBlock.virtual_eq h b).2.2.1,
      BlockWithPointer.DecreaseWeakUsage_retag]
    cases BlockWithPointer.DecreaseWeakUsage h b <;> rfl

theorem WeakPtr.SafeWeakIncrease_retag (k : BlockKind) (x : WeakPtr) (h : Heap) :
    x.SafeWeakIncrease (h.retag k) = (x.SafeWeakIncrease h).map (Heap.retag k) := by
  unfold WeakPtr.SafeWeakIncrease
  cases x.block_ with
  | none => rfl
  | some b =>
    dsimp only
    rw [(ControlBlock.virtual_eq (h.retag k) b).2.1, (ControlBlock.virtual_eq h b).2.1,
      BlockWithPointer.IncreaseWeakUsage_retag]

theorem WeakPtr.assign_shared_retag (k : BlockKind) (x : WeakPtr) (y : SharedPtr)
    (h : Heap) :
    x.assign_shared y (h.retag k) =
      (x.assign_shared y h).map (Prod.map id (Heap.retag k)) := by
  unfold WeakPtr.assign_shared
  split
  · rfl
  · rw [WeakPtr.SafeWeakDecrease_retag]
    cases x.SafeWeakDecrease h with
    | none => rfl
    | some r =>
      obtain ⟨r0, hm⟩ := r
      simp only [Option.map_some', Prod.map_apply, id_eq]
      rw [WeakPtr.SafeWeakIncrease_retag]
      cases WeakPtr.SafeWeakIncrease ⟨y.ptr_, y.block_⟩ hm <;> rfl

theorem EnableSharedFromThis.dtor_retag (k : BlockKind) (h : Heap) (p : Nat) :
    EnableSharedFromThis.dtor (h.retag k) p =
      (EnableSharedFromThis.dtor h p).map (Heap.retag k) := by
  unfold EnableSharedFromThis.dtor
  rw [Heap.object_retag]
  cases h.object p with
  | none => rfl
  | some o =>
    dsimp only
    rw [WeakPtr.assign_shared_retag]
    cases o.weak_this_.assign_shared SharedPtr.empty h with
    | none => rfl
    | some r =>
      obtain ⟨w1, hm⟩ := r
      simp only [Option.map_some', Prod.map_apply, id_eq]
      unfold WeakPtr.dtor
      rw [WeakPtr.SafeWeakDecrease_retag]
      cases w1.SafeWeakDecrease hm with
      | none => rfl
      | some r2 =>
        obtain ⟨w2, h2⟩ := r2
        rfl

theorem destroyT_retag (k : BlockKind) (esft : Bool) (h : Heap) (p : Nat) :
    destroyT esft (h.retag k) p = (destroyT esft h p).map (Heap.retag k) := by
  unfold destroyT
  cases esft with
  | false =>
    simp only [Bool.false_eq_true, if_false]
    rw [Heap.object_retag]
    cases h.object p <;> rfl
  | true =>
    simp only [if_true]
    rw [EnableSharedFromThis.dtor_retag]
    cases EnableSharedFromThis.dtor h p with
    | none => rfl
    | some h1 =>
      simp only [Option.map_some']
      rw [Heap.object_retag]
      cases h1.object p <;> rfl

theorem deleteObject_retag (k : BlockKind) (esft : Bool) (h : Heap) (q : Option Nat) :
    deleteObject esft (h.retag k) q = (deleteObject esft h q).map (Heap.retag k) := by
  unfold deleteObject
  cases q with
  | none => rfl
  | some p => exact destroyT_retag k esft h p

theorem resetWeakThis_retag (k : BlockKind) (h : Heap) (q : Option Nat) :
    resetWeakThis (h.retag k) q = (resetWeakThis h q).map (Heap.retag k) := by
  unfold resetWeakThis
  cases q with
  | none => rfl
  | some p =>
    dsimp only
    rw [Heap.object_retag]
    cases h.object p <;> rfl

theorem BlockWithPointer.DecreaseUsage_retag (k : BlockKind) (esft : Bool) (h : Heap)
    (b : Nat) :
    BlockWithPointer.DecreaseUsage esft (h.retag k) b =
      (BlockWithPointer.DecreaseUsage esft h b).map (Heap.retag k) := by
  unfold BlockWithPointer.DecreaseUsage
  rw [Heap.block_retag]
  cases h.block b with
  | none => rfl
  | some blk =>
    simp only [Option.map_some']
    have e1 : (h.retag k).setBlock b
        { blk.retag k with use_count_ := preDec (blk.retag k).use_count_ } =
        (h.setBlock b { blk with use_count_ := preDec blk.use_count_ }).retag k := by
      rw [Heap.setBlock_retag]; rfl
    have e2 : (blk.retag k).use_count_ = blk.use_count_ := rfl
    have e3 : (blk.retag k).weak_count_ = blk.weak_count_ := rfl
    have e4 : (blk.retag k).object_ = blk.object_ := rfl
    rw [e1, e2, e3, e4]
    split
    · split
      · rw [resetWeakThis_retag]
        cases resetWeakThis (h.setBlock b { blk with use_count_ := preDec blk.use_count_ })
            blk.object_ with
        | none => rfl
        | some h2 =>
          simp only [Option.map_some']
          rw [deleteObject_retag]
          cases deleteObject esft h2 blk.object_ with
          | none => rfl
          | some h3 =>
            simp only [Option.map_some']
            exact deleteThis_retag k h3 b
      · rw [deleteObject_retag]
        cases deleteObject esft
            (h.setBlock b { blk with use_count_ := preDec blk.use_count_ }) blk.object_ with
        | none => rfl
        | some h2 =>
          simp only [Option.map_some']
          rw [Heap.block_retag]
          cases h2.block b with
          | none => rfl
          | some blk2 =>
            simp only [Option.map_some']
            have f2 : (blk2.retag k).use_count_ = blk2.use_count_ := rfl
            have f3 : (blk2.retag k).weak_count_ = blk2.weak_count_ := rfl
            rw [f2, f3]
            split
            · exact deleteThis_retag k h2 b
            · rfl
    · split
      · exact deleteThis_retag k _ b
      · rfl

theorem Heap.pointees_setBlock {h : Heap} {b : Nat} {blk : ControlBlock} (x : ControlBlock)
    (hb : h.block b = some blk) (hx : x.object_ = blk.object_) :
    (h.setBlock b x).pointees = h.pointees := by
  obtain ⟨hget, -⟩ := get_of_block hb
  unfold Heap.pointees
  rw [Heap.setBlock_blocks, List.map_set, hx]
  apply set_same
  rw [List.getElem?_map, hget]
  rfl

theorem deleteThis_pointees {h h1 : Heap} {b : Nat} (e : deleteThis h b = some h1) :
    h1.pointees = h.pointees := by
  unfold deleteThis at e
  cases hb : h.block b with
  | none => rw [hb] at e; cases e
  | some blk =>
    rw [hb] at e
    cases e
    exact Heap.pointees_setBlock _ hb rfl

theorem BlockWithPointer.IncreaseUsage_pointees {h h1 : Heap} {b : Nat}
    (e : BlockWithPointer.IncreaseUsage h b = some h1) : h1.pointees = h.pointees := by
  unfold BlockWithPointer.IncreaseUsage at e
  cases hb : h.block b with
  | none => rw [hb] at e; cases e
  | some blk =>
    rw [hb] at e
    cases e
    exact Heap.pointees_setBlock _ hb rfl

theorem BlockWithPointer.IncreaseWeakUsage_pointees {h h1 : Heap} {b : Nat}
    (e : BlockWithPointer.IncreaseWeakUsage h b = some h1) : h1.pointees = h.pointees := by
  unfold BlockWithPointer.IncreaseWeakUsage at e
  cases hb : h.block b with
  | none => rw [hb] at e; cases e
  | some blk =>
    rw [hb] at e
    cases e
    exact Heap.pointees_setBlock _ hb rfl

theorem BlockWithPointer.DecreaseWeakUsage_pointees {h h1 : Heap} {b : Nat}
    (e : BlockWithPointer.DecreaseWeakUsage h b = some h1) : h1.pointees = h.pointees := by
  unfold BlockWithPointer.DecreaseWeakUsage at e
  cases hb : h.block b with
  | none => rw [hb] at e; cases e
  | some blk =>
    rw [hb] at e
    dsimp only at e
    have k := Heap.pointees_setBlock { blk with weak_count_ := preDec blk.weak_count_ } hb rfl
    split at e
    · rw [deleteThis_pointees e, k]
    · cases e; exact k

theorem WeakPtr.SafeWeakDecrease_pointees {x r : WeakPtr} {h h1 : Heap}
    (e : x.SafeWeakDecrease h = some (r, h1)) : h1.pointees = h.pointees := by
  unfold WeakPtr.SafeWeakDecrease at e
  split at e
  · rename_i b hb
    rw [(ControlBlock.virtual_eq h b).2.2.1] at e
    cases hd : BlockWithPointer.DecreaseWeakUsage h b with
    | none => rw [hd] at e; cases e
    | some h2 =>
      rw [hd] at e
      cases e
      exact BlockWithPointer.DecreaseWeakUsage_pointees hd
  · cases e; rfl

theorem WeakPtr.SafeWeakIncrease_pointees {x : WeakPtr} {h h1 : Heap}
    (e : x.SafeWeakIncrease h = some h1) : h1.pointees = h.pointees := by
  unfold WeakPtr.SafeWeakIncrease at e
  split at e
  · rename_i b hb
    rw [(ControlBlock.virtual_eq h b).2.1] at e
    exact BlockWithPointer.IncreaseWeakUsage_pointees e
  · cases e; rfl

theorem WeakPtr.assign_shared_pointees {x r : WeakPtr} {y : SharedPtr} {h h1 : Heap}
    (e : x.assign_shared y h = some (r, h1)) : h1.pointees = h.pointees := by
  unfold WeakPtr.assign_shared at e
  split at e
  · cases e; rfl
  · cases hd : x.SafeWeakDecrease h with
    | none => rw [hd] at e; cases e
    | some r1 =>
      obtain ⟨r0, hm⟩ := r1
      rw [hd] at e
      dsimp only at e
      cases hi : WeakPtr.SafeWeakIncrease ⟨y.ptr_, y.block_⟩ hm with
      | none => rw [hi] at e; cases e
      | some h2 =>
        rw [hi] at e
        cases e
        rw [WeakPtr.SafeWeakIncrease_pointees hi, WeakPtr.SafeWeakDecrease_pointees hd]

theorem EnableSharedFromThis.dtor_pointees {h h1 : Heap} {p : Nat}
    (e : EnableSharedFromThis.dtor h p = some h1) : h1.pointees = h.pointees := by
  unfold EnableSharedFromThis.dtor at e
  cases ho : h.object p with
  | none => rw [ho] at e; cases e
  | some o =>
    rw [ho] at e
    dsimp only at e
    cases ha : o.weak_this_.assign_shared SharedPtr.empty h with
    | none => rw [ha] at e; cases e
    | some r1 =>
      obtain ⟨w1, hm⟩ := r1
      rw [ha] at e
      dsimp only at e
      cases hd : w1.dtor hm with
      | none => rw [hd] at e; cases e
      | some r2 =>
        obtain ⟨w2, h2⟩ := r2
        rw [hd] at e
        cases e
        have s2 := WeakPtr.SafeWeakDecrease_pointees hd
        have s1 := WeakPtr.assign_shared_pointees ha
        show h2.pointees = h.pointees
        rw [s2, s1]

theorem destroyT_pointees {esft : Bool} {h h1 : Heap} {p : Nat}
    (e : destroyT esft h p = some h1) : h1.pointees = h.pointees := by
  unfold destroyT at e
  cases esft
  · simp only [Bool.false_eq_true, if_false] at e
    cases ho : h.object p with
    | none => rw [ho] at e; cases e
    | some o =>
      rw [ho] at e
      cases e
      rfl
  · simp only [if_true] at e
    cases hd : EnableSharedFromThis.dtor h p with
    | none => rw [hd] at e; cases e
    | some h2 =>
      rw [hd] at e
      dsimp only at e
      cases ho : h2.object p with
      | none => rw [ho] at e; cases e
      | some o =>
        rw [ho] at e
        cases e
        show h2.pointees = h.pointees
        exact EnableSharedFromThis.dtor_pointees hd

theorem deleteObject_pointees {esft : Bool} {h h1 : Heap} {q : Option Nat}
    (e : deleteObject esft h q = some h1) : h1.pointees = h.pointees := by
  unfold deleteObject at e
  cases q with
  | none => cases e; rfl
  | some p => exact destroyT_pointees e

theorem resetWeakThis_pointees {h h1 : Heap} {q : Option Nat}
    (e : resetWeakThis h q = some h1) : h1.pointees = h.pointees := by
  unfold Heap.pointees
  rw [resetWeakThis_blocks e]

theorem BlockWithPointer.DecreaseUsage_pointees {esft : Bool} {h h1 : Heap} {b : Nat}
    (e : BlockWithPointer.DecreaseUsage esft h b = some h1) :
    h1.pointees = h.pointees := by
  unfold BlockWithPointer.DecreaseUsage at e
  cases hb : h.block b with
  | none => rw [hb] at e; cases e
  | some blk =>
    rw [hb] at e
    dsimp only at e
    have k := Heap.pointees_setBlock { blk with use_count_ := preDec blk.use_count_ } hb rfl
    split at e
    · split at e
      · cases hr : resetWeakThis
            (h.setBlock b { blk with use_count_ := preDec blk.use_count_ }) blk.object_ with
        | none => rw [hr] at e; cases e
        | some h2 =>
          rw [hr] at e
          dsimp only at e
          cases hd : deleteObject esft h2 blk.object_ with
          | none => rw [hd] at e; cases e
          | some h3 =>
            rw [hd] at e
            dsimp only at e
            rw [deleteThis_pointees e, deleteObject_pointees hd, resetWeakThis_pointees hr, k]
      · cases hd : deleteObject esft
            (h.setBlock b { blk with use_count_ := preDec blk.use_count_ }) blk.object_ with
        | none => rw [hd] at e; cases e
        | some h2 =>
          rw [hd] at e
          dsimp only at e
          cases hb2 : h2.block b with
          | none => rw [hb2] at e; cases e
          | some blk2 =>
            rw [hb2] at e
            dsimp only at e
            split at e
            · rw [deleteThis_pointees e, deleteObject_pointees hd, k]
            · cases e
              rw [deleteObject_pointees hd, k]
    · split at e
      · rw [deleteThis_pointees e, k]
      · cases e
        exact k

/-- A block that stores a non-null pointee address is found with that address as long as it
is live. -/
theorem Heap.object_of_pointees {h : Heap} {b p : Nat} {blk : ControlBlock}
    (hp : h.pointees[b]? = some (some p)) (hb : h.block b = some blk) :
    blk.object_ = some p := by
  obtain ⟨hget, -⟩ := get_of_block hb
  unfold Heap.pointees at hp
  rw [List.getElem?_map, hget] at hp
  simpa using hp

/-- With a non-null pointee address the member functions of `BlockWithObject` do what those
of `BlockWithPointer` do. -/
theorem BlockWithObject.call_eq_ptr (esft : Bool) {h : Heap} {b p : Nat}
    (hp : h.pointees[b]? = some (some p)) (c : BlockCall) :
    BlockWithObject.call esft h b c = BlockWithPointer.call esft h b c := by
  cases c with
  | IncreaseUsage => rfl
  | IncreaseWeakUsage => rfl
  | DecreaseWeakUsage => rfl
  | DecreaseUsage =>
    show BlockWithObject.DecreaseUsage esft h b = BlockWithPointer.DecreaseUsage esft h b
    cases hb : h.block b with
    | none => simp [BlockWithObject.DecreaseUsage, BlockWithPointer.DecreaseUsage, hb]
    | some blk =>
      exact BlockWithObject.DecreaseUsage_same_body hb (Heap.object_of_pointees hp hb)

theorem BlockWithPointer.call_pointees {esft : Bool} {h h1 : Heap} {b : Nat} {c : BlockCall}
    (e : BlockWithPointer.call esft h b c = some h1) : h1.pointees = h.pointees := by
  cases c with
  | IncreaseUsage => exact BlockWithPointer.IncreaseUsage_pointees e
  | IncreaseWeakUsage => exact BlockWithPointer.IncreaseWeakUsage_pointees e
  | DecreaseWeakUsage => exact BlockWithPointer.DecreaseWeakUsage_pointees e
  | DecreaseUsage => exact BlockWithPointer.DecreaseUsage_pointees e

theorem BlockWithPointer.call_retag (k : BlockKind) (esft : Bool) (h : Heap) (b : Nat)
    (c : BlockCall) :
    BlockWithPointer.call esft (h.retag k) b c =
      (BlockWithPointer.call esft h b c).map (Heap.retag k) := by
  cases c with
  | IncreaseUsage => exact BlockWithPointer.IncreaseUsage_retag k h b
  | IncreaseWeakUsage => exact BlockWithPointer.IncreaseWeakUsage_retag k h b
  | DecreaseWeakUsage => exact BlockWithPointer.DecreaseWeakUsage_retag k h b
  | DecreaseUsage => exact BlockWithPointer.DecreaseUsage_retag k esft h b

theorem BlockWithPointer.GetUseCount_retag (k : BlockKind) (h : Heap) (b : Nat) :
    BlockWithPointer.GetUseCount (h.retag k) b = BlockWithPointer.GetUseCount h b := by
  unfold BlockWithPointer.GetUseCount
  rw [Heap.block_retag]
  cases h.block b <;> rfl

theorem Heap.pointees_retag (k : BlockKind) (h : Heap) : (h.retag k).pointees = h.pointees := by
  unfold Heap.pointees Heap.retag
  simp [List.map_map, Function.comp_def, ControlBlock.retag]

/-- Two heaps that differ only in the dynamic types of their blocks give the same trace,
the `BlockWithPointer` functions on one and the `BlockWithObject` functions on the other,
when the block at `b` stores a non-null pointee address. -/
theorem BlockWithObject.trace_eq_ptr (esft : Bool) (b p : Nat) (calls : List BlockCall) :
    ∀ (hP hO : Heap), hO.retag BlockKind.BlockWithObject = hP.retag BlockKind.BlockWithObject →
      hO.pointees[b]? = some (some p) →
      BlockWithPointer.trace esft b hP calls = BlockWithObject.trace esft b hO calls := by
  induction calls with
  | nil => intro _ _ _ _; rfl
  | cons c cs ih =>
    intro hP hO hR hp
    simp only [BlockWithPointer.trace, BlockWithObject.trace]
    rw [BlockWithObject.call_eq_ptr esft hp c]
    have h1 := BlockWithPointer.call_retag BlockKind.BlockWithObject esft hP b c
    have h2 := BlockWithPointer.call_retag BlockKind.BlockWithObject esft hO b c
    rw [hR, h1] at h2
    cases eP : BlockWithPointer.call esft hP b c with
    | none =>
      rw [eP] at h2
      cases eO : BlockWithPointer.call esft hO b c with
      | none => rfl
      | some hO1 => rw [eO] at h2; cases h2
    | some hP1 =>
      rw [eP] at h2
      cases eO : BlockWithPointer.call esft hO b c with
      | none => rw [eO] at h2; cases h2
      | some hO1 =>
        rw [eO] at h2
        simp only [Option.map_some', Option.some.injEq] at h2
        dsimp only
        have hlog : hP1.log = hO1.log := by
          have : (hP1.retag BlockKind.BlockWithObject).log =
              (hO1.retag BlockKind.BlockWithObject).log := by rw [h2]
          exact this
        have hg : BlockWithPointer.GetUseCount hP1 b = BlockWithObject.GetUseCount hO1 b := by
          show BlockWithPointer.GetUseCount hP1 b = BlockWithPointer.GetUseCount hO1 b
          rw [← BlockWithPointer.GetUseCount_retag BlockKind.BlockWithObject hP1,
            ← BlockWithPointer.GetUseCount_retag BlockKind.BlockWithObject hO1, h2]
        rw [hlog, hg]
        congr 1
        apply ih hP1 hO1 h2.symm
        rw [BlockWithPointer.call_pointees eO]
        exact hp

/-- C19. A freshly constructed `BlockWithPointer` on the object at `p` and a freshly
constructed `BlockWithObject` holding the object at `p`, allocated in the same heap, for a
self-aware `T` or not: both report `GetUseCount() == 1`, and for every finite sequence of
`IncreaseUsage`, `DecreaseUsage`, `IncreaseWeakUsage` and `DecreaseWeakUsage` calls the two
traces are equal: after every call the same `GetUseCount()` (or none, once the block is
deleted), the same pointee-destroyed and block-destroyed events in the same order, and a
call is undefined for one variant exactly when it is for the other. -/
theorem C19_block_variants_same_protocol (esft : Bool) (h : Heap) (p : Nat)
    (calls : List BlockCall) :
    BlockWithPointer.GetUseCount
        { h with blocks := h.blocks ++ [BlockWithPointer.new (some p)] } h.blocks.length =
      some 1 ∧
    BlockWithObject.GetUseCount
        { h with blocks := h.blocks ++ [BlockWithObject.new p] } h.blocks.length = some 1 ∧
    BlockWithPointer.trace esft h.blocks.length
        { h with blocks := h.blocks ++ [BlockWithPointer.new (some p)] } calls =
      BlockWithObject.trace esft h.blocks.length
        { h with blocks := h.blocks ++ [BlockWithObject.new p] } calls := by
  refine ⟨?_, ?_, ?_⟩
  · have := block_after_alloc h.blocks h.objects h.log (BlockWithPointer.new (some p)) rfl
    simp only [BlockWithPointer.GetUseCount]
    rw [this]
    rfl
  · have := block_after_alloc h.blocks h.objects h.log (BlockWithObject.new p) rfl
    simp only [BlockWithObject.GetUseCount]
    rw [this]
    rfl
  · apply BlockWithObject.trace_eq_ptr esft h.blocks.length p calls
    · simp [Heap.retag, ControlBlock.retag, BlockWithPointer.new, BlockWithObject.new]
    · simp [Heap.pointees, BlockWithObject.new]

/-- C19 for a self-aware `T` on a heap with one object, at the calls `IncreaseWeakUsage`,
`IncreaseUsage`, `DecreaseUsage`, `DecreaseUsage`: the last call takes the
`weak_count_ == 1` branch, destroys the pointee and deletes the block. -/
theorem C19_block_variants_same_protocol_witness :
    BlockWithObject.trace true 0
        { Heap.empty.newObject.2 with
          blocks := Heap.empty.newObject.2.blocks ++ [BlockWithObject.new 0] }
        [BlockCall.IncreaseWeakUsage, BlockCall.IncreaseUsage, BlockCall.DecreaseUsage,
          BlockCall.DecreaseUsage] =
      [some (some 1, []), some (some 2, []), some (some 1, []),
        some (none, [Event.destroyObject 0, Event.deleteBlock 0])] ∧
    BlockWithPointer.trace true 0
        { Heap.empty.newObject.2 with
          blocks := Heap.empty.newObject.2.blocks ++ [BlockWithPointer.new (some 0)] }
        [BlockCall.IncreaseWeakUsage, BlockCall.IncreaseUsage, BlockCall.DecreaseUsage,
          BlockCall.DecreaseUsage] =
      BlockWithObject.trace true 0
        { Heap.empty.newObject.2 with
          blocks := Heap.empty.newObject.2.blocks ++ [BlockWithObject.new 0] }
        [BlockCall.IncreaseWeakUsage, BlockCall.IncreaseUsage, BlockCall.DecreaseUsage,
          BlockCall.DecreaseUsage] :=
  ⟨rfl,
    (C19_block_variants_same_protocol true Heap.empty.newObject.2 0
      [BlockCall.IncreaseWeakUsage, BlockCall.IncreaseUsage, BlockCall.DecreaseUsage,
        BlockCall.DecreaseUsage]).2.2⟩

/-- C20, the code at a failing input, for a self-aware `T`: the program
`T* p = new T; SharedPtr<T> sp; sp.Reset(p); WeakPtr<T> w(sp); sp.Reset();` runs, and leaves
the variable `w` on block 0 although `delete this` has run on that block (its stored
counters are 0 and 1); the destructor of `w` then calls `DecreaseWeakUsage` on the deleted
block, which is undefined. The same program with `SharedPtr<T> sp(p);` in place of
`SharedPtr<T> sp; sp.Reset(p);` runs to the end: the block is still live when `w` is
destroyed, and is deleted by that destructor. -/
theorem C20_DecreaseWeakUsage_on_deleted_block :
    ∃ s : Sys,
      Sys.init.runPub true
        [PubOp.newT, PubOp.sharedDefault, PubOp.sharedResetPtr 0 (some 0),
          PubOp.handle (Op.weakFromShared 0), PubOp.handle (Op.sharedReset 0)] = some s ∧
      s.weak = [⟨some 0, some 0⟩] ∧ s.shared = [SharedPtr.empty] ∧
      s.heap.block 0 = none ∧ s.heap.deleteCount 0 = 1 ∧
      s.heap.useCount 0 = 0 ∧ s.heap.weakCount 0 = 1 ∧
      ControlBlock.DecreaseWeakUsage s.heap 0 = none ∧
      s.stepPub true (PubOp.handle (Op.weakDestroy 0)) = none ∧
      ∃ t u : Sys,
        Sys.init.runPub true
          [PubOp.newT, PubOp.sharedFromPtr (some 0), PubOp.handle (Op.weakFromShared 0),
            PubOp.handle (Op.sharedReset 0)] = some t ∧
        t.weak = [⟨some 0, some 0⟩] ∧ t.heap.block 0 ≠ none ∧
        t.heap.useCount 0 = 0 ∧ t.heap.weakCount 0 = 1 ∧
        t.stepPub true (PubOp.handle (Op.weakDestroy 0)) = some u ∧
        u.weak = [] ∧ u.heap.weakCount 0 = 0 ∧
        u.heap.log = [Event.destroyObject 0, Event.deleteBlock 0] :=
  ⟨_, rfl, rfl, rfl, rfl, rfl, rfl, rfl, rfl, rfl, _, _, rfl, rfl, by decide, rfl, rfl, rfl,
    rfl, rfl, rfl⟩

/-! ## Release in every state a handle can be in -/

theorem deleteObjectWith_destroyT (esft : Bool) (h : Heap) (obj : Option Nat) :
    deleteObjectWith (destroyT esft) h obj = deleteObject esft h obj := by
  cases obj <;> rfl

/-- With the destructor of a pointee without handle members, the general
`DecreaseUsage` is the one above. -/
theorem ControlBlock.DecreaseUsageWith_destroyT (esft : Bool) (h : Heap) (b : Nat) :
    ControlBlock.DecreaseUsageWith (destroyT esft) esft h b =
      ControlBlock.DecreaseUsage esft h b := by
  unfold ControlBlock.DecreaseUsageWith ControlBlock.DecreaseUsage
    BlockWithPointer.DecreaseUsageWith BlockWithPointer.DecreaseUsage
    BlockWithObject.DecreaseUsageWith BlockWithObject.DecreaseUsage
  simp only [deleteObjectWith_destroyT]

theorem SharedPtr.SafeDecreaseWith_destroyT (esft : Bool) (x : SharedPtr) (h : Heap) :
    x.SafeDecreaseWith (destroyT esft) esft h = x.SafeDecrease esft h := by
  unfold SharedPtr.SafeDecreaseWith SharedPtr.SafeDecrease
  simp only [ControlBlock.DecreaseUsageWith_destroyT]

theorem SharedPtr.ResetWith_destroyT (esft : Bool) (x : SharedPtr) (h : Heap) :
    x.ResetWith (destroyT esft) esft h = x.Reset esft h := by
  unfold SharedPtr.ResetWith SharedPtr.Reset
  simp only [SharedPtr.SafeDecreaseWith_destroyT]

/-- When `other` is a variable of the caller, which no release can destroy, and the pointee
has no handle members, assignment through the reference is assignment of the value. -/
theorem SharedPtr.assign_copy_ref_frame (esft : Bool) (a b : SharedPtr) (h : Heap) :
    SharedPtr.assign_copy_ref (destroyT esft) esft a (fun _ => some b) h =
      SharedPtr.assign_copy esft a b h := by
  unfold SharedPtr.assign_copy_ref SharedPtr.assign_copy
  simp only [SharedPtr.SafeDecreaseWith_destroyT]

/-! ## Copy assignment -/

/-- The statement `a = a->next` for `struct Node { SharedPtr<Node> next; };` after
`SharedPtr<Node> a(new Node); a->next = SharedPtr<Node>(new Node);`. The two constructors
give blocks 0 and 1 with one strong unit each. The raw pointers differ, so `a` releases
block 0; this destroys the first node, whose destructor releases block 1 and so destroys the
second node; both blocks are deleted. The reference `a->next` then denotes a member of a
destroyed object, and the assignment reads it: the behaviour is undefined. This holds for
every bound `k + 2` on the depth of destructor calls, so no result is lost to the bound. -/
theorem SharedPtr.assign_copy_ref_own_member (k : Nat) :
    ∃ (hA hB h1 : Heap),
      SharedPtr.ctor_ptr false (some 0) Heap.empty.newObject.2.newObject.2 =
        some (⟨some 0, some 0⟩, hA) ∧
      SharedPtr.ctor_ptr false (some 1) hA = some (⟨some 1, some 1⟩, hB) ∧
      hB.useCount 0 = 1 ∧ hB.useCount 1 = 1 ∧
      memberNext (fun p => if p = 0 then ⟨some 1, some 1⟩ else ⟨none, none⟩) 0 hB =
        some ⟨some 1, some 1⟩ ∧
      SharedPtr.SafeDecreaseWith
          (destroyNode (fun p => if p = 0 then ⟨some 1, some 1⟩ else ⟨none, none⟩) (k + 2))
          false ⟨some 0, some 0⟩ hB = some (⟨none, none⟩, h1) ∧
      h1.log = [Event.destroyObject 1, Event.deleteBlock 1, Event.destroyObject 0,
        Event.deleteBlock 0] ∧
      h1.block 1 = none ∧
      memberNext (fun p => if p = 0 then ⟨some 1, some 1⟩ else ⟨none, none⟩) 0 h1 = none ∧
      SharedPtr.assign_copy_ref
          (destroyNode (fun p => if p = 0 then ⟨some 1, some 1⟩ else ⟨none, none⟩) (k + 2))
          false ⟨some 0, some 0⟩
          (memberNext (fun p => if p = 0 then ⟨some 1, some 1⟩ else ⟨none, none⟩) 0) hB =
        none :=
  ⟨_, _, _, rfl, rfl, rfl, rfl, rfl, rfl, rfl, rfl, rfl, rfl⟩


/-- C2, a run on which the claim fails. `struct W { WeakPtr<W> self; };` is not self-aware.
After `SharedPtr<W> sp(new W); sp->self = sp;` block 0 has one strong and one weak unit.
`sp.Reset()` calls `DecreaseUsage`, which lowers `use_count_` to 0 and runs
`delete object_`. The destructor of the pointee destroys the member `self`, which gives back
the weak unit: `DecreaseWeakUsage` finds `use_count_ + weak_count_ == 0` and deletes the
block, inside the release of the strong unit and before the destructor of the pointee has
ended. Back in `DecreaseUsage` the test `use_count_ + weak_count_ == 0` reads the counters
of the deleted block, and `delete this` on it would be a second deletion: the behaviour is
undefined. -/
theorem C2_weak_member_block_deleted_inside_release :
    ∃ (sp : SharedPtr) (w : WeakPtr) (h1 h2 h3 : Heap),
      SharedPtr.ctor_ptr false (some 0) Heap.empty.newObject.2 = some (sp, h1) ∧
      WeakPtr.assign_shared WeakPtr.empty sp h1 = some (w, h2) ∧
      h2.block 0 = some ⟨BlockKind.BlockWithPointer, 1, 1, some 0, false⟩ ∧
      h2.useCount 0 = 1 ∧ h2.weakCount 0 = 1 ∧ h2.log = [] ∧
      deleteObjectWith (destroyWeakHolder fun _ => w)
          (h2.setBlock 0 ⟨BlockKind.BlockWithPointer, preDec 1, 1, some 0, false⟩)
          (some 0) = some h3 ∧
      h3.log = [Event.deleteBlock 0, Event.destroyObject 0] ∧
      h3.block 0 = none ∧ deleteThis h3 0 = none ∧
      ControlBlock.DecreaseUsageWith (destroyWeakHolder fun _ => w) false h2 0 = none ∧
      sp.ResetWith (destroyWeakHolder fun _ => w) false h2 = none ∧
      SharedPtr.dtor false sp h1 =
        some (SharedPtr.empty,
          ⟨[⟨BlockKind.BlockWithPointer, 0, 0, some 0, true⟩], [⟨⟨none, none⟩, true⟩],
            [Event.destroyObject 0, Event.deleteBlock 0]⟩) :=
  ⟨_, _, _, _, _, rfl, rfl, rfl, rfl, rfl, rfl, rfl, rfl, rfl, rfl, rfl, rfl, rfl⟩

/-! ## UniquePtr: move assignment deletes before it releases -/

/-- `Release()` on a `UniquePtr` object that exists returns the held pointer, leaves
`Get() == nullptr` and calls no deleter. -/
theorem UniquePtr.Release_spec (s : UniqueHeap) (self : UniqueRef) (v : Option Nat)
    (hv : s.GetFirst self = some v) :
    ∃ s1, UniquePtr.Release s self = some (v, s1) ∧ UniquePtr.Get s1 self = some none ∧
      s1.calls = s.calls := by
  cases self with
  | var i =>
    have hv' : s.vars[i]? = some v := hv
    have hi : i < s.vars.length := by
      rcases Nat.lt_or_ge i s.vars.length with hlt | hge
      · exact hlt
      · rw [List.getElem?_eq_none hge] at hv'; cases hv'
    refine ⟨{ s with vars := s.vars.set i none }, ?_, ?_, rfl⟩
    · simp [UniquePtr.Release, UniqueHeap.GetFirst, UniqueHeap.setFirst, hv', hi]
    · simp [UniquePtr.Get, UniqueHeap.GetFirst, hi]
  | next p =>
    have hv' : (match s.node p with
        | none => none
        | some n => some n.next) = some v := hv
    cases hn : s.node p with
    | none => rw [hn] at hv'; cases hv'
    | some n =>
      rw [hn] at hv'
      cases hv'
      have hn' := hn
      unfold UniqueHeap.node at hn'
      cases hg : s.nodes[p]? with
      | none => rw [hg] at hn'; cases hn'
      | some m =>
        rw [hg] at hn'
        by_cases hf : m.freed = true
        · have hn2 : (if m.freed = true then none else some m) = some n := hn'
          rw [if_pos hf] at hn2
          cases hn2
        · have hn2 : (if m.freed = true then none else some m) = some n := hn'
          rw [if_neg hf] at hn2
          cases hn2
          have hp : p < s.nodes.length := by
            rcases Nat.lt_or_ge p s.nodes.length with hlt | hge
            · exact hlt
            · rw [List.getElem?_eq_none hge] at hg; cases hg
          refine ⟨{ s with nodes := s.nodes.set p { n with next := none } }, ?_, ?_, rfl⟩
          · simp [UniquePtr.Release, UniqueHeap.GetFirst, UniqueHeap.setFirst, hn]
          · simp [UniquePtr.Get, UniqueHeap.GetFirst, UniqueHeap.node, hp, hf]

/-- C21, a run on which the claim fails, for `struct Node { UniquePtr<Node> next; };` and
the default deleter. After `UniquePtr<Node> head(new Node); head->next.Reset(new Node);`
the variable holds node 0, whose member `next` holds node 1; each pointer was handed to one
`UniquePtr` once. `head = std::move(head->next)` first calls `TryDelete` on node 0:
`delete` runs the destructor of the member `next`, which deletes node 1, the pointer the
assignment is about to take over; both nodes are freed. `other.Release()` then reads the
member of the freed node 0: the behaviour is undefined, and a later deletion of node 1 by
`head` would be the second one. This holds for every bound `k + 2` on the depth of deleter
calls. With the release first, `head.Reset(head->next.Release())`, the same program deletes
node 0 only and `head` ends with node 1; and `a = std::move(b)` for two variables of the
caller deletes the old pointer of `a` only. -/
theorem C21_move_assign_from_own_member_deletes_source (k : Nat) :
    ∃ (s1 s2 s3 : UniqueHeap),
      UniquePtr.Reset (SimpleDeleter.call (k + 2))
          (UniquePtr.ctor (UniqueHeap.newNode ⟨[], [], []⟩).2 (some 0)).newNode.2
          (UniqueRef.next 0) (some 1) =
        some ⟨[some 0], [⟨some 1, false⟩, ⟨none, false⟩], []⟩ ∧
      UniquePtr.TryDelete (SimpleDeleter.call (k + 2))
          ⟨[some 0], [⟨some 1, false⟩, ⟨none, false⟩], []⟩ (some 0) = some s1 ∧
      s1.calls = [0, 1] ∧ s1.node 0 = none ∧ s1.node 1 = none ∧
      UniquePtr.Release s1 (UniqueRef.next 0) = none ∧
      UniquePtr.assign_move (SimpleDeleter.call (k + 2))
          ⟨[some 0], [⟨some 1, false⟩, ⟨none, false⟩], []⟩
          (UniqueRef.var 0) (UniqueRef.next 0) = none ∧
      SimpleDeleter.call (k + 2) s1 1 = none ∧
      UniquePtr.Release ⟨[some 0], [⟨some 1, false⟩, ⟨none, false⟩], []⟩ (UniqueRef.next 0) =
        some (some 1, s2) ∧
      UniquePtr.Reset (SimpleDeleter.call (k + 2)) s2 (UniqueRef.var 0) (some 1) =
        some ⟨[some 1], [⟨none, true⟩, ⟨none, false⟩], [0]⟩ ∧
      UniquePtr.assign_move (SimpleDeleter.call (k + 2))
          ⟨[some 0, some 1], [⟨none, false⟩, ⟨none, false⟩], []⟩
          (UniqueRef.var 0) (UniqueRef.var 1) = some s3 ∧
      s3 = ⟨[some 1, none], [⟨none, true⟩, ⟨none, false⟩], [0]⟩ :=
  ⟨_, _, _, rfl, rfl, rfl, rfl, rfl, rfl, rfl, rfl, rfl, rfl, rfl, rfl⟩

end SmartPtrs
